import Mathlib

/-!
# OvenMediaEngine: the transcode stream

A shallow embedding of `src/projects/transcode/transcode_stream.cpp` and of
`src/projects/modules/codec_analyzer/h264/h264_fragment_header.cpp`.

* `std::map<K, V>` is a list of key/value pairs kept in key order
  (`OvMap.assign` is `m[k] = v`, `OvMap.insertNew` is `m.insert`,
  `OvMap.erase` is `m.erase(k)`), `std::set<K>` a list kept in order.
* `ov::String` is the list of its characters.
* `std::shared_ptr<T>` that may be null is `Option T`.
* `uint8_t` values are naturals below 256, `int32_t` values are integers, `size_t`
  arithmetic is taken modulo `2 ^ 64`.
* The worker threads are not run: every member function is the sequential
  function of the state it reads and writes, and `Stop` includes what the
  decode worker it joins does on its way out.
* A read past the end of a `std::vector` yields a value that the
  environment `Env` supplies.
-/

namespace Transcode

/-! ## Containers -/

/-- The type `ov::String`, as the list of its characters. -/
abbrev OvString := List Char

namespace OvMap

/-- The lookup `m.find(k)`: the mapped value, or `none` for `m.end()`. -/
def find {K V : Type} [DecidableEq K] : List (K × V) → K → Option V
  | [], _ => none
  | (k1, v1) :: rest, k => if k1 = k then some v1 else find rest k

/-- The assignment `m[k] = v`: the entry is created in key order, or overwritten. -/
def assign {K V : Type} [LinearOrder K] (k : K) (v : V) : List (K × V) → List (K × V)
  | [] => [(k, v)]
  | (k1, v1) :: rest =>
    if k < k1 then (k, v) :: (k1, v1) :: rest
    else if k = k1 then (k, v) :: rest
    else (k1, v1) :: assign k v rest

/-- The call `m.insert(std::make_pair(k, v))`: an existing entry is kept. -/
def insertNew {K V : Type} [LinearOrder K] (k : K) (v : V) : List (K × V) → List (K × V)
  | [] => [(k, v)]
  | (k1, v1) :: rest =>
    if k < k1 then (k, v) :: (k1, v1) :: rest
    else if k = k1 then (k1, v1) :: rest
    else (k1, v1) :: insertNew k v rest

/-- The call `m.erase(k)`. -/
def erase {K V : Type} [DecidableEq K] (k : K) (m : List (K × V)) : List (K × V) :=
  m.filter (fun e => decide (e.1 ≠ k))

/-- The keys of the map, in iteration order. -/
def keys {K V : Type} (m : List (K × V)) : List K :=
  m.map Prod.fst

end OvMap

namespace OvSet

/-- The call `s.insert(k)` on a `std::set`. -/
def insert {K : Type} [LinearOrder K] (k : K) : List K → List K
  | [] => [k]
  | k1 :: rest =>
    if k < k1 then k :: k1 :: rest
    else if k = k1 then k1 :: rest
    else k1 :: insert k rest

end OvSet

/-- Modelled from the spec: the bounded queue with abort of section 4.1, whose class is
not part of the sources at hand. `push` appends and never blocks, `size` is the
current depth, `abort` wakes the waiters and makes later `pop`s return null. -/
structure MediaQueue (α : Type) where
  items : List α
  aborted : Bool
deriving DecidableEq

namespace MediaQueue

/-- The empty queue. -/
def empty {α : Type} : MediaQueue α := { items := [], aborted := false }

/-- The call `q.size()`. -/
def size {α : Type} (q : MediaQueue α) : Nat := q.items.length

/-- The call `q.push(item)`: appends at the back. -/
def push {α : Type} (q : MediaQueue α) (item : α) : MediaQueue α :=
  { q with items := q.items ++ [item] }

/-- The call `q.abort()`. -/
def abort {α : Type} (q : MediaQueue α) : MediaQueue α :=
  { q with aborted := true }

end MediaQueue

/-! ## Media types -/

/-- Modelled from the spec: `common::MediaType`, the `MediaKind` of section 3. The
enumeration is declared outside the sources at hand; `Unknown` stands for every
enumerator other than `Video` and `Audio` (the `default:` and `else` branches). -/
inductive MediaType where
  | Unknown
  | Video
  | Audio
deriving DecidableEq

/-- Modelled from the spec: `common::MediaCodecId`, the `CodecId` of section 3, with
the enumerators `GetCodecId` returns. -/
inductive MediaCodecId where
  | None
  | H264
  | Vp8
  | Vp9
  | Flv
  | Aac
  | Mp3
  | Opus
deriving DecidableEq

/-- Modelled from the spec: `TranscodeResult`, the result of `recv_buffer` in
section 4.2. `Error` and `EndOfStream` are the terminal results. -/
inductive TranscodeResult where
  | DataReady
  | NoData
  | FormatChanged
  | Error
  | EndOfStream
deriving DecidableEq

/-- Modelled from the spec: `TranscodeContext` (section 3). The two C++ constructors
are `TranscodeContext.video` and `TranscodeContext.audio`; numeric parameters are
kept as integers, they are only copied around. -/
structure TranscodeContext where
  is_encoding_context : Bool
  media_type : MediaType
  codec_id : MediaCodecId
  bitrate : Int
  video_width : Int
  video_height : Int
  frame_rate : Int
  audio_sample_rate : Int
  audio_sample_format : Int
  audio_channel_layout : Int
  time_base : Int × Int
deriving DecidableEq

/-- The video constructor `TranscodeContext(encoding, codec, bitrate, width, height, framerate)`. -/
def TranscodeContext.video (enc : Bool) (codec : MediaCodecId) (bitrate width height fr : Int) :
    TranscodeContext :=
  { is_encoding_context := enc, media_type := MediaType.Video, codec_id := codec,
    bitrate := bitrate, video_width := width, video_height := height, frame_rate := fr,
    audio_sample_rate := 0, audio_sample_format := 0, audio_channel_layout := 0,
    time_base := (0, 0) }

/-- The audio constructor `TranscodeContext(encoding, codec, bitrate, samplerate)`. -/
def TranscodeContext.audio (enc : Bool) (codec : MediaCodecId) (bitrate sr : Int) :
    TranscodeContext :=
  { is_encoding_context := enc, media_type := MediaType.Audio, codec_id := codec,
    bitrate := bitrate, video_width := 0, video_height := 0, frame_rate := 0,
    audio_sample_rate := sr, audio_sample_format := 0, audio_channel_layout := 0,
    time_base := (0, 0) }

/-- Modelled from the spec: `MediaTrack`, one track of a `StreamInfo` (section 3). -/
structure MediaTrack where
  id : Nat
  media_type : MediaType
  codec_id : MediaCodecId
  bitrate : Int
  width : Int
  height : Int
  format : Int
  frame_rate : Int
  sample_rate : Int
  sample_format : Int
  channel_layout : Int
  time_base : Int × Int
deriving DecidableEq

/-- Modelled from the spec: `StreamInfo`, a name and its tracks keyed by track id. -/
structure StreamInfo where
  name : OvString
  tracks : List (Nat × MediaTrack)
deriving DecidableEq

/-- Modelled from the spec: `MediaPacket` (section 3), a coded unit. -/
structure MediaPacket where
  track_id : Int
  pts : Int
  dts : Int
  flags : Int
  data : List Nat
deriving DecidableEq

/-- The deep copy `packet->ClonePacket()`. -/
def MediaPacket.ClonePacket (p : MediaPacket) : MediaPacket := p

/-- Modelled from the spec: `MediaFrame` (section 3), a decoded unit. -/
structure MediaFrame where
  track_id : Int
  pts : Int
  width : Int
  height : Int
  format : Int
  sample_rate : Int
  channel_layout : Int
  data : List Nat
deriving DecidableEq

/-- The setter `frame->SetTrackId(track_id)`. -/
def MediaFrame.SetTrackId (f : MediaFrame) (track_id : Int) : MediaFrame :=
  { f with track_id := track_id }

/-- Modelled from the spec: `TranscodeFilter`, built from
`(source_track, input_context, output_context)` (section 4.2). -/
structure TranscodeFilter where
  media_track : MediaTrack
  input_context : TranscodeContext
  output_context : TranscodeContext
deriving DecidableEq

/-! ## Configuration -/

/-- The video sub-profile of an encode profile. `bitrate` is the value `GetBitrate`
yields for the configured literal. -/
structure VideoProfile where
  active : Bool
  codec : OvString
  bitrate : Int
  width : Int
  height : Int
  framerate : Int
deriving DecidableEq

/-- The audio sub-profile of an encode profile. -/
structure AudioProfile where
  active : Bool
  codec : OvString
  bitrate : Int
  samplerate : Int
deriving DecidableEq

/-- One entry of `GetEncodeList()`. A null sub-profile is `none`. -/
structure Encode where
  name : OvString
  active : Bool
  video_profile : Option VideoProfile
  audio_profile : Option AudioProfile
deriving DecidableEq

/-- One entry of `GetStreamList()`: the name template and the names of its profiles. -/
structure StreamConfig where
  name : OvString
  profiles : List OvString
deriving DecidableEq

/-- The part of `info::Application` the engine reads. -/
structure Application where
  id : Nat
  encodes : List Encode
  streams : List StreamConfig
deriving DecidableEq

/-- What the engine cannot decide itself: whether the codec library yields a decoder
or an encoder (a null pointer otherwise), whether the three threads start (when they
do not, none of them is taken as started), the value the kill flag holds before the
constructor body runs, and the value that reading the element `i` of the vector `v`
yields when `i` is past its end. -/
structure Env where
  decoder_available : MediaCodecId → TranscodeContext → Bool
  encoder_available : MediaCodecId → TranscodeContext → Bool
  threads_start : Bool
  kill_flag_before : Bool
  read_past_end : List Nat → Nat → Nat

/-- The read `v[i]` of a `std::vector<uint8_t>`, which does not test `i` against the
size of the vector. -/
def VectorAt (env : Env) (v : List Nat) (i : Nat) : Nat :=
  match v[i]? with
  | some x => x
  | none => env.read_past_end v i % 256

/-- A call the engine makes on its parent application. -/
inductive ParentCall where
  | CreateStream (info : StreamInfo)
  | DeleteStream (info : StreamInfo)
  | SendFrame (info : StreamInfo) (packet : MediaPacket)
deriving DecidableEq

/-! ## Free functions -/

/-- The function `GetCodecId`; `MakeUpper` maps every character to upper case. -/
def GetCodecId (name : OvString) : MediaCodecId :=
  let name := name.map Char.toUpper
  if name = "H264".toList then MediaCodecId.H264
  else if name = "VP8".toList then MediaCodecId.Vp8
  else if name = "VP9".toList then MediaCodecId.Vp9
  else if name = "FLV".toList then MediaCodecId.Flv
  else if name = "AAC".toList then MediaCodecId.Aac
  else if name = "MP3".toList then MediaCodecId.Mp3
  else if name = "OPUS".toList then MediaCodecId.Opus
  else MediaCodecId.None

/-- The text of the substitution mark of a stream name template. -/
def OriginStreamName : OvString := "$\x7bOriginStreamName\x7d".toList

/-- Scans `s` left to right; `skip` characters of a match just replaced are dropped. -/
def ReplaceFrom (old new : OvString) : Nat → OvString → OvString
  | _, [] => []
  | skip + 1, _ :: cs => ReplaceFrom old new skip cs
  | 0, c :: cs =>
    if old ≠ [] ∧ old.isPrefixOf (c :: cs) = true then
      new ++ ReplaceFrom old new (old.length - 1) cs
    else
      c :: ReplaceFrom old new 0 cs

/-- Modelled from the spec: `ov::String::Replace`, which is not among the sources:
every occurrence of `old` is substituted by `new` (sections 4.4 and 6). -/
def Replace (s old new : OvString) : OvString :=
  ReplaceFrom old new 0 s

/-- The conversion of a `uint32_t` to `int32_t`. -/
def toInt32 (n : Nat) : Int :=
  if n % 2 ^ 32 < 2 ^ 31 then ((n % 2 ^ 32 : Nat) : Int) else ((n % 2 ^ 32 : Nat) : Int) - 2 ^ 32

/-- The conversion of an `int32_t` to `uint32_t`. -/
def toUInt32 (i : Int) : Nat :=
  (i % 2 ^ 32).toNat

/-- The conversion `static_cast<uint8_t>` of an `int32_t`. -/
def toUInt8 (i : Int) : Nat :=
  (i % 256).toNat

/-- The call `stream_info->GetTrack(id)`: the track, or null. -/
def StreamInfo.GetTrack (info : StreamInfo) (id : Int) : Option MediaTrack :=
  OvMap.find info.tracks (toUInt32 id)

/-- Modelled from the spec: `StreamInfo::AddTrack`, which files the track under its id. -/
def StreamInfo.AddTrack (info : StreamInfo) (track : MediaTrack) : StreamInfo :=
  { info with tracks := OvMap.insertNew track.id track info.tracks }

/-! ## The engine -/

/-- The static member `TranscodeStream::_stream_list`. -/
abbrev StreamList := List (Nat × List OvString)

/-- The data members of `TranscodeStream`. A decoder or an encoder is an object of
the codec library; the maps keep the context it was created from. A thread member is
true while the thread is joinable, that is started and not yet joined. -/
structure TranscodeStream where
  _application_info : Application
  _stream_info_input : StreamInfo
  _stream_info_outputs : List (OvString × StreamInfo)
  _stream_tracks : List (OvString × List Nat)
  _output_contexts : List (Nat × TranscodeContext)
  _decoders : List (Int × TranscodeContext)
  _encoders : List (Int × TranscodeContext)
  _filters : List (Int × TranscodeFilter)
  _queue : MediaQueue (Option MediaPacket)
  _queue_decoded : MediaQueue MediaFrame
  _queue_filterd : MediaQueue MediaFrame
  _last_track_video : Nat
  _last_track_audio : Nat
  _max_queue_size : Nat
  _stats_decoded_frame_count : Nat
  _stats_queue_full_count : Nat
  _kill_flag : Bool
  _thread_decode : Bool
  _thread_filter : Bool
  _thread_encode : Bool
deriving DecidableEq

/-- The member function `Push`. -/
def TranscodeStream.Push (s : TranscodeStream) (packet : Option MediaPacket) :
    Bool × TranscodeStream :=
  if s._encoders.isEmpty then
    (false, s)
  else if s._queue.size > s._max_queue_size then
    (false, s)
  else
    (true, { s with _queue := s._queue.push packet })

/-- The member function `AddOutputContext`; the result is the returned track id and
the engine afterwards. The counters are `uint8_t`. -/
def TranscodeStream.AddOutputContext (s : TranscodeStream) (media_type : MediaType)
    (output_context : TranscodeContext) : Nat × TranscodeStream :=
  match media_type with
  | MediaType.Video =>
    if s._last_track_video ≥ 0x70 then
      (0, s)
    else
      let last_index := s._last_track_video
      (last_index,
        { s with
          _last_track_video := (s._last_track_video + 1) % 256
          _output_contexts := OvMap.assign last_index output_context s._output_contexts })
  | MediaType.Audio =>
    if s._last_track_audio > 0x7F then
      (0, s)
    else
      let last_index := s._last_track_audio
      (last_index,
        { s with
          _last_track_audio := (s._last_track_audio + 1) % 256
          _output_contexts := OvMap.assign last_index output_context s._output_contexts })
  | MediaType.Unknown =>
    (0, { s with _output_contexts := OvMap.assign 0 output_context s._output_contexts })

/-- The member function `AddStreamInfoOutput`, on the engine and the static
`_stream_list`. -/
def TranscodeStream.AddStreamInfoOutput (s : TranscodeStream) (stream_list : StreamList)
    (stream_name : OvString) : Bool × StreamList × TranscodeStream :=
  match OvMap.find stream_list s._application_info.id with
  | none => (false, stream_list, s)
  | some names =>
    if stream_name ∈ names then
      (false, stream_list, s)
    else
      let stream_info_output : StreamInfo := { name := stream_name, tracks := [] }
      (true,
        OvMap.assign s._application_info.id (OvSet.insert stream_name names) stream_list,
        { s with
          _stream_info_outputs :=
            OvMap.insertNew stream_name stream_info_output s._stream_info_outputs })

/-- The member function `CreateStreams`: the calls made on the parent. -/
def TranscodeStream.CreateStreams (s : TranscodeStream) : List ParentCall :=
  s._stream_info_outputs.map (fun iter => ParentCall.CreateStream iter.2)

/-- The member function `DeleteStreams`: the calls made on the parent, the static
`_stream_list` and the engine afterwards. -/
def TranscodeStream.DeleteStreams (s : TranscodeStream) (stream_list : StreamList) :
    List ParentCall × StreamList × TranscodeStream :=
  (s._stream_info_outputs.map (fun iter => ParentCall.DeleteStream iter.2),
    OvMap.assign s._application_info.id [] stream_list,
    { s with _stream_info_outputs := [] })

/-- The member function `Stop`, together with what the workers it joins do on their
way out: the calls made on the parent, the static `_stream_list` and the engine
afterwards. The workers are taken to wait in `pop` when `Stop` is called. The decode
worker, if joinable, leaves the loop of `DecodeTask` and runs `DeleteStreams`; the
filter and the encode worker leave theirs without writing a data member. -/
def TranscodeStream.Stop (s : TranscodeStream) (stream_list : StreamList) :
    List ParentCall × StreamList × TranscodeStream :=
  let s1 := { s with _kill_flag := true, _queue := s._queue.abort }
  let joined : List ParentCall × StreamList × TranscodeStream :=
    if s1._thread_decode then
      let d := s1.DeleteStreams stream_list
      (d.1, d.2.1, { d.2.2 with _thread_decode := false })
    else
      ([], stream_list, s1)
  (joined.1, joined.2.1,
    { joined.2.2 with
      _queue_decoded := joined.2.2._queue_decoded.abort
      _thread_filter := false
      _queue_filterd := joined.2.2._queue_filterd.abort
      _thread_encode := false })

/-- The loop of `SendFrame` over `_stream_info_outputs`. -/
def TranscodeStream.SendFrameLoop (stream_tracks : List (OvString × List Nat)) (track_id : Nat)
    (packet : MediaPacket) : List (OvString × StreamInfo) → List ParentCall
  | [] => []
  | (name, info) :: rest =>
    match OvMap.find stream_tracks name with
    | none => SendFrameLoop stream_tracks track_id packet rest
    | some tracks =>
      if track_id ∈ tracks then
        ParentCall.SendFrame info packet.ClonePacket ::
          SendFrameLoop stream_tracks track_id packet rest
      else
        SendFrameLoop stream_tracks track_id packet rest

/-- The member function `SendFrame`: the calls made on the parent, in order. -/
def TranscodeStream.SendFrame (s : TranscodeStream) (packet : MediaPacket) : List ParentCall :=
  let track_id := toUInt8 packet.track_id
  TranscodeStream.SendFrameLoop s._stream_tracks track_id packet s._stream_info_outputs

/-- The member function `CreateDecoder`. -/
def TranscodeStream.CreateDecoder (env : Env) (s : TranscodeStream) (media_track_id : Int)
    (input_context : TranscodeContext) : TranscodeStream :=
  match s._stream_info_input.GetTrack media_track_id with
  | none => s
  | some track =>
    if env.decoder_available track.codec_id input_context then
      { s with _decoders := OvMap.assign media_track_id input_context s._decoders }
    else
      s

/-- The member function `CreateEncoder` on a non-null track. -/
def TranscodeStream.CreateEncoder (env : Env) (s : TranscodeStream) (media_track : MediaTrack)
    (output_context : TranscodeContext) : TranscodeStream :=
  if env.encoder_available media_track.codec_id output_context then
    { s with _encoders := OvMap.assign (toInt32 media_track.id) output_context s._encoders }
  else
    s

/-- The loop of `CreateFilters` over `_output_contexts`: the filters and the source
track, whose format fields the loop overwrites. -/
def TranscodeStream.CreateFiltersLoop (buffer : MediaFrame) :
    List (Nat × TranscodeContext) → MediaTrack → List (Int × TranscodeFilter) →
    MediaTrack × List (Int × TranscodeFilter)
  | [], media_track, filters => (media_track, filters)
  | (key, output_context) :: rest, media_track, filters =>
    if media_track.media_type ≠ output_context.media_type then
      CreateFiltersLoop buffer rest media_track filters
    else
      match media_track.media_type with
      | MediaType.Video =>
        let track1 :=
          { media_track with width := buffer.width, height := buffer.height, format := buffer.format }
        let input_context :=
          { TranscodeContext.video false track1.codec_id track1.bitrate track1.width
              track1.height track1.frame_rate with time_base := track1.time_base }
        CreateFiltersLoop buffer rest track1
          (OvMap.assign (key : Int) ⟨track1, input_context, output_context⟩ filters)
      | MediaType.Audio =>
        let track1 :=
          { media_track with
            sample_rate := buffer.sample_rate
            sample_format := buffer.format
            channel_layout := buffer.channel_layout }
        let input_context :=
          { TranscodeContext.audio false track1.codec_id track1.bitrate track1.sample_rate with
            time_base := track1.time_base
            audio_sample_format := track1.sample_format
            audio_channel_layout := buffer.channel_layout }
        CreateFiltersLoop buffer rest track1
          (OvMap.assign (key : Int) ⟨track1, input_context, output_context⟩ filters)
      | MediaType.Unknown => CreateFiltersLoop buffer rest media_track filters

/-- The member function `CreateFilters`; `key` is where the source track sits in the
input stream. -/
def TranscodeStream.CreateFilters (s : TranscodeStream) (key : Nat) (media_track : MediaTrack)
    (buffer : MediaFrame) : TranscodeStream :=
  let r := TranscodeStream.CreateFiltersLoop buffer s._output_contexts media_track s._filters
  { s with
    _filters := r.2
    _stream_info_input :=
      { s._stream_info_input with tracks := OvMap.assign key r.1 s._stream_info_input.tracks } }

/-- The member function `ChangeOutputFormat` on a non-null buffer. -/
def TranscodeStream.ChangeOutputFormat (s : TranscodeStream) (buffer : MediaFrame) :
    TranscodeStream :=
  let track_id := buffer.track_id
  match s._stream_info_input.GetTrack track_id with
  | none => s
  | some track => s.CreateFilters (toUInt32 track_id) track buffer

/-- What `DecodePacket` does with the frame of the `n`-th `RecvBuffer` call. -/
inductive DecodeEvent where
  | ChangeOutputFormat (n : Nat) (frame : MediaFrame)
  | Push (n : Nat) (frame : MediaFrame)
deriving DecidableEq

/-- The statement `_stats_decoded_frame_count++` of `DecodePacket`. -/
def TranscodeStream.CountDecodedFrame (s : TranscodeStream) : TranscodeStream :=
  { s with _stats_decoded_frame_count := s._stats_decoded_frame_count + 1 }

/-- The statement `_queue_decoded.push(std::move(decoded_frame))` of `DecodePacket`. -/
def TranscodeStream.PushDecoded (s : TranscodeStream) (decoded_frame : MediaFrame) :
    TranscodeStream :=
  { s with _queue_decoded := s._queue_decoded.push decoded_frame }

/-- The `while (true)` loop of `DecodePacket`. `outputs` are the results the decoder
hands out at the successive `RecvBuffer` calls, `n` counts the calls made so far;
a decoder with nothing left reports `NoData`. -/
def TranscodeStream.DecodeLoop (track_id : Int) :
    List (TranscodeResult × MediaFrame) → Nat → TranscodeStream → List DecodeEvent →
    TranscodeResult × TranscodeStream × List DecodeEvent
  | [], _, s, log => (TranscodeResult.NoData, s, log)
  | (result, decoded_frame) :: outputs, n, s, log =>
    match result with
    | TranscodeResult.FormatChanged =>
      let frame1 := decoded_frame.SetTrackId track_id
      let s1 := s.ChangeOutputFormat frame1
      let log1 := log ++ [DecodeEvent.ChangeOutputFormat n frame1]
      -- no break: the DataReady case follows
      let frame2 := frame1.SetTrackId track_id
      let s2 := s1.CountDecodedFrame
      if s2._queue_decoded.size > s2._max_queue_size then
        (result, s2, log1)
      else
        DecodeLoop track_id outputs (n + 1) (s2.PushDecoded frame2)
          (log1 ++ [DecodeEvent.Push n frame2])
    | TranscodeResult.DataReady =>
      let frame2 := decoded_frame.SetTrackId track_id
      let s2 := s.CountDecodedFrame
      if s2._queue_decoded.size > s2._max_queue_size then
        (result, s2, log)
      else
        DecodeLoop track_id outputs (n + 1) (s2.PushDecoded frame2)
          (log ++ [DecodeEvent.Push n frame2])
    | _ => (result, s, log)

/-- The member function `DecodePacket`: the result, the engine afterwards and what was
done with the decoded frames. The packet goes to the decoder, whose answers are
`outputs`. -/
def TranscodeStream.DecodePacket (s : TranscodeStream) (track_id : Int) (_packet : MediaPacket)
    (outputs : List (TranscodeResult × MediaFrame)) :
    TranscodeResult × TranscodeStream × List DecodeEvent :=
  match OvMap.find s._decoders track_id with
  | none => (TranscodeResult.NoData, s, [])
  | some _ => TranscodeStream.DecodeLoop track_id outputs 0 s []

/-! ## The constructor -/

/-- The loop of `CreateEncoders` over `_stream_tracks`: the new track is added to every
output stream whose track list holds `key`. -/
def TranscodeStream.AddTrackLoop (new_track : MediaTrack) (key : Nat) :
    List (OvString × List Nat) → List (OvString × StreamInfo) → List (OvString × StreamInfo)
  | [], outputs => outputs
  | (name, tracks) :: rest, outputs =>
    if key ∈ tracks then
      match OvMap.find outputs name with
      | none => AddTrackLoop new_track key rest outputs
      | some info =>
        AddTrackLoop new_track key rest (OvMap.assign name (info.AddTrack new_track) outputs)
    else
      AddTrackLoop new_track key rest outputs

/-- The track `CreateEncoders` builds for the output context filed under `key`. -/
def TranscodeStream.NewTrack (media_type : MediaType) (key : Nat)
    (output_context : TranscodeContext) : MediaTrack :=
  let new_track : MediaTrack :=
    { id := key, media_type := media_type, codec_id := output_context.codec_id,
      bitrate := output_context.bitrate, width := 0, height := 0, format := 0,
      frame_rate := 0, sample_rate := 0, sample_format := 0, channel_layout := 0,
      time_base := output_context.time_base }
  match media_type with
  | MediaType.Video =>
    { new_track with
      width := output_context.video_width
      height := output_context.video_height
      frame_rate := output_context.frame_rate }
  | MediaType.Audio =>
    { new_track with
      sample_rate := output_context.audio_sample_rate
      sample_format := output_context.audio_sample_format
      channel_layout := output_context.audio_channel_layout }
  | MediaType.Unknown => new_track

/-- The loop of `CreateEncoders` over `_output_contexts`. -/
def TranscodeStream.CreateEncodersLoop (env : Env) (media_track : MediaTrack) :
    List (Nat × TranscodeContext) → TranscodeStream → TranscodeStream
  | [], s => s
  | (key, output_context) :: rest, s =>
    if media_track.media_type ≠ output_context.media_type then
      CreateEncodersLoop env media_track rest s
    else if media_track.media_type = MediaType.Unknown then
      CreateEncodersLoop env media_track rest s
    else
      let new_track := TranscodeStream.NewTrack media_track.media_type key output_context
      let s1 :=
        { s with
          _stream_info_outputs :=
            TranscodeStream.AddTrackLoop new_track key s._stream_tracks s._stream_info_outputs }
      CreateEncodersLoop env media_track rest (s1.CreateEncoder env new_track output_context)

/-- The member function `CreateEncoders`. -/
def TranscodeStream.CreateEncoders (env : Env) (s : TranscodeStream) (media_track : MediaTrack) :
    TranscodeStream :=
  TranscodeStream.CreateEncodersLoop env media_track s._output_contexts s

/-- Modelled from the spec: the engine before the constructor body runs. The member
initialisers are in the class declaration, which is not among the sources; the
allocator of section 4.3 starts at `0x60` and `0x70`, the maps and queues are empty. -/
def TranscodeStream.Fresh (env : Env) (application_info : Application) : TranscodeStream :=
  { _application_info := application_info
    _stream_info_input := { name := [], tracks := [] }
    _stream_info_outputs := []
    _stream_tracks := []
    _output_contexts := []
    _decoders := []
    _encoders := []
    _filters := []
    _queue := MediaQueue.empty
    _queue_decoded := MediaQueue.empty
    _queue_filterd := MediaQueue.empty
    _last_track_video := 0x60
    _last_track_audio := 0x70
    _max_queue_size := 0
    _stats_decoded_frame_count := 0
    _stats_queue_full_count := 0
    _kill_flag := env.kill_flag_before
    _thread_decode := false
    _thread_filter := false
    _thread_encode := false }

/-- The loop `Prepare decoders` of the constructor, over the tracks of the input. -/
def TranscodeStream.PrepareDecoders (env : Env) :
    List (Nat × MediaTrack) → TranscodeStream → TranscodeStream
  | [], s => s
  | (_, track) :: rest, s =>
    match track.media_type with
    | MediaType.Video =>
      let input_context :=
        { TranscodeContext.video false track.codec_id track.bitrate track.width track.height
            track.frame_rate with time_base := track.time_base }
      PrepareDecoders env rest (s.CreateDecoder env (toInt32 track.id) input_context)
    | MediaType.Audio =>
      let input_context :=
        { TranscodeContext.audio false track.codec_id track.bitrate track.sample_rate with
          time_base := track.time_base }
      PrepareDecoders env rest (s.CreateDecoder env (toInt32 track.id) input_context)
    | MediaType.Unknown => PrepareDecoders env rest s

/-- The statements `track_id = AddOutputContext(media_type, output_context)` and
`if (track_id) tracks.push_back(track_id)`, on the engine and the vector `tracks`. -/
def TranscodeStream.AddProfileTrack (st : TranscodeStream × List Nat) (media_type : MediaType)
    (output_context : TranscodeContext) : TranscodeStream × List Nat :=
  let r := st.1.AddOutputContext media_type output_context
  if r.1 ≠ 0 then (r.2, st.2 ++ [r.1]) else (r.2, st.2)

/-- One turn of the loop `Generate track list by profile`: the engine, `profile_tracks`
and the local vector `tracks` afterwards. -/
def TranscodeStream.ProfileStep
    (st : TranscodeStream × List (OvString × List Nat) × List Nat) (encode : Encode) :
    TranscodeStream × List (OvString × List Nat) × List Nat :=
  if encode.active = false then
    st
  else
    let afterVideo : TranscodeStream × List Nat :=
      match encode.video_profile with
      | none => (st.1, st.2.2)
      | some video_profile =>
        if video_profile.active then
          TranscodeStream.AddProfileTrack (st.1, st.2.2) MediaType.Video
            (TranscodeContext.video true (GetCodecId video_profile.codec) video_profile.bitrate
              video_profile.width video_profile.height video_profile.framerate)
        else
          (st.1, st.2.2)
    let afterAudio : TranscodeStream × List Nat :=
      match encode.audio_profile with
      | none => afterVideo
      | some audio_profile =>
        if audio_profile.active then
          TranscodeStream.AddProfileTrack afterVideo MediaType.Audio
            (TranscodeContext.audio true (GetCodecId audio_profile.codec) audio_profile.bitrate
              audio_profile.samplerate)
        else
          afterVideo
    if afterAudio.2 ≠ [] then
      (afterAudio.1, OvMap.assign encode.name afterAudio.2 st.2.1, [])
    else
      (afterAudio.1, st.2.1, afterAudio.2)

/-- The loop `Generate track list by profile` of the constructor. -/
def TranscodeStream.GenerateProfileTracks (s : TranscodeStream) (encodes : List Encode) :
    TranscodeStream × List (OvString × List Nat) × List Nat :=
  encodes.foldl TranscodeStream.ProfileStep (s, [], [])

/-- The inner loop over the profiles of one stream: `tracks` afterwards. The reads
`item->second[0]` and `item->second[1]` are made whatever the size of the vector. -/
def TranscodeStream.StreamProfilesLoop (env : Env)
    (profile_tracks : List (OvString × List Nat)) : List OvString → List Nat → List Nat
  | [], tracks => tracks
  | profile :: rest, tracks =>
    match OvMap.find profile_tracks profile with
    | none => StreamProfilesLoop env profile_tracks rest tracks
    | some item =>
      StreamProfilesLoop env profile_tracks rest
        (tracks ++ [VectorAt env item 0, VectorAt env item 1])

/-- One turn of the loop `Generate track list by stream`. -/
def TranscodeStream.StreamStep (env : Env) (profile_tracks : List (OvString × List Nat))
    (origin : OvString) (st : StreamList × TranscodeStream × List Nat) (stream : StreamConfig) :
    StreamList × TranscodeStream × List Nat :=
  let stream_name := Replace stream.name OriginStreamName origin
  let r := st.2.1.AddStreamInfoOutput st.1 stream_name
  if r.1 = false then
    (r.2.1, r.2.2, st.2.2)
  else
    let tracks := TranscodeStream.StreamProfilesLoop env profile_tracks stream.profiles st.2.2
    (r.2.1,
      { r.2.2 with _stream_tracks := OvMap.assign stream_name tracks r.2.2._stream_tracks },
      [])

/-- The loop `Generate track list by stream` of the constructor. -/
def TranscodeStream.GenerateStreamTracks (env : Env)
    (profile_tracks : List (OvString × List Nat)) (origin : OvString) :
    List StreamConfig → StreamList × TranscodeStream × List Nat →
    StreamList × TranscodeStream × List Nat
  | [], st => st
  | stream :: rest, st =>
    GenerateStreamTracks env profile_tracks origin rest
      (TranscodeStream.StreamStep env profile_tracks origin st stream)

/-- The inner loop of `Generate unused track list to delete`: is `track` in the list of
some stream. -/
def TranscodeStream.FoundInStreams (track : Nat) : List (OvString × List Nat) → Bool
  | [] => false
  | (_, tracks) :: rest => if track ∈ tracks then true else FoundInStreams track rest

/-- The loop `Generate unused track list to delete` of the constructor. -/
def TranscodeStream.UnusedTracks (stream_tracks : List (OvString × List Nat)) :
    List (Nat × TranscodeContext) → List Nat → List Nat
  | [], tracks => tracks
  | (key, _) :: rest, tracks =>
    if TranscodeStream.FoundInStreams key stream_tracks then
      UnusedTracks stream_tracks rest tracks
    else
      UnusedTracks stream_tracks rest (tracks ++ [key])

/-- The loop `Delete unused context` of the constructor. -/
def TranscodeStream.DeleteUnused :
    List Nat → List (Nat × TranscodeContext) → List (Nat × TranscodeContext)
  | [], output_contexts => output_contexts
  | track :: rest, output_contexts => DeleteUnused rest (OvMap.erase track output_contexts)

/-- The loop `Copy tracks` of the constructor, over the tracks of the input. -/
def TranscodeStream.CopyTracks (env : Env) :
    List (Nat × MediaTrack) → TranscodeStream → TranscodeStream
  | [], s => s
  | (_, cur_track) :: rest, s => CopyTracks env rest (s.CreateEncoders env cur_track)

/-- The statement `_stream_list[id];`, which creates the entry of the application. -/
def StreamListTouch (stream_list : StreamList) (id : Nat) : StreamList :=
  match OvMap.find stream_list id with
  | none => OvMap.assign id [] stream_list
  | some _ => stream_list

/-- The constructor up to the end of the loop `Prepare decoders`. -/
def TranscodeStream.ConstructorDecoders (env : Env) (application_info : Application)
    (stream_info : StreamInfo) : TranscodeStream :=
  TranscodeStream.PrepareDecoders env stream_info.tracks
    { TranscodeStream.Fresh env application_info with
      _stats_decoded_frame_count := 0
      _max_queue_size := 0
      _stats_queue_full_count := 0
      _stream_info_input := stream_info }

/-- The local map `profile_tracks` of the constructor, as the loop
`Generate track list by profile` leaves it. -/
def TranscodeStream.ConstructorProfileTracks (env : Env) (application_info : Application)
    (stream_info : StreamInfo) : List (OvString × List Nat) :=
  ((TranscodeStream.ConstructorDecoders env application_info stream_info).GenerateProfileTracks
    application_info.encodes).2.1

/-- The constructor `TranscodeStream::TranscodeStream`: the static `_stream_list` and the
engine afterwards. -/
def TranscodeStream.Constructor (env : Env) (stream_list : StreamList)
    (application_info : Application) (stream_info : StreamInfo) :
    StreamList × TranscodeStream :=
  let list0 := StreamListTouch stream_list application_info.id
  let s1 := TranscodeStream.ConstructorDecoders env application_info stream_info
  if s1._decoders.isEmpty then
    (list0, s1)
  else
    let p := s1.GenerateProfileTracks application_info.encodes
    let st := TranscodeStream.GenerateStreamTracks env p.2.1 stream_info.name
      application_info.streams (list0, p.1, p.2.2)
    let s2 := st.2.1
    let unused := TranscodeStream.UnusedTracks s2._stream_tracks s2._output_contexts st.2.2
    let s3 := { s2 with _output_contexts := TranscodeStream.DeleteUnused unused s2._output_contexts }
    let s4 := TranscodeStream.CopyTracks env s3._stream_info_input.tracks s3
    if s4._encoders.isEmpty then
      (st.1, s4)
    else
      let s5 :=
        { s4 with
          _max_queue_size :=
            if s4._encoders.length > 0x0F then 0xFF else s4._encoders.length * 256 }
      if env.threads_start then
        (st.1,
          { s5 with
            _kill_flag := false
            _thread_decode := true
            _thread_filter := true
            _thread_encode := true })
      else
        (st.1, { s5 with _kill_flag := true })

/-! ## Sequences of calls and sample inputs -/

/-- Runs `AddOutputContext` for each `(media_type, output_context)` in order: the ids
returned and the engine afterwards. -/
def TranscodeStream.AddOutputContexts :
    TranscodeStream → List (MediaType × TranscodeContext) → List Nat × TranscodeStream
  | s, [] => ([], s)
  | s, (media_type, output_context) :: rest =>
    let r := s.AddOutputContext media_type output_context
    let rs := AddOutputContexts r.2 rest
    (r.1 :: rs.1, rs.2)

/-- How many of the calls are of the given kind. -/
def CallsOfKind (kind : MediaType) (calls : List (MediaType × TranscodeContext)) : Nat :=
  calls.countP (fun c => decide (c.1 = kind))

namespace Sample

/-- A codec library that has every codec, and threads that start. -/
def env : Env :=
  { decoder_available := fun _ _ => true
    encoder_available := fun _ _ => true
    threads_start := true
    kill_flag_before := false
    read_past_end := fun _ _ => 0 }

/-- An H264 input track with id 0. -/
def videoTrack : MediaTrack :=
  { id := 0, media_type := MediaType.Video, codec_id := MediaCodecId.H264, bitrate := 0,
    width := 640, height := 360, format := 0, frame_rate := 30, sample_rate := 0,
    sample_format := 0, channel_layout := 0, time_base := (1, 1000) }

/-- An AAC input track with id 1. -/
def audioTrack : MediaTrack :=
  { id := 1, media_type := MediaType.Audio, codec_id := MediaCodecId.Aac, bitrate := 0,
    width := 0, height := 0, format := 0, frame_rate := 0, sample_rate := 44100,
    sample_format := 0, channel_layout := 0, time_base := (1, 1000) }

/-- The input stream `cam` with one video and one audio track. -/
def cam : StreamInfo :=
  { name := "cam".toList, tracks := [(0, videoTrack), (1, audioTrack)] }

/-- The input stream `cam2` with the same tracks. -/
def cam2 : StreamInfo :=
  { name := "cam2".toList, tracks := [(0, videoTrack), (1, audioTrack)] }

/-- An active encode profile with an H264 video and an OPUS audio sub-profile. -/
def profile (name : OvString) : Encode :=
  { name := name
    active := true
    video_profile := some
      { active := true, codec := "h264".toList, bitrate := 1024000, width := 1280,
        height := 720, framerate := 30 }
    audio_profile := some
      { active := true, codec := "opus".toList, bitrate := 131072, samplerate := 48000 } }

/-- The stream name template `live_` followed by the substitution mark. -/
def liveTemplate : OvString := "live_".toList ++ OriginStreamName

/-- Application 1: profiles `P1` and `P2`, one output stream that lists `P1`. -/
def app : Application :=
  { id := 1
    encodes := [profile "P1".toList, profile "P2".toList]
    streams := [{ name := liveTemplate, profiles := ["P1".toList] }] }

/-- An active encode profile with an H264 video sub-profile and no audio sub-profile. -/
def videoProfile (name : OvString) : Encode :=
  { name := name
    active := true
    video_profile := some
      { active := true, codec := "h264".toList, bitrate := 1024000, width := 1280,
        height := 720, framerate := 30 }
    audio_profile := none }

/-- Application 1 with the video-only profile `P1` and one output stream that lists it. -/
def appVideoOnly : Application :=
  { id := 1
    encodes := [videoProfile "P1".toList]
    streams := [{ name := liveTemplate, profiles := ["P1".toList] }] }

/-- Application 1 with an output stream that lists only a profile that does not exist. -/
def appMissing : Application :=
  { id := 1
    encodes := [profile "P1".toList]
    streams := [{ name := liveTemplate, profiles := ["Pmissing".toList] }] }

/-- An encoding context for a video output. -/
def videoContext : TranscodeContext :=
  TranscodeContext.video true MediaCodecId.H264 1024000 1280 720 30

/-- An encoding context for an audio output. -/
def audioContext : TranscodeContext :=
  TranscodeContext.audio true MediaCodecId.Opus 131072 48000

/-- An engine with a decoder for input track 0, one encoder, the limit 256 of one
encoder, started threads and empty queues. -/
def running : TranscodeStream :=
  { TranscodeStream.Fresh env app with
    _stream_info_input := cam
    _thread_decode := true
    _thread_filter := true
    _thread_encode := true
    _output_contexts := [(0x60, videoContext)]
    _decoders := [(0, TranscodeContext.video false MediaCodecId.H264 0 640 360 30)]
    _encoders := [(0x60, videoContext)]
    _max_queue_size := 256 }

/-- A coded packet of input track 0. -/
def packet : MediaPacket :=
  { track_id := 0, pts := 0, dts := 0, flags := 0, data := [0, 0, 1] }

/-- A decoded frame of 1280 by 720. -/
def frame : MediaFrame :=
  { track_id := 0, pts := 50, width := 1280, height := 720, format := 0, sample_rate := 0,
    channel_layout := 0, data := [] }

/-- The engine `running` with 257 frames waiting in the decoded-frame queue. -/
def overfull : TranscodeStream :=
  { running with _queue_decoded := { items := List.replicate 257 frame, aborted := false } }

end Sample

/-- Whether `DecodePacket` goes on to push the frame of a result of the decoder. -/
def TranscodeResult.DecodeCarriesFrame : TranscodeResult → Bool
  | TranscodeResult.DataReady => true
  | TranscodeResult.FormatChanged => true
  | _ => false

/-- Whether `FilterFrame` goes on to push the frame of a result of the filter. -/
def TranscodeResult.FilterCarriesFrame : TranscodeResult → Bool
  | TranscodeResult.DataReady => true
  | _ => false

/-- The frames of the leading results in `outputs` that satisfy `carries`, at most `room`
of them: what a loop appends that pushes the frame of each such result as long as the
queue has room, and ends at the first other result. -/
def LeadingFrames (carries : TranscodeResult → Bool) :
    Nat → List (TranscodeResult × MediaFrame) → List MediaFrame
  | 0, _ => []
  | _ + 1, [] => []
  | room + 1, (result, frame) :: rest =>
    if carries result then frame :: LeadingFrames carries room rest else []

/-- Whether an entry of `_output_contexts` is a video context filed under a key of
`[0x60, 0x70)` or an audio context filed under a key of `[0x70, 0x80)`. -/
def InRangeOfKind (e : Nat × TranscodeContext) : Prop :=
  (e.2.media_type = MediaType.Video ∧ 0x60 ≤ e.1 ∧ e.1 < 0x70) ∨
  (e.2.media_type = MediaType.Audio ∧ 0x70 ≤ e.1 ∧ e.1 < 0x80)

instance (e : Nat × TranscodeContext) : Decidable (InRangeOfKind e) := by
  unfold InRangeOfKind
  infer_instance

/-- Modelled from the spec: a `TrackId` is an 8-bit integer (section 3). Output track
ids are of this type: `EncodeFrame` stamps a packet with the key of its encoder, which
`CreateEncoders` takes from the `uint8_t` key of `_output_contexts`. -/
def IsTrackId (track_id : Int) : Prop :=
  0 ≤ track_id ∧ track_id < 256

instance (track_id : Int) : Decidable (IsTrackId track_id) := by
  unfold IsTrackId
  infer_instance

/-- Whether the routing list of the output stream `name` contains the track id
`track_id` of a packet, in the words of the specification. -/
def RoutedTo (stream_tracks : List (OvString × List Nat)) (track_id : Int) (name : OvString) :
    Bool :=
  match OvMap.find stream_tracks name with
  | none => false
  | some tracks => decide (track_id ∈ tracks.map (fun (t : Nat) => (t : Int)))

/-- Whether `SendFrame` hands a packet with the 8-bit track id `track_id` to the
output stream `name`. -/
def Routed (stream_tracks : List (OvString × List Nat)) (track_id : Nat) (name : OvString) :
    Bool :=
  match OvMap.find stream_tracks name with
  | none => false
  | some tracks => decide (track_id ∈ tracks)

/-- The number of the `RecvBuffer` call an event belongs to. -/
def DecodeEvent.index : DecodeEvent → Nat
  | DecodeEvent.ChangeOutputFormat n _ => n
  | DecodeEvent.Push n _ => n

/-- The frames pushed onto the decoded-frame queue, in order. -/
def PushedFrames : List DecodeEvent → List MediaFrame
  | [] => []
  | DecodeEvent.ChangeOutputFormat _ _ :: rest => PushedFrames rest
  | DecodeEvent.Push _ frame :: rest => frame :: PushedFrames rest

/-! ## The filter stage -/

/-- Modelled from the spec: `MediaFrame::CloneFrame`, the deep copy of section 3; the
class is not among the sources. The copy of a frame is never null. -/
def MediaFrame.CloneFrame (f : MediaFrame) : Option MediaFrame := some f

/-- The statement `_stats_queue_full_count++` of `FilterFrame`. -/
def TranscodeStream.CountQueueFull (s : TranscodeStream) : TranscodeStream :=
  { s with _stats_queue_full_count := s._stats_queue_full_count + 1 }

/-- The statement `_queue_filterd.push(std::move(filtered_frame))` of `FilterFrame`. -/
def TranscodeStream.PushFiltered (s : TranscodeStream) (filtered_frame : MediaFrame) :
    TranscodeStream :=
  { s with _queue_filterd := s._queue_filterd.push filtered_frame }

/-- The `while (true)` loop of `FilterFrame`. `outputs` are the results the filter hands
out at the successive `RecvBuffer` calls; a filter with nothing left reports `NoData`. -/
def TranscodeStream.FilterLoop (track_id : Int) :
    List (TranscodeResult × MediaFrame) → TranscodeStream → TranscodeResult × TranscodeStream
  | [], s => (TranscodeResult.NoData, s)
  | (result, filtered_frame) :: outputs, s =>
    match result with
    | TranscodeResult.DataReady =>
      let frame1 := filtered_frame.SetTrackId track_id
      if s._queue_filterd.size > s._max_queue_size then
        (result, s.CountQueueFull)
      else
        FilterLoop track_id outputs (s.PushFiltered frame1)
    | _ => (result, s)

/-- The member function `FilterFrame`: the result and the engine afterwards. The frame
goes to the filter of the output track, whose answers are `outputs`. -/
def TranscodeStream.FilterFrame (s : TranscodeStream) (track_id : Int) (_frame : MediaFrame)
    (outputs : List (TranscodeResult × MediaFrame)) : TranscodeResult × TranscodeStream :=
  match OvMap.find s._filters track_id with
  | none => (TranscodeResult.NoData, s)
  | some _ => TranscodeStream.FilterLoop track_id outputs s

/-- The loop of `DoFilters` over `_output_contexts`: the engine afterwards and the
`FilterFrame(iter.first, frame_clone)` calls made, in order. `value` gives the
`int32_t` value of the enumerators of `common::MediaType`, which is declared outside the
sources; `answers` gives the results of the filter of an output track for a frame. -/
def TranscodeStream.DoFiltersLoop (value : MediaType → Int)
    (answers : Int → MediaFrame → List (TranscodeResult × MediaFrame)) (frame : MediaFrame)
    (track_id : Int) :
    List (Nat × TranscodeContext) → TranscodeStream → List (Nat × MediaFrame) →
    TranscodeStream × List (Nat × MediaFrame)
  | [], s, calls => (s, calls)
  | (key, output_context) :: rest, s, calls =>
    if track_id ≠ value output_context.media_type then
      DoFiltersLoop value answers frame track_id rest s calls
    else
      match frame.CloneFrame with
      | none => DoFiltersLoop value answers frame track_id rest s calls
      | some frame_clone =>
        DoFiltersLoop value answers frame track_id rest
          (s.FilterFrame (key : Int) frame_clone (answers (key : Int) frame_clone)).2
          (calls ++ [(key, frame_clone)])

/-- The member function `DoFilters`. -/
def TranscodeStream.DoFilters (value : MediaType → Int)
    (answers : Int → MediaFrame → List (TranscodeResult × MediaFrame)) (s : TranscodeStream)
    (frame : MediaFrame) : TranscodeStream × List (Nat × MediaFrame) :=
  let track_id := frame.track_id
  TranscodeStream.DoFiltersLoop value answers frame track_id s._output_contexts s []

namespace Sample

/-- The engine `running` with a filter for the output track `0x60` and each of the
three queues holding exactly `_max_queue_size = 256` entries. -/
def atLimit : TranscodeStream :=
  { running with
    _filters := [(0x60, ⟨videoTrack, videoContext, videoContext⟩)]
    _queue := { items := List.replicate 256 (some packet), aborted := false }
    _queue_decoded := { items := List.replicate 256 frame, aborted := false }
    _queue_filterd := { items := List.replicate 256 frame, aborted := false } }

/-- A video input track with id 5. -/
def videoTrack5 : MediaTrack := { videoTrack with id := 5 }

/-- A video input track with id 6. -/
def videoTrack6 : MediaTrack := { videoTrack with id := 6 }

/-- The input stream `cam` with two video tracks, of ids 5 and 6. -/
def camTwoVideo : StreamInfo :=
  { name := "cam".toList, tracks := [(5, videoTrack5), (6, videoTrack6)] }

end Sample

/-- What a profile contributes to the track list of a stream, in the words of the
specification: its video id and its audio id when it is in `profile_tracks`, nothing
when it is not. -/
def ProfilePair (profile_tracks : List (OvString × List Nat)) (profile : OvString) : List Nat :=
  match OvMap.find profile_tracks profile with
  | some [video, audio] => [video, audio]
  | _ => []

/-- The track list of a stream in the words of the specification: the concatenation, in
the order of the profile list, of what each profile contributes. -/
def RoutingList (profile_tracks : List (OvString × List Nat)) : List OvString → List Nat
  | [] => []
  | profile :: rest => ProfilePair profile_tracks profile ++ RoutingList profile_tracks rest

namespace Sample

/-- Application 1 with the profiles `P1` and `P2` and one output stream that lists `P1`
and a profile that does not exist. -/
def appPartly : Application :=
  { id := 1
    encodes := [profile "P1".toList, profile "P2".toList]
    streams := [{ name := liveTemplate, profiles := ["P1".toList, "Pmissing".toList] }] }

end Sample

/-! ## H264FragmentHeader -/

/-- Modelled from the spec: the fragment metadata of a `MediaPacket` (section 3), the
NAL offsets and lengths; the class is declared outside the sources. -/
structure FragmentationHeader where
  fragmentation_offset : List Nat
  fragmentation_length : List Nat
deriving DecidableEq

/-- The call `fragment_header->Clear()`. -/
def FragmentationHeader.Clear (_h : FragmentationHeader) : FragmentationHeader :=
  { fragmentation_offset := [], fragmentation_length := [] }

namespace H264FragmentHeader

/-- The sum of two `size_t` values (64 bits). -/
def addSize (a b : Nat) : Nat := (a + b) % 18446744073709551616

/-- The difference of two `size_t` values (64 bits), which wraps around below zero. -/
def subSize (a b : Nat) : Nat := (a + 18446744073709551616 - b) % 18446744073709551616

/-- The test of the first `if` of the scan: three bytes are left and they are `00 00 01`. -/
def StartCode3 (srcData : List Nat) (dataSize dataOffset : Nat) : Prop :=
  subSize dataSize dataOffset ≥ 3 ∧
    srcData[dataOffset]? = some 0x00 ∧
    srcData[dataOffset + 1]? = some 0x00 ∧
    srcData[dataOffset + 2]? = some 0x01

instance (srcData : List Nat) (dataSize dataOffset : Nat) :
    Decidable (StartCode3 srcData dataSize dataOffset) := by
  unfold StartCode3
  exact inferInstance

/-- The test of the second `if` of the scan: four bytes are left and they are
`00 00 00 01`. -/
def StartCode4 (srcData : List Nat) (dataSize dataOffset : Nat) : Prop :=
  subSize dataSize dataOffset ≥ 4 ∧
    srcData[dataOffset]? = some 0x00 ∧
    srcData[dataOffset + 1]? = some 0x00 ∧
    srcData[dataOffset + 2]? = some 0x00 ∧
    srcData[dataOffset + 3]? = some 0x01

instance (srcData : List Nat) (dataSize dataOffset : Nat) :
    Decidable (StartCode4 srcData dataSize dataOffset) := by
  unfold StartCode4
  exact inferInstance

/-- The loop `while (dataOffset < dataSize)` of `Parse`, run for at most `fuel` turns:
`offset_list` afterwards, or `none` when the loop has not ended by then. -/
def ScanLoop (srcData : List Nat) (dataSize : Nat) :
    Nat → Nat → List (Nat × Nat) → Option (List (Nat × Nat))
  | 0, dataOffset, offset_list =>
    if dataOffset < dataSize then none else some offset_list
  | fuel + 1, dataOffset, offset_list =>
    if dataOffset < dataSize then
      if StartCode3 srcData dataSize dataOffset then
        ScanLoop srcData dataSize fuel (addSize dataOffset 3) (offset_list ++ [(dataOffset, 3)])
      else if StartCode4 srcData dataSize dataOffset then
        ScanLoop srcData dataSize fuel (addSize dataOffset 4) (offset_list ++ [(dataOffset, 4)])
      else
        ScanLoop srcData dataSize fuel (addSize dataOffset 1) offset_list
    else
      some offset_list

/-- The loop `for (index = 0; index < offset_list.size(); ++index)` of `Parse`, with
`count` turns left: the fragment header afterwards, or `none` when an element of
`offset_list` is read past its end. -/
def FragmentLoop (offset_list : List (Nat × Nat)) (dataSize : Nat) :
    Nat → Nat → FragmentationHeader → Option FragmentationHeader
  | 0, _, fragment_header => some fragment_header
  | count + 1, index, fragment_header =>
    if index ≠ subSize offset_list.length 1 then
      match offset_list[index]?, offset_list[index + 1]? with
      | some cur, some next =>
        let nalu_offset := addSize cur.1 cur.2
        let nalu_data_len := subSize next.1 nalu_offset
        FragmentLoop offset_list dataSize count (index + 1)
          { fragmentation_offset := fragment_header.fragmentation_offset ++ [nalu_offset]
            fragmentation_length := fragment_header.fragmentation_length ++ [nalu_data_len] }
      | _, _ => none
    else
      match offset_list[index]? with
      | some cur =>
        let nalu_offset := addSize cur.1 cur.2
        let nalu_data_len := subSize dataSize nalu_offset
        FragmentLoop offset_list dataSize count (index + 1)
          { fragmentation_offset := fragment_header.fragmentation_offset ++ [nalu_offset]
            fragmentation_length := fragment_header.fragmentation_length ++ [nalu_data_len] }
      | none => none

/-- The member function `H264FragmentHeader::Parse` on the bytes of the packet and its
fragment header: the value returned and the fragment header afterwards. The scan gets
`dataSize` turns, one for each byte. -/
def Parse (srcData : List Nat) (fragment_header : FragmentationHeader) :
    Option (Bool × FragmentationHeader) :=
  let dataSize := srcData.length
  match ScanLoop srcData dataSize dataSize 0 [] with
  | none => none
  | some offset_list =>
    match FragmentLoop offset_list dataSize offset_list.length 0 fragment_header.Clear with
    | none => none
    | some header => some (true, header)

end H264FragmentHeader

namespace H264FragmentHeader

/-- The bytes at `p`, `p + 1`, `p + 2` are the start code `00 00 01`. -/
def Bytes3 (srcData : List Nat) (p : Nat) : Prop :=
  srcData[p]? = some 0x00 ∧ srcData[p + 1]? = some 0x00 ∧ srcData[p + 2]? = some 0x01

/-- The bytes at `p` to `p + 3` are the start code `00 00 00 01`. -/
def Bytes4 (srcData : List Nat) (p : Nat) : Prop :=
  srcData[p]? = some 0x00 ∧ srcData[p + 1]? = some 0x00 ∧ srcData[p + 2]? = some 0x00 ∧
    srcData[p + 3]? = some 0x01

/-- An entry `(position, size)` of `offset_list` is a start code of the buffer. -/
def IsStartCode (srcData : List Nat) (e : Nat × Nat) : Prop :=
  (e.2 = 3 ∧ Bytes3 srcData e.1) ∨ (e.2 = 4 ∧ Bytes4 srcData e.1)

/-- What holds of `offset_list` when the scan has reached `dataOffset`: the entries are
start codes that end at or before `dataOffset`, they follow each other without
overlap, and every `00 00 01` before `dataOffset` is one of them or the tail of a
four-byte one. -/
def ScanInv (srcData : List Nat) (dataOffset : Nat) (offset_list : List (Nat × Nat)) : Prop :=
  dataOffset ≤ srcData.length ∧
  offset_list.length ≤ dataOffset ∧
  (∀ e ∈ offset_list, IsStartCode srcData e ∧ e.1 + e.2 ≤ dataOffset) ∧
  offset_list.Pairwise (fun a b => a.1 + a.2 ≤ b.1) ∧
  (∀ p, p < dataOffset → Bytes3 srcData p →
    ∃ e ∈ offset_list, (e.2 = 3 ∧ p = e.1) ∨ (e.2 = 4 ∧ p = e.1 + 1))

/-- The fragments between the start codes of `offset_list`, as pairs of an offset and a
length, with the arithmetic of the natural numbers. -/
def Fragments (dataSize : Nat) : List (Nat × Nat) → List (Nat × Nat)
  | [] => []
  | [cur] => [(cur.1 + cur.2, dataSize - (cur.1 + cur.2))]
  | cur :: next :: rest =>
    (cur.1 + cur.2, next.1 - (cur.1 + cur.2)) :: Fragments dataSize (next :: rest)

end H264FragmentHeader

/-! # Theorems -/

/-! ## Maps -/

theorem OvMap.mem_assign {K V : Type} [LinearOrder K] (k : K) (v : V) (m : List (K × V))
    (e : K × V) (h : e ∈ OvMap.assign k v m) : e = (k, v) ∨ e ∈ m := by
  induction m with
  | nil => simpa [OvMap.assign] using h
  | cons hd tl ih =>
    obtain ⟨k1, v1⟩ := hd
    simp only [OvMap.assign] at h
    split_ifs at h with h1 h2
    · simpa using h
    · rcases List.mem_cons.mp h with h | h
      · exact Or.inl h
      · exact Or.inr (List.mem_cons_of_mem _ h)
    · rcases List.mem_cons.mp h with h | h
      · exact Or.inr (by simp [h])
      · rcases ih h with h | h
        · exact Or.inl h
        · exact Or.inr (List.mem_cons_of_mem _ h)

theorem OvMap.mem_keys_assign {K V : Type} [LinearOrder K] (k : K) (v : V) (m : List (K × V))
    (k2 : K) : k2 ∈ OvMap.keys (OvMap.assign k v m) ↔ k2 = k ∨ k2 ∈ OvMap.keys m := by
  induction m with
  | nil => simp [OvMap.assign, OvMap.keys]
  | cons hd tl ih =>
    obtain ⟨k1, v1⟩ := hd
    simp only [OvMap.assign]
    split_ifs with h1 h2
    · simp [OvMap.keys]
    · subst h2
      simp [OvMap.keys]
    · simp only [OvMap.keys, List.map_cons, List.mem_cons] at ih ⊢
      rw [ih]
      tauto

theorem OvMap.mem_keys_erase {K V : Type} [DecidableEq K] (k : K) (m : List (K × V)) (k2 : K) :
    k2 ∈ OvMap.keys (OvMap.erase k m) ↔ k2 ≠ k ∧ k2 ∈ OvMap.keys m := by
  simp only [OvMap.keys, OvMap.erase, List.mem_map, List.mem_filter, decide_eq_true_eq]
  constructor
  · rintro ⟨e, ⟨he, hne⟩, rfl⟩
    exact ⟨hne, e, he, rfl⟩
  · rintro ⟨hne, e, he, rfl⟩
    exact ⟨e, ⟨he, hne⟩, rfl⟩

theorem OvMap.mem_of_find {K V : Type} [DecidableEq K] (m : List (K × V)) (k : K) (v : V)
    (h : OvMap.find m k = some v) : (k, v) ∈ m := by
  induction m with
  | nil => simp [OvMap.find] at h
  | cons hd tl ih =>
    obtain ⟨k1, v1⟩ := hd
    simp only [OvMap.find] at h
    split_ifs at h with h1
    · simp only [Option.some.injEq] at h
      subst h1 h
      simp
    · exact List.mem_cons_of_mem _ (ih h)

theorem OvMap.find_assign_self {K V : Type} [LinearOrder K] [DecidableEq K] (k : K) (v : V)
    (m : List (K × V)) : OvMap.find (OvMap.assign k v m) k = some v := by
  induction m with
  | nil => simp [OvMap.assign, OvMap.find]
  | cons hd tl ih =>
    obtain ⟨k1, v1⟩ := hd
    simp only [OvMap.assign]
    split_ifs with c1 c2
    · simp [OvMap.find]
    · simp [OvMap.find]
    · simp only [OvMap.find]
      rw [if_neg (fun e => c2 e.symm)]
      exact ih

theorem OvMap.find_assign_other {K V : Type} [LinearOrder K] [DecidableEq K] (k k2 : K) (v : V)
    (m : List (K × V)) (h : k2 ≠ k) : OvMap.find (OvMap.assign k v m) k2 = OvMap.find m k2 := by
  induction m with
  | nil => simp [OvMap.assign, OvMap.find, h.symm]
  | cons hd tl ih =>
    obtain ⟨k1, v1⟩ := hd
    simp only [OvMap.assign]
    split_ifs with c1 c2
    · simp [OvMap.find, h.symm]
    · subst c2
      simp [OvMap.find, h.symm]
    · simp only [OvMap.find]
      rw [ih]

theorem OvSet.mem_insert {K : Type} [LinearOrder K] (k x : K) (l : List K) :
    x ∈ OvSet.insert k l ↔ x = k ∨ x ∈ l := by
  induction l with
  | nil => simp [OvSet.insert]
  | cons hd tl ih =>
    simp only [OvSet.insert]
    split_ifs with c1 c2
    · simp
    · subst c2
      simp
    · simp only [List.mem_cons, ih]
      tauto


/-! ## Push and Stop -/

/-- C1, as amended: `Push` returns false exactly when the engine has no encoder or the
input queue holds more than `_max_queue_size` entries, and then the input queue is
unchanged; in every other case, a null packet included, the packet is appended to the
input queue and `Push` returns true. -/
theorem Push_false_iff_inert_or_overfull (s : TranscodeStream) (packet : Option MediaPacket) :
    ((s.Push packet).1 = false ↔ (s._encoders = [] ∨ s._queue.size > s._max_queue_size)) ∧
    (s.Push packet).2._queue.items =
      (if s._encoders = [] ∨ s._queue.size > s._max_queue_size then s._queue.items
       else s._queue.items ++ [packet]) := by
  unfold TranscodeStream.Push
  by_cases h1 : s._encoders = []
  · simp [h1]
  · have h2 : s._encoders.isEmpty = false := by
      cases hs : s._encoders with
      | nil => exact absurd hs h1
      | cons a l => rfl
    by_cases h3 : s._queue.size > s._max_queue_size
    · simp [h1, h2, h3]
    · simp [h1, h2, h3, MediaQueue.push]

/-- C1 fails for a null packet: on the engine the constructor builds for the sample
configuration, `Push(nullptr)` returns true and the null packet is in the queue. -/
theorem Push_null_returns_true :
    (TranscodeStream.Constructor Sample.env [] Sample.app Sample.cam).2._encoders ≠ [] ∧
    (TranscodeStream.Constructor Sample.env [] Sample.app Sample.cam).2._queue.items = [] ∧
    ((TranscodeStream.Constructor Sample.env [] Sample.app Sample.cam).2.Push none).1 = true ∧
    ((TranscodeStream.Constructor Sample.env [] Sample.app Sample.cam).2.Push none).2._queue.items
      = [none] := by
  decide

/-- What `Stop` leaves as it was, and what it sets. -/
theorem Stop_fields (s : TranscodeStream) (stream_list : StreamList) :
    (s.Stop stream_list).2.2._encoders = s._encoders ∧
    (s.Stop stream_list).2.2._queue.items = s._queue.items ∧
    (s.Stop stream_list).2.2._max_queue_size = s._max_queue_size ∧
    (s.Stop stream_list).2.2._kill_flag = true := by
  unfold TranscodeStream.Stop TranscodeStream.DeleteStreams
  by_cases h : s._thread_decode = true
  · simp [h, MediaQueue.abort]
  · simp [h, MediaQueue.abort]

/-- C2, as amended: `Stop` does not change what `Push` does. On an engine with an encoder,
after `Stop`, `Push` returns true and appends the packet whenever the input queue holds
at most `_max_queue_size` entries, and returns false and enqueues nothing otherwise. -/
theorem Push_after_Stop (s : TranscodeStream) (stream_list : StreamList)
    (packet : Option MediaPacket) (h : s._encoders ≠ []) :
    ((s.Stop stream_list).2.2.Push packet).1 = decide (s._queue.size ≤ s._max_queue_size) ∧
    ((s.Stop stream_list).2.2.Push packet).2._queue.items =
      (if s._queue.size ≤ s._max_queue_size then s._queue.items ++ [packet]
       else s._queue.items) := by
  obtain ⟨he, hq, hm, _⟩ := Stop_fields s stream_list
  have h2 : (s.Stop stream_list).2.2._encoders.isEmpty = false := by
    rw [he]
    cases hs : s._encoders with
    | nil => exact absurd hs h
    | cons a l => rfl
  unfold TranscodeStream.Push
  simp only [MediaQueue.size, MediaQueue.push, h2, hq, hm]
  by_cases h3 : s._queue.items.length ≤ s._max_queue_size
  · have h4 : ¬ (s._queue.items.length > s._max_queue_size) := by omega
    simp [h3, h4, hq]
  · have h4 : s._queue.items.length > s._max_queue_size := by omega
    simp [h3, h4, hq]

/-- The statement of `Push_after_Stop` on the sample engine with one encoder. -/
theorem Push_after_Stop_witness :
    Sample.running._encoders ≠ [] ∧
    ((Sample.running.Stop []).2.2.Push (some Sample.packet)).1
      = decide (Sample.running._queue.size ≤ Sample.running._max_queue_size) ∧
    ((Sample.running.Stop []).2.2.Push (some Sample.packet)).2._queue.items =
      (if Sample.running._queue.size ≤ Sample.running._max_queue_size
       then Sample.running._queue.items ++ [some Sample.packet]
       else Sample.running._queue.items) :=
  ⟨by decide, Push_after_Stop Sample.running [] (some Sample.packet) (by decide)⟩

/-- C2 fails: on the engine the constructor builds for the sample configuration, which
has encoders and started threads, `Push` after `Stop` returns true and the packet is
in the input queue. -/
theorem Push_after_Stop_returns_true :
    (TranscodeStream.Constructor Sample.env [] Sample.app Sample.cam).2._encoders ≠ [] ∧
    (TranscodeStream.Constructor Sample.env [] Sample.app Sample.cam).2._kill_flag = false ∧
    (((TranscodeStream.Constructor Sample.env [] Sample.app Sample.cam).2.Stop
      (TranscodeStream.Constructor Sample.env [] Sample.app Sample.cam).1).2.2)._kill_flag
      = true ∧
    ((((TranscodeStream.Constructor Sample.env [] Sample.app Sample.cam).2.Stop
      (TranscodeStream.Constructor Sample.env [] Sample.app Sample.cam).1).2.2).Push
        (some Sample.packet)).1 = true ∧
    ((((TranscodeStream.Constructor Sample.env [] Sample.app Sample.cam).2.Stop
      (TranscodeStream.Constructor Sample.env [] Sample.app Sample.cam).1).2.2).Push
        (some Sample.packet)).2._queue.items = [some Sample.packet] := by
  decide

/-! ## The allocator -/

theorem AddOutputContexts_video (calls : List (MediaType × TranscodeContext)) :
    ∀ s : TranscodeStream, s._last_track_video ≤ 0x70 →
      (s.AddOutputContexts calls).2._last_track_video
        = min (s._last_track_video + CallsOfKind MediaType.Video calls) 0x70 := by
  induction calls with
  | nil => intro s h; simp [TranscodeStream.AddOutputContexts, CallsOfKind]; omega
  | cons c rest ih =>
    intro s h
    obtain ⟨k, ctx⟩ := c
    cases k
    · simp only [TranscodeStream.AddOutputContexts, TranscodeStream.AddOutputContext]
      rw [ih _ (by simpa using h)]
      simp [CallsOfKind, List.countP_cons]
    · simp only [TranscodeStream.AddOutputContexts, TranscodeStream.AddOutputContext]
      by_cases hv : s._last_track_video ≥ 0x70
      · rw [if_pos hv, ih _ h]
        simp [CallsOfKind, List.countP_cons]
        omega
      · rw [if_neg hv]
        have h1 : (s._last_track_video + 1) % 256 = s._last_track_video + 1 := by omega
        rw [ih _ (by simp only [h1]; omega)]
        simp only [h1]
        simp [CallsOfKind, List.countP_cons]
        omega
    · simp only [TranscodeStream.AddOutputContexts, TranscodeStream.AddOutputContext]
      by_cases hv : s._last_track_audio > 0x7F
      · rw [if_pos hv, ih _ h]
        simp [CallsOfKind, List.countP_cons]
      · rw [if_neg hv, ih _ (by simpa using h)]
        simp [CallsOfKind, List.countP_cons]

theorem AddOutputContexts_audio (calls : List (MediaType × TranscodeContext)) :
    ∀ s : TranscodeStream, s._last_track_audio ≤ 0x80 →
      (s.AddOutputContexts calls).2._last_track_audio
        = min (s._last_track_audio + CallsOfKind MediaType.Audio calls) 0x80 := by
  induction calls with
  | nil => intro s h; simp [TranscodeStream.AddOutputContexts, CallsOfKind]; omega
  | cons c rest ih =>
    intro s h
    obtain ⟨k, ctx⟩ := c
    cases k
    · simp only [TranscodeStream.AddOutputContexts, TranscodeStream.AddOutputContext]
      rw [ih _ (by simpa using h)]
      simp [CallsOfKind, List.countP_cons]
    · simp only [TranscodeStream.AddOutputContexts, TranscodeStream.AddOutputContext]
      by_cases hv : s._last_track_video ≥ 0x70
      · rw [if_pos hv, ih _ h]
        simp [CallsOfKind, List.countP_cons]
      · rw [if_neg hv, ih _ (by simpa using h)]
        simp [CallsOfKind, List.countP_cons]
    · simp only [TranscodeStream.AddOutputContexts, TranscodeStream.AddOutputContext]
      by_cases hv : s._last_track_audio > 0x7F
      · rw [if_pos hv, ih _ h]
        simp [CallsOfKind, List.countP_cons]
        omega
      · rw [if_neg hv]
        have h1 : (s._last_track_audio + 1) % 256 = s._last_track_audio + 1 := by omega
        rw [ih _ (by simp only [h1]; omega)]
        simp only [h1]
        simp [CallsOfKind, List.countP_cons]
        omega

/-- C3: on a fresh engine, after any sequence of `AddOutputContext` calls, a further call
of kind Video returns `0x60 + v` and files the context under that id when `v < 16`
Video calls came before, and a further call of kind Audio returns `0x70 + a` when
`a < 16` Audio calls came before; from the 17th call of a kind on the call returns 0
and leaves the engine, its counters and `_output_contexts` included, unchanged. -/
theorem AddOutputContext_nth (env : Env) (application_info : Application)
    (calls : List (MediaType × TranscodeContext)) (output_context : TranscodeContext) :
    ((((TranscodeStream.Fresh env application_info).AddOutputContexts calls).2.AddOutputContext
        MediaType.Video output_context).1
      = (if CallsOfKind MediaType.Video calls < 16
          then 0x60 + CallsOfKind MediaType.Video calls else 0)) ∧
    ((((TranscodeStream.Fresh env application_info).AddOutputContexts calls).2.AddOutputContext
        MediaType.Audio output_context).1
      = (if CallsOfKind MediaType.Audio calls < 16
          then 0x70 + CallsOfKind MediaType.Audio calls else 0)) ∧
    ((((TranscodeStream.Fresh env application_info).AddOutputContexts calls).2.AddOutputContext
        MediaType.Video output_context).2
      = (if CallsOfKind MediaType.Video calls < 16 then
          { ((TranscodeStream.Fresh env application_info).AddOutputContexts calls).2 with
            _last_track_video := 0x61 + CallsOfKind MediaType.Video calls
            _output_contexts :=
              OvMap.assign (0x60 + CallsOfKind MediaType.Video calls) output_context
                ((TranscodeStream.Fresh env application_info).AddOutputContexts calls).2._output_contexts }
        else ((TranscodeStream.Fresh env application_info).AddOutputContexts calls).2)) ∧
    ((((TranscodeStream.Fresh env application_info).AddOutputContexts calls).2.AddOutputContext
        MediaType.Audio output_context).2
      = (if CallsOfKind MediaType.Audio calls < 16 then
          { ((TranscodeStream.Fresh env application_info).AddOutputContexts calls).2 with
            _last_track_audio := 0x71 + CallsOfKind MediaType.Audio calls
            _output_contexts :=
              OvMap.assign (0x70 + CallsOfKind MediaType.Audio calls) output_context
                ((TranscodeStream.Fresh env application_info).AddOutputContexts calls).2._output_contexts }
        else ((TranscodeStream.Fresh env application_info).AddOutputContexts calls).2)) := by
  have hv := AddOutputContexts_video calls (TranscodeStream.Fresh env application_info)
    (by simp [TranscodeStream.Fresh])
  have ha := AddOutputContexts_audio calls (TranscodeStream.Fresh env application_info)
    (by simp [TranscodeStream.Fresh])
  have hv0 : (TranscodeStream.Fresh env application_info)._last_track_video = 0x60 := rfl
  have ha0 : (TranscodeStream.Fresh env application_info)._last_track_audio = 0x70 := rfl
  rw [hv0] at hv
  rw [ha0] at ha
  generalize ((TranscodeStream.Fresh env application_info).AddOutputContexts calls).2 = s at hv ha ⊢
  generalize CallsOfKind MediaType.Video calls = v at hv ⊢
  generalize CallsOfKind MediaType.Audio calls = a at ha ⊢
  simp only [TranscodeStream.AddOutputContext]
  refine ⟨?_, ?_, ?_, ?_⟩
  · by_cases h : v < 16
    · have h1 : ¬ s._last_track_video ≥ 0x70 := by omega
      rw [if_neg h1, if_pos h]; simp only; omega
    · have h1 : s._last_track_video ≥ 0x70 := by omega
      rw [if_pos h1, if_neg h]
  · by_cases h : a < 16
    · have h1 : ¬ s._last_track_audio > 0x7F := by omega
      rw [if_neg h1, if_pos h]; simp only; omega
    · have h1 : s._last_track_audio > 0x7F := by omega
      rw [if_pos h1, if_neg h]
  · by_cases h : v < 16
    · have h1 : ¬ s._last_track_video ≥ 0x70 := by omega
      have h2 : s._last_track_video = 0x60 + v := by omega
      rw [if_neg h1, if_pos h]
      simp only [h2]
      have h3 : (0x60 + v + 1) % 256 = 0x61 + v := by omega
      rw [h3]
    · have h1 : s._last_track_video ≥ 0x70 := by omega
      rw [if_pos h1, if_neg h]
  · by_cases h : a < 16
    · have h1 : ¬ s._last_track_audio > 0x7F := by omega
      have h2 : s._last_track_audio = 0x70 + a := by omega
      rw [if_neg h1, if_pos h]
      simp only [h2]
      have h3 : (0x70 + a + 1) % 256 = 0x71 + a := by omega
      rw [h3]
    · have h1 : s._last_track_audio > 0x7F := by omega
      rw [if_pos h1, if_neg h]

theorem AddOutputContext_step (s : TranscodeStream) (k : MediaType) (ctx : TranscodeContext)
    (h : 0x60 ≤ s._last_track_video ∧ s._last_track_video ≤ 0x70 ∧
      0x70 ≤ s._last_track_audio ∧ s._last_track_audio ≤ 0x80) :
    (s._last_track_video ≤ (s.AddOutputContext k ctx).2._last_track_video ∧
      (s.AddOutputContext k ctx).2._last_track_video ≤ 0x70 ∧
      s._last_track_audio ≤ (s.AddOutputContext k ctx).2._last_track_audio ∧
      (s.AddOutputContext k ctx).2._last_track_audio ≤ 0x80) ∧
    ((s.AddOutputContext k ctx).1 ≠ 0 →
      (k = MediaType.Video ∧ (s.AddOutputContext k ctx).1 = s._last_track_video ∧
        (s.AddOutputContext k ctx).2._last_track_video = s._last_track_video + 1 ∧
        s._last_track_video < 0x70) ∨
      (k = MediaType.Audio ∧ (s.AddOutputContext k ctx).1 = s._last_track_audio ∧
        (s.AddOutputContext k ctx).2._last_track_audio = s._last_track_audio + 1 ∧
        s._last_track_audio < 0x80)) := by
  obtain ⟨h1, h2, h3, h4⟩ := h
  cases k
  · simp [TranscodeStream.AddOutputContext, h2, h4]
  · simp only [TranscodeStream.AddOutputContext]
    by_cases hv : s._last_track_video ≥ 0x70
    · simp [hv, h2, h4]
    · have e : (s._last_track_video + 1) % 256 = s._last_track_video + 1 := by omega
      simp only [if_neg hv, e]
      refine ⟨⟨by omega, by omega, le_refl _, h4⟩, fun _ => ?_⟩
      simp
      omega
  · simp only [TranscodeStream.AddOutputContext]
    by_cases hv : s._last_track_audio > 0x7F
    · simp [hv, h2, h4]
    · have e : (s._last_track_audio + 1) % 256 = s._last_track_audio + 1 := by omega
      simp only [if_neg hv, e]
      refine ⟨⟨le_refl _, h2, by omega, by omega⟩, fun _ => ?_⟩
      simp
      omega

theorem AddOutputContexts_ids (calls : List (MediaType × TranscodeContext)) :
    ∀ s : TranscodeStream,
      (0x60 ≤ s._last_track_video ∧ s._last_track_video ≤ 0x70 ∧
        0x70 ≤ s._last_track_audio ∧ s._last_track_audio ≤ 0x80) →
      ∀ p ∈ List.zip calls (s.AddOutputContexts calls).1, p.2 ≠ 0 →
        (p.1.1 = MediaType.Video ∧ s._last_track_video ≤ p.2 ∧ p.2 < 0x70) ∨
        (p.1.1 = MediaType.Audio ∧ s._last_track_audio ≤ p.2 ∧ p.2 < 0x80) := by
  induction calls with
  | nil => intro s _ p hp; simp at hp
  | cons c rest ih =>
    intro s h p hp hne
    obtain ⟨k, ctx⟩ := c
    have hs := AddOutputContext_step s k ctx h
    simp only [TranscodeStream.AddOutputContexts, List.zip_cons_cons, List.mem_cons] at hp
    rcases hp with hp | hp
    · subst hp
      rcases hs.2 hne with ⟨hk, he, _, hlt⟩ | ⟨hk, he, _, hlt⟩
      · exact Or.inl ⟨hk, by simp only [he]; exact le_refl _, by simp only [he]; exact hlt⟩
      · exact Or.inr ⟨hk, by simp only [he]; exact le_refl _, by simp only [he]; exact hlt⟩
    · have hb : 0x60 ≤ (s.AddOutputContext k ctx).2._last_track_video ∧
          (s.AddOutputContext k ctx).2._last_track_video ≤ 0x70 ∧
          0x70 ≤ (s.AddOutputContext k ctx).2._last_track_audio ∧
          (s.AddOutputContext k ctx).2._last_track_audio ≤ 0x80 := by
        obtain ⟨⟨a1, a2, a3, a4⟩, _⟩ := hs
        omega
      rcases ih _ hb p hp hne with ⟨hk, h5, h6⟩ | ⟨hk, h5, h6⟩
      · exact Or.inl ⟨hk, by omega, h6⟩
      · exact Or.inr ⟨hk, by omega, h6⟩

theorem AddOutputContexts_length (calls : List (MediaType × TranscodeContext)) :
    ∀ s : TranscodeStream, (s.AddOutputContexts calls).1.length = calls.length := by
  induction calls with
  | nil => intro s; rfl
  | cons c rest ih =>
    intro s
    obtain ⟨k, ctx⟩ := c
    simp [TranscodeStream.AddOutputContexts, ih]

theorem AddOutputContexts_ids_mem (calls : List (MediaType × TranscodeContext))
    (s : TranscodeStream)
    (h : 0x60 ≤ s._last_track_video ∧ s._last_track_video ≤ 0x70 ∧
      0x70 ≤ s._last_track_audio ∧ s._last_track_audio ≤ 0x80)
    (t : Nat) (ht : t ∈ (s.AddOutputContexts calls).1) (hne : t ≠ 0) :
    (s._last_track_video ≤ t ∧ t < 0x70) ∨ (s._last_track_audio ≤ t ∧ t < 0x80) := by
  obtain ⟨i, hi, rfl⟩ := List.getElem_of_mem ht
  have hi2 : i < calls.length := by rw [← AddOutputContexts_length calls s]; exact hi
  have hz : (calls[i], (s.AddOutputContexts calls).1[i]) ∈
      List.zip calls (s.AddOutputContexts calls).1 := by
    have hl : i < (List.zip calls (s.AddOutputContexts calls).1).length := by
      simp [List.length_zip, AddOutputContexts_length]; exact hi2
    have := List.getElem_mem hl
    simpa [List.getElem_zip] using this
  rcases AddOutputContexts_ids calls s h _ hz hne with ⟨_, h5, h6⟩ | ⟨_, h5, h6⟩
  · exact Or.inl ⟨h5, h6⟩
  · exact Or.inr ⟨h5, h6⟩

theorem AddOutputContexts_nodup (calls : List (MediaType × TranscodeContext)) :
    ∀ s : TranscodeStream,
      (0x60 ≤ s._last_track_video ∧ s._last_track_video ≤ 0x70 ∧
        0x70 ≤ s._last_track_audio ∧ s._last_track_audio ≤ 0x80) →
      ((s.AddOutputContexts calls).1.filter (fun t => decide (t ≠ 0))).Nodup := by
  induction calls with
  | nil => intro s _; simp [TranscodeStream.AddOutputContexts]
  | cons c rest ih =>
    intro s h
    obtain ⟨k, ctx⟩ := c
    have hs := AddOutputContext_step s k ctx h
    have hb : 0x60 ≤ (s.AddOutputContext k ctx).2._last_track_video ∧
        (s.AddOutputContext k ctx).2._last_track_video ≤ 0x70 ∧
        0x70 ≤ (s.AddOutputContext k ctx).2._last_track_audio ∧
        (s.AddOutputContext k ctx).2._last_track_audio ≤ 0x80 := by
      obtain ⟨⟨a1, a2, a3, a4⟩, _⟩ := hs
      omega
    simp only [TranscodeStream.AddOutputContexts]
    by_cases hz : (s.AddOutputContext k ctx).1 = 0
    · rw [List.filter_cons_of_neg (by simp [hz])]
      exact ih _ hb
    · rw [List.filter_cons_of_pos (by simp [hz])]
      refine List.nodup_cons.mpr ⟨?_, ih _ hb⟩
      intro hmem
      have hmem2 := (List.mem_filter.mp hmem).1
      have hlater := AddOutputContexts_ids_mem rest _ hb _ hmem2 hz
      rcases hs.2 hz with ⟨_, he, hn, hlt⟩ | ⟨_, he, hn, hlt⟩
      · obtain ⟨⟨a1, a2, a3, a4⟩, _⟩ := hs
        omega
      · obtain ⟨⟨a1, a2, a3, a4⟩, _⟩ := hs
        omega

theorem AddOutputContexts_contexts (calls : List (MediaType × TranscodeContext)) :
    ∀ s : TranscodeStream,
      (0x60 ≤ s._last_track_video ∧ s._last_track_video ≤ 0x70 ∧
        0x70 ≤ s._last_track_audio ∧ s._last_track_audio ≤ 0x80) →
      (∀ c ∈ calls, c.2.media_type = c.1) →
      (∀ e ∈ s._output_contexts,
        (e.2.media_type = MediaType.Video → 0x60 ≤ e.1 ∧ e.1 < 0x70) ∧
        (e.2.media_type = MediaType.Audio → 0x70 ≤ e.1 ∧ e.1 < 0x80)) →
      ∀ e ∈ (s.AddOutputContexts calls).2._output_contexts,
        (e.2.media_type = MediaType.Video → 0x60 ≤ e.1 ∧ e.1 < 0x70) ∧
        (e.2.media_type = MediaType.Audio → 0x70 ≤ e.1 ∧ e.1 < 0x80) := by
  induction calls with
  | nil => intro s _ _ hinv; simpa [TranscodeStream.AddOutputContexts] using hinv
  | cons c rest ih =>
    intro s h hc hinv
    obtain ⟨k, ctx⟩ := c
    have hs := AddOutputContext_step s k ctx h
    have hb : 0x60 ≤ (s.AddOutputContext k ctx).2._last_track_video ∧
        (s.AddOutputContext k ctx).2._last_track_video ≤ 0x70 ∧
        0x70 ≤ (s.AddOutputContext k ctx).2._last_track_audio ∧
        (s.AddOutputContext k ctx).2._last_track_audio ≤ 0x80 := by
      obtain ⟨⟨a1, a2, a3, a4⟩, _⟩ := hs
      omega
    have hk : ctx.media_type = k := hc (k, ctx) (List.mem_cons_self _ _)
    simp only [TranscodeStream.AddOutputContexts]
    refine ih _ hb (fun c hcm => hc c (List.mem_cons_of_mem _ hcm)) ?_
    obtain ⟨h1, h2, h3, h4⟩ := h
    cases k
    · intro e he
      simp only [TranscodeStream.AddOutputContext] at he
      rcases OvMap.mem_assign _ _ _ _ he with he | he
      · subst he
        simp [hk]
      · exact hinv e he
    · intro e he
      simp only [TranscodeStream.AddOutputContext] at he
      by_cases hv : s._last_track_video ≥ 0x70
      · rw [if_pos hv] at he
        exact hinv e he
      · rw [if_neg hv] at he
        rcases OvMap.mem_assign _ _ _ _ he with he | he
        · subst he
          simp only [hk]
          simp
          omega
        · exact hinv e he
    · intro e he
      simp only [TranscodeStream.AddOutputContext] at he
      by_cases hv : s._last_track_audio > 0x7F
      · rw [if_pos hv] at he
        exact hinv e he
      · rw [if_neg hv] at he
        rcases OvMap.mem_assign _ _ _ _ he with he | he
        · subst he
          simp only [hk]
          simp
          omega
        · exact hinv e he

theorem AddOutputContexts_entries (calls : List (MediaType × TranscodeContext)) :
    ∀ s : TranscodeStream,
      (0x60 ≤ s._last_track_video ∧ s._last_track_video ≤ 0x70 ∧
        0x70 ≤ s._last_track_audio ∧ s._last_track_audio ≤ 0x80) →
      ∀ e ∈ (s.AddOutputContexts calls).2._output_contexts,
        e ∈ s._output_contexts ∨
        ∃ p ∈ List.zip calls (s.AddOutputContexts calls).1, p.2 = e.1 ∧ p.1.2 = e.2 ∧
          ((p.1.1 = MediaType.Video ∧ s._last_track_video ≤ e.1 ∧ e.1 < 0x70) ∨
           (p.1.1 = MediaType.Audio ∧ s._last_track_audio ≤ e.1 ∧ e.1 < 0x80) ∨
           (p.1.1 = MediaType.Unknown ∧ e.1 = 0)) := by
  induction calls with
  | nil => intro s _ e he; exact Or.inl he
  | cons c rest ih =>
    intro s h e he
    obtain ⟨k, ctx⟩ := c
    have hs := AddOutputContext_step s k ctx h
    have hb : 0x60 ≤ (s.AddOutputContext k ctx).2._last_track_video ∧
        (s.AddOutputContext k ctx).2._last_track_video ≤ 0x70 ∧
        0x70 ≤ (s.AddOutputContext k ctx).2._last_track_audio ∧
        (s.AddOutputContext k ctx).2._last_track_audio ≤ 0x80 := by
      obtain ⟨⟨a1, a2, a3, a4⟩, _⟩ := hs
      omega
    simp only [TranscodeStream.AddOutputContexts] at he
    simp only [TranscodeStream.AddOutputContexts, List.zip_cons_cons, List.mem_cons]
    rcases ih _ hb e he with hold | ⟨p, hp, h1, h2, h3⟩
    · have hhead : e ∈ s._output_contexts ∨
          (e = ((s.AddOutputContext k ctx).1, ctx) ∧
            ((k = MediaType.Video ∧ s._last_track_video ≤ e.1 ∧ e.1 < 0x70) ∨
             (k = MediaType.Audio ∧ s._last_track_audio ≤ e.1 ∧ e.1 < 0x80) ∨
             (k = MediaType.Unknown ∧ e.1 = 0))) := by
        obtain ⟨b1, b2, b3, b4⟩ := h
        cases k
        · simp only [TranscodeStream.AddOutputContext] at hold ⊢
          rcases OvMap.mem_assign _ _ _ _ hold with he2 | he2
          · subst he2
            exact Or.inr ⟨rfl, by simp⟩
          · exact Or.inl he2
        · simp only [TranscodeStream.AddOutputContext] at hold ⊢
          by_cases hv : s._last_track_video ≥ 0x70
          · rw [if_pos hv] at hold
            exact Or.inl hold
          · rw [if_neg hv] at hold
            rw [if_neg hv]
            rcases OvMap.mem_assign _ _ _ _ hold with he2 | he2
            · subst he2
              exact Or.inr ⟨rfl, by simp; omega⟩
            · exact Or.inl he2
        · simp only [TranscodeStream.AddOutputContext] at hold ⊢
          by_cases hv : s._last_track_audio > 0x7F
          · rw [if_pos hv] at hold
            exact Or.inl hold
          · rw [if_neg hv] at hold
            rw [if_neg hv]
            rcases OvMap.mem_assign _ _ _ _ hold with he2 | he2
            · subst he2
              exact Or.inr ⟨rfl, by simp; omega⟩
            · exact Or.inl he2
      rcases hhead with hh | ⟨hh, hr⟩
      · exact Or.inl hh
      · refine Or.inr ⟨((k, ctx), (s.AddOutputContext k ctx).1), Or.inl rfl, ?_, ?_, hr⟩
        · rw [hh]
        · rw [hh]
    · refine Or.inr ⟨p, Or.inr hp, h1, h2, ?_⟩
      obtain ⟨⟨a1, a2, a3, a4⟩, _⟩ := hs
      rcases h3 with ⟨hk, h5, h6⟩ | ⟨hk, h5, h6⟩ | hz
      · exact Or.inl ⟨hk, by omega, h6⟩
      · exact Or.inr (Or.inl ⟨hk, by omega, h6⟩)
      · exact Or.inr (Or.inr hz)

theorem AddOutputContexts_find_older (calls : List (MediaType × TranscodeContext)) :
    ∀ s : TranscodeStream,
      (0x60 ≤ s._last_track_video ∧ s._last_track_video ≤ 0x70 ∧
        0x70 ≤ s._last_track_audio ∧ s._last_track_audio ≤ 0x80) →
      ∀ t : Nat, t ≠ 0 → (t < s._last_track_video ∨ (0x70 ≤ t ∧ t < s._last_track_audio)) →
        OvMap.find (s.AddOutputContexts calls).2._output_contexts t
          = OvMap.find s._output_contexts t := by
  induction calls with
  | nil => intro s _ t _ _; rfl
  | cons c rest ih =>
    intro s h t ht hold
    obtain ⟨k, ctx⟩ := c
    have hs := AddOutputContext_step s k ctx h
    have hb : 0x60 ≤ (s.AddOutputContext k ctx).2._last_track_video ∧
        (s.AddOutputContext k ctx).2._last_track_video ≤ 0x70 ∧
        0x70 ≤ (s.AddOutputContext k ctx).2._last_track_audio ∧
        (s.AddOutputContext k ctx).2._last_track_audio ≤ 0x80 := by
      obtain ⟨⟨a1, a2, a3, a4⟩, _⟩ := hs
      omega
    simp only [TranscodeStream.AddOutputContexts]
    rw [ih _ hb t ht (by obtain ⟨⟨a1, a2, a3, a4⟩, _⟩ := hs; omega)]
    obtain ⟨b1, b2, b3, b4⟩ := h
    cases k
    · simp only [TranscodeStream.AddOutputContext]
      exact OvMap.find_assign_other _ _ _ _ ht
    · simp only [TranscodeStream.AddOutputContext]
      by_cases hv : s._last_track_video ≥ 0x70
      · rw [if_pos hv]
      · rw [if_neg hv]
        exact OvMap.find_assign_other _ _ _ _ (by omega)
    · simp only [TranscodeStream.AddOutputContext]
      by_cases hv : s._last_track_audio > 0x7F
      · rw [if_pos hv]
      · rw [if_neg hv]
        exact OvMap.find_assign_other _ _ _ _ (by omega)

theorem AddOutputContexts_stored (calls : List (MediaType × TranscodeContext)) :
    ∀ s : TranscodeStream,
      (0x60 ≤ s._last_track_video ∧ s._last_track_video ≤ 0x70 ∧
        0x70 ≤ s._last_track_audio ∧ s._last_track_audio ≤ 0x80) →
      ∀ p ∈ List.zip calls (s.AddOutputContexts calls).1, p.2 ≠ 0 →
        OvMap.find (s.AddOutputContexts calls).2._output_contexts p.2 = some p.1.2 := by
  induction calls with
  | nil => intro s _ p hp; simp at hp
  | cons c rest ih =>
    intro s h p hp hne
    obtain ⟨k, ctx⟩ := c
    have hs := AddOutputContext_step s k ctx h
    have hb : 0x60 ≤ (s.AddOutputContext k ctx).2._last_track_video ∧
        (s.AddOutputContext k ctx).2._last_track_video ≤ 0x70 ∧
        0x70 ≤ (s.AddOutputContext k ctx).2._last_track_audio ∧
        (s.AddOutputContext k ctx).2._last_track_audio ≤ 0x80 := by
      obtain ⟨⟨a1, a2, a3, a4⟩, _⟩ := hs
      omega
    simp only [TranscodeStream.AddOutputContexts, List.zip_cons_cons, List.mem_cons] at hp
    simp only [TranscodeStream.AddOutputContexts]
    rcases hp with hp | hp
    · subst hp
      simp only at hne ⊢
      have hold : (s.AddOutputContext k ctx).1 < (s.AddOutputContext k ctx).2._last_track_video ∨
          (0x70 ≤ (s.AddOutputContext k ctx).1 ∧
            (s.AddOutputContext k ctx).1 < (s.AddOutputContext k ctx).2._last_track_audio) := by
        obtain ⟨b1, b2, b3, b4⟩ := h
        rcases hs.2 hne with ⟨_, he, hn, hlt⟩ | ⟨_, he, hn, hlt⟩
        · left; omega
        · right; omega
      rw [AddOutputContexts_find_older rest _ hb _ hne hold]
      cases k
      · exact absurd rfl hne
      · simp only [TranscodeStream.AddOutputContext] at hne ⊢
        by_cases hv : s._last_track_video ≥ 0x70
        · rw [if_pos hv] at hne
          exact absurd rfl hne
        · rw [if_neg hv]
          exact OvMap.find_assign_self _ _ _
      · simp only [TranscodeStream.AddOutputContext] at hne ⊢
        by_cases hv : s._last_track_audio > 0x7F
        · rw [if_pos hv] at hne
          exact absurd rfl hne
        · rw [if_neg hv]
          exact OvMap.find_assign_self _ _ _
    · exact ih _ hb p hp hne

/-! ## The registry of output streams -/

/-- C6 fails on the code: two engines are built under application 1, for the inputs `cam`
and `cam2`; both names are registered. When the first engine runs `DeleteStreams`, as
its decode worker does when `Stop` joins it, the set of application 1 is emptied,
although the second engine still holds its output stream `live_cam2`. -/
theorem DeleteStreams_clears_streams_of_other_engines :
    (TranscodeStream.Constructor Sample.env
      (TranscodeStream.Constructor Sample.env [] Sample.app Sample.cam).1
      Sample.app Sample.cam2).1 = [(1, ["live_cam".toList, "live_cam2".toList])] ∧
    OvMap.keys (TranscodeStream.Constructor Sample.env [] Sample.app Sample.cam).2._stream_info_outputs
      = ["live_cam".toList] ∧
    OvMap.keys (TranscodeStream.Constructor Sample.env
      (TranscodeStream.Constructor Sample.env [] Sample.app Sample.cam).1
      Sample.app Sample.cam2).2._stream_info_outputs = ["live_cam2".toList] ∧
    ((TranscodeStream.Constructor Sample.env [] Sample.app Sample.cam).2.DeleteStreams
      (TranscodeStream.Constructor Sample.env
        (TranscodeStream.Constructor Sample.env [] Sample.app Sample.cam).1
        Sample.app Sample.cam2).1).2.1 = [(1, [])] ∧
    ((TranscodeStream.Constructor Sample.env [] Sample.app Sample.cam).2.Stop
      (TranscodeStream.Constructor Sample.env
        (TranscodeStream.Constructor Sample.env [] Sample.app Sample.cam).1
        Sample.app Sample.cam2).1).2.1 = [(1, [])] := by
  decide

/-! ## SendFrame -/

theorem SendFrameLoop_eq (stream_tracks : List (OvString × List Nat)) (track_id : Nat)
    (packet : MediaPacket) (outputs : List (OvString × StreamInfo)) :
    TranscodeStream.SendFrameLoop stream_tracks track_id packet outputs
      = (outputs.filter (fun iter => Routed stream_tracks track_id iter.1)).map
          (fun iter => ParentCall.SendFrame iter.2 packet.ClonePacket) := by
  induction outputs with
  | nil => rfl
  | cons hd tl ih =>
    obtain ⟨name, info⟩ := hd
    simp only [TranscodeStream.SendFrameLoop, List.filter_cons, Routed]
    cases hf : OvMap.find stream_tracks name with
    | none => simpa [Routed] using ih
    | some tracks =>
      by_cases hm : track_id ∈ tracks
      · simpa [hm, Routed] using ih
      · simpa [hm, Routed] using ih

theorem toUInt8_cast (track_id : Int) : ((toUInt8 track_id : Nat) : Int) = track_id % 256 := by
  unfold toUInt8
  exact Int.toNat_of_nonneg (Int.emod_nonneg _ (by decide))

theorem Routed_toUInt8 (stream_tracks : List (OvString × List Nat)) (track_id : Int)
    (name : OvString) :
    Routed stream_tracks (toUInt8 track_id) name
      = RoutedTo stream_tracks (track_id % 256) name := by
  have e := toUInt8_cast track_id
  unfold Routed RoutedTo
  cases OvMap.find stream_tracks name with
  | none => rfl
  | some tracks =>
    simp only [List.mem_map, decide_eq_decide]
    constructor
    · intro hm
      exact ⟨_, hm, e⟩
    · rintro ⟨t, ht, he⟩
      have : t = toUInt8 track_id := by
        have h2 : (t : Int) = ((toUInt8 track_id : Nat) : Int) := by rw [he, e]
        exact_mod_cast h2
      rw [← this]
      exact ht

/-- C7: for every engine state and every packet, the calls `parent.SendFrame` that
`SendFrame` makes are, in the order of `_stream_info_outputs` and each with a clone of
the packet, one for each output stream whose routing list `_stream_tracks[S]` contains
the track id of the packet cast to `uint8_t`, and none for any other stream. A packet
that `SendFrame` receives carries a `TrackId` (`EncodeFrame` stamps it with the key of
its encoder), on which the cast is the identity: for every such packet the calls are
those for the output streams whose routing list contains the track id of the packet,
so every call is made for an output stream that has a routing list with the track id
of the packet in it. -/
theorem SendFrame_routes (s : TranscodeStream) (packet : MediaPacket) :
    s.SendFrame packet
      = (s._stream_info_outputs.filter
            (fun iter => RoutedTo s._stream_tracks (packet.track_id % 256) iter.1)).map
          (fun iter => ParentCall.SendFrame iter.2 packet.ClonePacket) ∧
    (IsTrackId packet.track_id →
      s.SendFrame packet
        = (s._stream_info_outputs.filter
              (fun iter => RoutedTo s._stream_tracks packet.track_id iter.1)).map
            (fun iter => ParentCall.SendFrame iter.2 packet.ClonePacket) ∧
      ∀ call ∈ s.SendFrame packet, ∃ iter ∈ s._stream_info_outputs,
        call = ParentCall.SendFrame iter.2 packet.ClonePacket ∧
        ∃ tracks, OvMap.find s._stream_tracks iter.1 = some tracks ∧
          ∃ t ∈ tracks, (t : Int) = packet.track_id) := by
  have g : s.SendFrame packet
      = (s._stream_info_outputs.filter
            (fun iter => RoutedTo s._stream_tracks (packet.track_id % 256) iter.1)).map
          (fun iter => ParentCall.SendFrame iter.2 packet.ClonePacket) := by
    unfold TranscodeStream.SendFrame
    rw [SendFrameLoop_eq]
    congr 1
    apply List.filter_congr
    intro iter _
    exact Routed_toUInt8 _ _ _
  refine ⟨g, ?_⟩
  intro h
  have hid : packet.track_id % 256 = packet.track_id := Int.emod_eq_of_lt h.1 h.2
  rw [hid] at g
  refine ⟨g, ?_⟩
  intro call hc
  rw [g] at hc
  obtain ⟨iter, hi, rfl⟩ := List.mem_map.mp hc
  obtain ⟨hmem, hr⟩ := List.mem_filter.mp hi
  refine ⟨iter, hmem, rfl, ?_⟩
  unfold RoutedTo at hr
  cases hf : OvMap.find s._stream_tracks iter.1 with
  | none => simp [hf] at hr
  | some tracks =>
    simp only [hf, List.mem_map, decide_eq_true_eq] at hr
    exact ⟨tracks, rfl, hr⟩

/-- The statement of `SendFrame_routes` on the engine of the sample configuration and
a packet of the output track `0x60`: one call, for `live_cam`. -/
theorem SendFrame_routes_witness :
    IsTrackId (0x60 : Int) ∧
    (TranscodeStream.Constructor Sample.env [] Sample.app Sample.cam).2._stream_tracks
      = [("live_cam".toList, [0x60, 0x70])] ∧
    ((TranscodeStream.Constructor Sample.env [] Sample.app Sample.cam).2.SendFrame
      { Sample.packet with track_id := 0x60 }).length = 1 ∧
    (TranscodeStream.Constructor Sample.env [] Sample.app Sample.cam).2.SendFrame
        { Sample.packet with track_id := 0x60 }
      = ((TranscodeStream.Constructor Sample.env [] Sample.app Sample.cam).2._stream_info_outputs.filter
            (fun iter => RoutedTo
              (TranscodeStream.Constructor Sample.env [] Sample.app Sample.cam).2._stream_tracks
              0x60 iter.1)).map
          (fun iter => ParentCall.SendFrame iter.2
            (MediaPacket.ClonePacket { Sample.packet with track_id := 0x60 })) :=
  ⟨by decide, by decide, by decide,
    ((SendFrame_routes (TranscodeStream.Constructor Sample.env [] Sample.app Sample.cam).2
      { Sample.packet with track_id := 0x60 }).2 (by decide)).1⟩

/-! ## DecodePacket -/

theorem PushedFrames_append (a b : List DecodeEvent) :
    PushedFrames (a ++ b) = PushedFrames a ++ PushedFrames b := by
  induction a with
  | nil => rfl
  | cons e tl ih =>
    cases e with
    | ChangeOutputFormat n f => simpa [PushedFrames] using ih
    | Push n f => simpa [PushedFrames] using ih

theorem ChangeOutputFormat_queue (s : TranscodeStream) (buffer : MediaFrame) :
    (s.ChangeOutputFormat buffer)._queue_decoded = s._queue_decoded ∧
    (s.ChangeOutputFormat buffer)._max_queue_size = s._max_queue_size := by
  simp only [TranscodeStream.ChangeOutputFormat]
  split
  · exact ⟨rfl, rfl⟩
  · exact ⟨rfl, rfl⟩

theorem SetTrackId_twice (frame : MediaFrame) (track_id : Int) :
    (frame.SetTrackId track_id).SetTrackId track_id = frame.SetTrackId track_id := rfl

theorem DecodeLoop_DataReady (track_id : Int) (frame : MediaFrame)
    (outputs : List (TranscodeResult × MediaFrame)) (n : Nat) (s : TranscodeStream)
    (log : List DecodeEvent) :
    TranscodeStream.DecodeLoop track_id ((TranscodeResult.DataReady, frame) :: outputs) n s log
      = if s._queue_decoded.size > s._max_queue_size then
          (TranscodeResult.DataReady, s.CountDecodedFrame, log)
        else
          TranscodeStream.DecodeLoop track_id outputs (n + 1)
            (s.CountDecodedFrame.PushDecoded (frame.SetTrackId track_id))
            (log ++ [DecodeEvent.Push n (frame.SetTrackId track_id)]) := rfl

theorem DecodeLoop_FormatChanged (track_id : Int) (frame : MediaFrame)
    (outputs : List (TranscodeResult × MediaFrame)) (n : Nat) (s : TranscodeStream)
    (log : List DecodeEvent) :
    TranscodeStream.DecodeLoop track_id ((TranscodeResult.FormatChanged, frame) :: outputs) n s log
      = if s._queue_decoded.size > s._max_queue_size then
          (TranscodeResult.FormatChanged,
            (s.ChangeOutputFormat (frame.SetTrackId track_id)).CountDecodedFrame,
            log ++ [DecodeEvent.ChangeOutputFormat n (frame.SetTrackId track_id)])
        else
          TranscodeStream.DecodeLoop track_id outputs (n + 1)
            ((s.ChangeOutputFormat (frame.SetTrackId track_id)).CountDecodedFrame.PushDecoded
              (frame.SetTrackId track_id))
            (log ++ [DecodeEvent.ChangeOutputFormat n (frame.SetTrackId track_id)] ++
              [DecodeEvent.Push n (frame.SetTrackId track_id)]) := by
  have hq := ChangeOutputFormat_queue s (frame.SetTrackId track_id)
  simp only [TranscodeStream.DecodeLoop, TranscodeStream.CountDecodedFrame, hq.1, hq.2,
    SetTrackId_twice]

/-- What the loop appends to the log belongs to the calls from `n` on, and the queue
grows by the frames pushed. -/
theorem DecodeLoop_log (track_id : Int) (outputs : List (TranscodeResult × MediaFrame)) :
    ∀ (n : Nat) (s : TranscodeStream) (log : List DecodeEvent),
      ∃ add, (TranscodeStream.DecodeLoop track_id outputs n s log).2.2 = log ++ add ∧
        (∀ e ∈ add, n ≤ e.index) ∧
        (TranscodeStream.DecodeLoop track_id outputs n s log).2.1._queue_decoded.items
          = s._queue_decoded.items ++ PushedFrames add := by
  induction outputs with
  | nil => intro n s log; exact ⟨[], by simp [TranscodeStream.DecodeLoop, PushedFrames]⟩
  | cons o rest ih =>
    intro n s log
    obtain ⟨result, frame⟩ := o
    have hq := ChangeOutputFormat_queue s (frame.SetTrackId track_id)
    cases result with
    | DataReady =>
      rw [DecodeLoop_DataReady]
      split_ifs with h
      · exact ⟨[], by simp [PushedFrames, TranscodeStream.CountDecodedFrame]⟩
      · obtain ⟨add, h1, h2, h3⟩ := ih (n + 1)
          (s.CountDecodedFrame.PushDecoded (frame.SetTrackId track_id))
          (log ++ [DecodeEvent.Push n (frame.SetTrackId track_id)])
        refine ⟨DecodeEvent.Push n (frame.SetTrackId track_id) :: add, ?_, ?_, ?_⟩
        · rw [h1]; simp
        · intro e he
          rcases List.mem_cons.mp he with he | he
          · subst he; exact le_refl _
          · exact Nat.le_of_succ_le (h2 e he)
        · rw [h3]
          simp [MediaQueue.push, PushedFrames, TranscodeStream.CountDecodedFrame,
            TranscodeStream.PushDecoded]
    | FormatChanged =>
      rw [DecodeLoop_FormatChanged]
      split_ifs with h
      · refine ⟨[DecodeEvent.ChangeOutputFormat n (frame.SetTrackId track_id)], rfl, ?_, ?_⟩
        · intro e he
          simp only [List.mem_singleton] at he
          subst he; exact le_refl _
        · simp [PushedFrames, hq.1, TranscodeStream.CountDecodedFrame]
      · obtain ⟨add, h1, h2, h3⟩ := ih (n + 1)
          ((s.ChangeOutputFormat (frame.SetTrackId track_id)).CountDecodedFrame.PushDecoded
            (frame.SetTrackId track_id))
          (log ++ [DecodeEvent.ChangeOutputFormat n (frame.SetTrackId track_id)] ++
            [DecodeEvent.Push n (frame.SetTrackId track_id)])
        refine ⟨DecodeEvent.ChangeOutputFormat n (frame.SetTrackId track_id) ::
          DecodeEvent.Push n (frame.SetTrackId track_id) :: add, ?_, ?_, ?_⟩
        · rw [h1]; simp
        · intro e he
          rcases List.mem_cons.mp he with he | he
          · subst he; exact le_refl _
          · rcases List.mem_cons.mp he with he | he
            · subst he; exact le_refl _
            · exact Nat.le_of_succ_le (h2 e he)
        · rw [h3]
          simp [MediaQueue.push, PushedFrames, hq.1, TranscodeStream.CountDecodedFrame,
            TranscodeStream.PushDecoded]
    | NoData => exact ⟨[], by simp [TranscodeStream.DecodeLoop, PushedFrames]⟩
    | Error => exact ⟨[], by simp [TranscodeStream.DecodeLoop, PushedFrames]⟩
    | EndOfStream => exact ⟨[], by simp [TranscodeStream.DecodeLoop, PushedFrames]⟩

/-- While the decoder hands out frames and the queue has room, the loop pushes them and
goes on with the rest of the results. -/
theorem DecodeLoop_passes (track_id : Int) (rest : List (TranscodeResult × MediaFrame))
    (pre : List (TranscodeResult × MediaFrame)) :
    ∀ (n : Nat) (s : TranscodeStream) (log : List DecodeEvent),
      (∀ o ∈ pre, o.1 = TranscodeResult.DataReady ∨ o.1 = TranscodeResult.FormatChanged) →
      (∀ j, j < pre.length → s._queue_decoded.size + j ≤ s._max_queue_size) →
      ∃ s1 add,
        TranscodeStream.DecodeLoop track_id (pre ++ rest) n s log
          = TranscodeStream.DecodeLoop track_id rest (n + pre.length) s1 (log ++ add) ∧
        (∀ e ∈ add, e.index < n + pre.length) ∧
        s1._queue_decoded.size = s._queue_decoded.size + pre.length ∧
        s1._max_queue_size = s._max_queue_size := by
  induction pre with
  | nil => intro n s log _ _; exact ⟨s, [], by simp⟩
  | cons o tl ih =>
    intro n s log hpre hroom
    obtain ⟨result, frame⟩ := o
    have hq := ChangeOutputFormat_queue s (frame.SetTrackId track_id)
    have h0 : ¬ (s._queue_decoded.size > s._max_queue_size) := by
      have := hroom 0 (by simp)
      omega
    have hres := hpre (result, frame) (List.mem_cons_self _ _)
    have htl : ∀ o ∈ tl, o.1 = TranscodeResult.DataReady ∨ o.1 = TranscodeResult.FormatChanged :=
      fun o ho => hpre o (List.mem_cons_of_mem _ ho)
    have hlen : n + (tl.length + 1) = n + 1 + tl.length := by omega
    simp only at hres
    rcases hres with hres | hres
    · subst hres
      obtain ⟨s1, add, h1, h2, h3, h4⟩ := ih (n + 1)
        (s.CountDecodedFrame.PushDecoded (frame.SetTrackId track_id))
        (log ++ [DecodeEvent.Push n (frame.SetTrackId track_id)]) htl
        (by
          intro j hj
          have := hroom (j + 1) (by simp; omega)
          simp only [MediaQueue.size, MediaQueue.push, List.length_append, List.length_singleton,
            TranscodeStream.CountDecodedFrame, TranscodeStream.PushDecoded] at this ⊢
          omega)
      refine ⟨s1, DecodeEvent.Push n (frame.SetTrackId track_id) :: add, ?_, ?_, ?_, ?_⟩
      · rw [List.cons_append, DecodeLoop_DataReady, if_neg h0, h1, List.length_cons, hlen]
        simp
      · intro e he
        rcases List.mem_cons.mp he with he | he
        · subst he; simp [DecodeEvent.index]
        · have := h2 e he
          simp only [List.length_cons]; omega
      · rw [h3]
        simp [MediaQueue.size, MediaQueue.push, TranscodeStream.CountDecodedFrame,
          TranscodeStream.PushDecoded]
        omega
      · rw [h4]; rfl
    · subst hres
      obtain ⟨s1, add, h1, h2, h3, h4⟩ := ih (n + 1)
        ((s.ChangeOutputFormat (frame.SetTrackId track_id)).CountDecodedFrame.PushDecoded
          (frame.SetTrackId track_id))
        (log ++ [DecodeEvent.ChangeOutputFormat n (frame.SetTrackId track_id)] ++
          [DecodeEvent.Push n (frame.SetTrackId track_id)]) htl
        (by
          intro j hj
          have := hroom (j + 1) (by simp; omega)
          simp only [hq.1, hq.2, MediaQueue.size, MediaQueue.push, List.length_append,
            List.length_singleton, TranscodeStream.CountDecodedFrame,
            TranscodeStream.PushDecoded] at this ⊢
          omega)
      refine ⟨s1, DecodeEvent.ChangeOutputFormat n (frame.SetTrackId track_id) ::
        DecodeEvent.Push n (frame.SetTrackId track_id) :: add, ?_, ?_, ?_, ?_⟩
      · rw [List.cons_append, DecodeLoop_FormatChanged, if_neg h0, h1, List.length_cons, hlen]
        simp
      · intro e he
        rcases List.mem_cons.mp he with he | he
        · subst he; simp [DecodeEvent.index]
        · rcases List.mem_cons.mp he with he | he
          · subst he; simp [DecodeEvent.index]
          · have := h2 e he
            simp only [List.length_cons]; omega
      · rw [h3]
        simp [MediaQueue.size, MediaQueue.push, hq.1, TranscodeStream.CountDecodedFrame,
          TranscodeStream.PushDecoded]
        omega
      · rw [h4]
        simp [hq.2, TranscodeStream.CountDecodedFrame, TranscodeStream.PushDecoded]

/-- C10, as amended: on a known input track, let the decoder hand out the frames `pre`,
all pushed, and then `frame` with the result FormatChanged, at the `RecvBuffer` call
number `pre.length`. `ChangeOutputFormat` is invoked for the frame. When the
decoded-frame queue then holds at most `_max_queue_size` frames, the frame is pushed
right after, and no other event of the call concerns it: it is in the queue exactly
once. When the queue holds more, the frame is dropped and `DecodePacket` returns
FormatChanged. In both cases the queue grows by exactly the frames pushed. -/
theorem DecodePacket_FormatChanged_frame (s : TranscodeStream) (track_id : Int)
    (packet : MediaPacket) (pre : List (TranscodeResult × MediaFrame)) (frame : MediaFrame)
    (rest : List (TranscodeResult × MediaFrame))
    (hdec : OvMap.find s._decoders track_id ≠ none)
    (hpre : ∀ o ∈ pre, o.1 = TranscodeResult.DataReady ∨ o.1 = TranscodeResult.FormatChanged)
    (hroom : ∀ j, j < pre.length → s._queue_decoded.size + j ≤ s._max_queue_size) :
    (s.DecodePacket track_id packet
        (pre ++ (TranscodeResult.FormatChanged, frame) :: rest)).2.1._queue_decoded.items
      = s._queue_decoded.items ++ PushedFrames (s.DecodePacket track_id packet
          (pre ++ (TranscodeResult.FormatChanged, frame) :: rest)).2.2 ∧
    ∃ before after, (∀ e ∈ before, e.index < pre.length) ∧ (∀ e ∈ after, pre.length < e.index) ∧
      if s._queue_decoded.size + pre.length ≤ s._max_queue_size then
        (s.DecodePacket track_id packet
            (pre ++ (TranscodeResult.FormatChanged, frame) :: rest)).2.2
          = before ++ [DecodeEvent.ChangeOutputFormat pre.length (frame.SetTrackId track_id),
              DecodeEvent.Push pre.length (frame.SetTrackId track_id)] ++ after
      else
        (s.DecodePacket track_id packet
            (pre ++ (TranscodeResult.FormatChanged, frame) :: rest)).2.2
          = before ++ [DecodeEvent.ChangeOutputFormat pre.length (frame.SetTrackId track_id)] ∧
        after = [] ∧
        (s.DecodePacket track_id packet
            (pre ++ (TranscodeResult.FormatChanged, frame) :: rest)).1
          = TranscodeResult.FormatChanged := by
  have hD : s.DecodePacket track_id packet (pre ++ (TranscodeResult.FormatChanged, frame) :: rest)
      = TranscodeStream.DecodeLoop track_id
          (pre ++ (TranscodeResult.FormatChanged, frame) :: rest) 0 s [] := by
    unfold TranscodeStream.DecodePacket
    cases hf : OvMap.find s._decoders track_id with
    | none => exact absurd hf hdec
    | some c => rfl
  rw [hD]
  constructor
  · obtain ⟨add, h1, _, h3⟩ := DecodeLoop_log track_id
      (pre ++ (TranscodeResult.FormatChanged, frame) :: rest) 0 s []
    rw [h3, h1]; simp
  · obtain ⟨s1, before, h1, h2, h3, h4⟩ := DecodeLoop_passes track_id
      ((TranscodeResult.FormatChanged, frame) :: rest) pre 0 s [] hpre hroom
    rw [h1, DecodeLoop_FormatChanged]
    simp only [Nat.zero_add, List.nil_append] at h2 ⊢
    by_cases hfull : s._queue_decoded.size + pre.length ≤ s._max_queue_size
    · have hn : ¬ (s1._queue_decoded.size > s1._max_queue_size) := by
        rw [h3, h4]; omega
      simp only [if_neg hn, if_pos hfull]
      obtain ⟨after, g1, g2, _⟩ := DecodeLoop_log track_id rest (pre.length + 1)
        ((s1.ChangeOutputFormat (frame.SetTrackId track_id)).CountDecodedFrame.PushDecoded
          (frame.SetTrackId track_id))
        (before ++ [DecodeEvent.ChangeOutputFormat pre.length (frame.SetTrackId track_id)] ++
          [DecodeEvent.Push pre.length (frame.SetTrackId track_id)])
      refine ⟨before, after, h2, fun e he => g2 e he, ?_⟩
      rw [g1]
      simp
    · have hn : s1._queue_decoded.size > s1._max_queue_size := by
        rw [h3, h4]; omega
      simp only [if_pos hn, if_neg hfull]
      exact ⟨before, [], h2, by simp, by simp⟩


/-- The statement of `DecodePacket_FormatChanged_frame` for a decoder that hands out a
frame, then a frame with FormatChanged, then nothing. -/
theorem DecodePacket_FormatChanged_frame_witness :
    OvMap.find Sample.running._decoders 0 ≠ none ∧
    (Sample.running.DecodePacket 0 Sample.packet
        ([(TranscodeResult.DataReady, Sample.frame)] ++
          (TranscodeResult.FormatChanged, Sample.frame) ::
            [(TranscodeResult.NoData, Sample.frame)])).2.1._queue_decoded.items
      = Sample.running._queue_decoded.items ++ PushedFrames
          (Sample.running.DecodePacket 0 Sample.packet
            ([(TranscodeResult.DataReady, Sample.frame)] ++
              (TranscodeResult.FormatChanged, Sample.frame) ::
                [(TranscodeResult.NoData, Sample.frame)])).2.2 :=
  ⟨by decide,
    (DecodePacket_FormatChanged_frame Sample.running 0 Sample.packet
      [(TranscodeResult.DataReady, Sample.frame)] Sample.frame
      [(TranscodeResult.NoData, Sample.frame)] (by decide) (by decide) (by decide)).1⟩

set_option maxRecDepth 20000 in
/-- C10 fails when the decoded-frame queue is over-full: with 257 frames waiting and the
limit 256, a frame the decoder returns with FormatChanged has `ChangeOutputFormat`
invoked for it and is then dropped; nothing is pushed. -/
theorem DecodePacket_drops_FormatChanged_frame :
    Sample.overfull._queue_decoded.size = 257 ∧ Sample.overfull._max_queue_size = 256 ∧
    OvMap.find Sample.overfull._decoders 0 ≠ none ∧
    (Sample.overfull.DecodePacket 0 Sample.packet
        [(TranscodeResult.FormatChanged, Sample.frame)]).2.2
      = [DecodeEvent.ChangeOutputFormat 0 Sample.frame] ∧
    (Sample.overfull.DecodePacket 0 Sample.packet
        [(TranscodeResult.FormatChanged, Sample.frame)]).2.1._queue_decoded.size = 257 ∧
    (Sample.overfull.DecodePacket 0 Sample.packet
        [(TranscodeResult.FormatChanged, Sample.frame)]).1 = TranscodeResult.FormatChanged := by
  decide


/-! ## The routing table of the constructor -/

theorem AddOutputContext_keys (s : TranscodeStream) (k : MediaType) (ctx : TranscodeContext) :
    (∀ t ∈ OvMap.keys s._output_contexts,
      t ∈ OvMap.keys (s.AddOutputContext k ctx).2._output_contexts) ∧
    ((s.AddOutputContext k ctx).1 ≠ 0 →
      (s.AddOutputContext k ctx).1 ∈ OvMap.keys (s.AddOutputContext k ctx).2._output_contexts) ∧
    (s.AddOutputContext k ctx).2._stream_tracks = s._stream_tracks := by
  cases k
  · simp only [TranscodeStream.AddOutputContext]
    exact ⟨fun t ht => (OvMap.mem_keys_assign _ _ _ _).mpr (Or.inr ht), fun h => absurd rfl h, trivial⟩
  · simp only [TranscodeStream.AddOutputContext]
    split_ifs with h
    · exact ⟨fun t ht => ht, fun h => absurd rfl h, rfl⟩
    · exact ⟨fun t ht => (OvMap.mem_keys_assign _ _ _ _).mpr (Or.inr ht),
        fun _ => (OvMap.mem_keys_assign _ _ _ _).mpr (Or.inl rfl), rfl⟩
  · simp only [TranscodeStream.AddOutputContext]
    split_ifs with h
    · exact ⟨fun t ht => ht, fun h => absurd rfl h, rfl⟩
    · exact ⟨fun t ht => (OvMap.mem_keys_assign _ _ _ _).mpr (Or.inr ht),
        fun _ => (OvMap.mem_keys_assign _ _ _ _).mpr (Or.inl rfl), rfl⟩

theorem AddProfileTrack_keys (s : TranscodeStream) (x : TranscodeStream × List Nat)
    (k : MediaType) (ctx : TranscodeContext)
    (h : (∀ t ∈ x.2, t ∈ OvMap.keys x.1._output_contexts) ∧
      (∀ t ∈ OvMap.keys s._output_contexts, t ∈ OvMap.keys x.1._output_contexts) ∧
      x.1._stream_tracks = s._stream_tracks) :
    (∀ t ∈ (TranscodeStream.AddProfileTrack x k ctx).2,
      t ∈ OvMap.keys (TranscodeStream.AddProfileTrack x k ctx).1._output_contexts) ∧
    (∀ t ∈ OvMap.keys s._output_contexts,
      t ∈ OvMap.keys (TranscodeStream.AddProfileTrack x k ctx).1._output_contexts) ∧
    (TranscodeStream.AddProfileTrack x k ctx).1._stream_tracks = s._stream_tracks := by
  obtain ⟨h1, h2, h3⟩ := h
  obtain ⟨g1, g2, g3⟩ := AddOutputContext_keys x.1 k ctx
  unfold TranscodeStream.AddProfileTrack
  by_cases hz : (x.1.AddOutputContext k ctx).1 ≠ 0
  · simp only [if_pos hz]
    refine ⟨?_, fun t ht => g1 t (h2 t ht), g3.trans h3⟩
    intro t ht
    rcases List.mem_append.mp ht with ht | ht
    · exact g1 t (h1 t ht)
    · simp only [List.mem_singleton] at ht
      subst ht
      exact g2 hz
  · simp only [if_neg hz]
    exact ⟨fun t ht => g1 t (h1 t ht), fun t ht => g1 t (h2 t ht), g3.trans h3⟩

theorem ProfileStep_keys (st : TranscodeStream × List (OvString × List Nat) × List Nat)
    (encode : Encode) (h0 : st.2.2 = [])
    (h1 : ∀ e ∈ st.2.1, ∀ t ∈ e.2, t ∈ OvMap.keys st.1._output_contexts) :
    (TranscodeStream.ProfileStep st encode).2.2 = [] ∧
    (∀ e ∈ (TranscodeStream.ProfileStep st encode).2.1, ∀ t ∈ e.2,
      t ∈ OvMap.keys (TranscodeStream.ProfileStep st encode).1._output_contexts) ∧
    (TranscodeStream.ProfileStep st encode).1._stream_tracks = st.1._stream_tracks := by
  unfold TranscodeStream.ProfileStep
  by_cases ha : encode.active = false
  · simp only [if_pos ha]
    exact ⟨h0, h1, trivial⟩
  · simp only [if_neg ha]
    have hbase : (∀ t ∈ (st.1, st.2.2).2, t ∈ OvMap.keys (st.1, st.2.2).1._output_contexts) ∧
        (∀ t ∈ OvMap.keys st.1._output_contexts,
          t ∈ OvMap.keys (st.1, st.2.2).1._output_contexts) ∧
        (st.1, st.2.2).1._stream_tracks = st.1._stream_tracks := by
      simp [h0]
    generalize hv : (match encode.video_profile with
      | none => (st.1, st.2.2)
      | some video_profile =>
        if video_profile.active then
          TranscodeStream.AddProfileTrack (st.1, st.2.2) MediaType.Video
            (TranscodeContext.video true (GetCodecId video_profile.codec) video_profile.bitrate
              video_profile.width video_profile.height video_profile.framerate)
        else
          (st.1, st.2.2)) = afterVideo
    have hV : (∀ t ∈ afterVideo.2, t ∈ OvMap.keys afterVideo.1._output_contexts) ∧
        (∀ t ∈ OvMap.keys st.1._output_contexts, t ∈ OvMap.keys afterVideo.1._output_contexts) ∧
        afterVideo.1._stream_tracks = st.1._stream_tracks := by
      rw [← hv]
      split
      · exact hbase
      · split_ifs
        · exact AddProfileTrack_keys st.1 _ _ _ hbase
        · exact hbase
    generalize hw : (match encode.audio_profile with
      | none => afterVideo
      | some audio_profile =>
        if audio_profile.active then
          TranscodeStream.AddProfileTrack afterVideo MediaType.Audio
            (TranscodeContext.audio true (GetCodecId audio_profile.codec) audio_profile.bitrate
              audio_profile.samplerate)
        else
          afterVideo) = afterAudio
    have hA : (∀ t ∈ afterAudio.2, t ∈ OvMap.keys afterAudio.1._output_contexts) ∧
        (∀ t ∈ OvMap.keys st.1._output_contexts, t ∈ OvMap.keys afterAudio.1._output_contexts) ∧
        afterAudio.1._stream_tracks = st.1._stream_tracks := by
      rw [← hw]
      split
      · exact hV
      · split_ifs
        · exact AddProfileTrack_keys st.1 _ _ _ hV
        · exact hV
    obtain ⟨a1, a2, a3⟩ := hA
    by_cases he : afterAudio.2 ≠ []
    · simp only [if_pos he]
      refine ⟨trivial, ?_, a3⟩
      intro e hem t ht
      rcases OvMap.mem_assign _ _ _ _ hem with hem | hem
      · subst hem
        exact a1 t ht
      · exact a2 t (h1 e hem t ht)
    · simp only [if_neg he]
      refine ⟨by simpa using he, ?_, a3⟩
      intro e hem t ht
      exact a2 t (h1 e hem t ht)

theorem GenerateProfileTracks_keys (encodes : List Encode) :
    ∀ st : TranscodeStream × List (OvString × List Nat) × List Nat,
      st.2.2 = [] →
      (∀ e ∈ st.2.1, ∀ t ∈ e.2, t ∈ OvMap.keys st.1._output_contexts) →
      (encodes.foldl TranscodeStream.ProfileStep st).2.2 = [] ∧
      (∀ e ∈ (encodes.foldl TranscodeStream.ProfileStep st).2.1, ∀ t ∈ e.2,
        t ∈ OvMap.keys (encodes.foldl TranscodeStream.ProfileStep st).1._output_contexts) ∧
      (encodes.foldl TranscodeStream.ProfileStep st).1._stream_tracks = st.1._stream_tracks := by
  induction encodes with
  | nil => intro st h0 h1; exact ⟨h0, h1, rfl⟩
  | cons encode rest ih =>
    intro st h0 h1
    obtain ⟨g0, g1, g2⟩ := ProfileStep_keys st encode h0 h1
    obtain ⟨k0, k1, k2⟩ := ih _ g0 g1
    simp only [List.foldl_cons]
    exact ⟨k0, k1, k2.trans g2⟩


theorem StreamProfilesLoop_append (env : Env) (profile_tracks : List (OvString × List Nat))
    (profiles : List OvString) :
    ∀ tracks : List Nat,
      TranscodeStream.StreamProfilesLoop env profile_tracks profiles tracks
        = tracks ++ TranscodeStream.StreamProfilesLoop env profile_tracks profiles [] := by
  induction profiles with
  | nil => intro tracks; simp [TranscodeStream.StreamProfilesLoop]
  | cons p rest ih =>
    intro tracks
    simp only [TranscodeStream.StreamProfilesLoop]
    cases hf : OvMap.find profile_tracks p with
    | none => exact ih tracks
    | some item =>
      simp only
      rw [ih (tracks ++ [VectorAt env item 0, VectorAt env item 1]),
        ih ([] ++ [VectorAt env item 0, VectorAt env item 1])]
      simp

theorem StreamProfilesLoop_nil_iff (env : Env) (profile_tracks : List (OvString × List Nat))
    (profiles : List OvString) :
    TranscodeStream.StreamProfilesLoop env profile_tracks profiles [] = [] ↔
      ∀ p ∈ profiles, OvMap.find profile_tracks p = none := by
  induction profiles with
  | nil => simp [TranscodeStream.StreamProfilesLoop]
  | cons p rest ih =>
    simp only [TranscodeStream.StreamProfilesLoop]
    cases hf : OvMap.find profile_tracks p with
    | none =>
      simp only
      rw [ih]
      simp [hf]
    | some item =>
      simp only
      rw [StreamProfilesLoop_append]
      simp [hf]

theorem VectorAt_mem (env : Env) (v : List Nat) (i : Nat) (h : i < v.length) :
    VectorAt env v i ∈ v := by
  unfold VectorAt
  rw [List.getElem?_eq_getElem h]
  exact List.getElem_mem h

theorem StreamProfilesLoop_mem (env : Env) (profile_tracks : List (OvString × List Nat))
    (profiles : List OvString)
    (hlen : ∀ p ∈ profiles, ∀ item, OvMap.find profile_tracks p = some item → item.length = 2) :
    ∀ t ∈ TranscodeStream.StreamProfilesLoop env profile_tracks profiles [],
      ∃ e ∈ profile_tracks, t ∈ e.2 := by
  induction profiles with
  | nil => intro t ht; simp [TranscodeStream.StreamProfilesLoop] at ht
  | cons p rest ih =>
    intro t ht
    have ih2 := ih (fun q hq => hlen q (List.mem_cons_of_mem _ hq))
    simp only [TranscodeStream.StreamProfilesLoop] at ht
    cases hf : OvMap.find profile_tracks p with
    | none =>
      simp only [hf] at ht
      exact ih2 t ht
    | some item =>
      simp only [hf] at ht
      rw [StreamProfilesLoop_append] at ht
      have h2 := hlen p (List.mem_cons_self _ _) item hf
      rcases List.mem_append.mp ht with ht | ht
      · refine ⟨(p, item), OvMap.mem_of_find _ _ _ hf, ?_⟩
        simp only [List.nil_append, List.mem_cons, List.mem_singleton, List.not_mem_nil,
          or_false] at ht
        rcases ht with ht | ht
        · rw [ht]; exact VectorAt_mem env item 0 (by omega)
        · rw [ht]; exact VectorAt_mem env item 1 (by omega)
      · exact ih2 t ht

theorem AddStreamInfoOutput_fields (s : TranscodeStream) (stream_list : StreamList)
    (stream_name : OvString) :
    (s.AddStreamInfoOutput stream_list stream_name).2.2._output_contexts = s._output_contexts ∧
    (s.AddStreamInfoOutput stream_list stream_name).2.2._stream_tracks = s._stream_tracks := by
  unfold TranscodeStream.AddStreamInfoOutput
  split
  · exact ⟨rfl, rfl⟩
  · split_ifs
    · exact ⟨rfl, rfl⟩
    · exact ⟨rfl, rfl⟩

theorem StreamStep_tracks (env : Env) (profile_tracks : List (OvString × List Nat))
    (origin : OvString) (st : StreamList × TranscodeStream × List Nat) (stream : StreamConfig)
    (h0 : st.2.2 = []) :
    (TranscodeStream.StreamStep env profile_tracks origin st stream).2.2 = [] ∧
    (TranscodeStream.StreamStep env profile_tracks origin st stream).2.1._output_contexts
      = st.2.1._output_contexts ∧
    ∀ e ∈ (TranscodeStream.StreamStep env profile_tracks origin st stream).2.1._stream_tracks,
      e ∈ st.2.1._stream_tracks ∨
      (e.1 = Replace stream.name OriginStreamName origin ∧
        e.2 = TranscodeStream.StreamProfilesLoop env profile_tracks stream.profiles []) := by
  unfold TranscodeStream.StreamStep
  obtain ⟨f1, f2⟩ := AddStreamInfoOutput_fields st.2.1 st.1
    (Replace stream.name OriginStreamName origin)
  simp only
  split_ifs with hr
  · refine ⟨h0, f1, ?_⟩
    intro e he
    rw [f2] at he
    exact Or.inl he
  · rw [h0]
    refine ⟨rfl, f1, ?_⟩
    intro e he
    rcases OvMap.mem_assign _ _ _ _ he with he | he
    · subst he
      exact Or.inr ⟨rfl, rfl⟩
    · rw [f2] at he
      exact Or.inl he

theorem GenerateStreamTracks_tracks (env : Env) (profile_tracks : List (OvString × List Nat))
    (origin : OvString) (streams : List StreamConfig) :
    ∀ st : StreamList × TranscodeStream × List Nat,
      st.2.2 = [] →
      (TranscodeStream.GenerateStreamTracks env profile_tracks origin streams st).2.2 = [] ∧
      (TranscodeStream.GenerateStreamTracks env profile_tracks origin streams st).2.1._output_contexts
        = st.2.1._output_contexts ∧
      ∀ e ∈ (TranscodeStream.GenerateStreamTracks env profile_tracks origin streams
          st).2.1._stream_tracks,
        e ∈ st.2.1._stream_tracks ∨
        ∃ stream ∈ streams, e.1 = Replace stream.name OriginStreamName origin ∧
          e.2 = TranscodeStream.StreamProfilesLoop env profile_tracks stream.profiles [] := by
  induction streams with
  | nil =>
    intro st h0
    exact ⟨h0, rfl, fun e he => Or.inl he⟩
  | cons stream rest ih =>
    intro st h0
    simp only [TranscodeStream.GenerateStreamTracks]
    obtain ⟨a0, a1, a2⟩ := StreamStep_tracks env profile_tracks origin st stream h0
    obtain ⟨b0, b1, b2⟩ := ih _ a0
    refine ⟨b0, b1.trans a1, ?_⟩
    intro e he
    rcases b2 e he with he | ⟨x, hx, hh⟩
    · rcases a2 e he with he | hh
      · exact Or.inl he
      · exact Or.inr ⟨stream, List.mem_cons_self _ _, hh⟩
    · exact Or.inr ⟨x, List.mem_cons_of_mem _ hx, hh⟩

theorem FoundInStreams_iff (track : Nat) (stream_tracks : List (OvString × List Nat)) :
    TranscodeStream.FoundInStreams track stream_tracks = true ↔
      ∃ e ∈ stream_tracks, track ∈ e.2 := by
  induction stream_tracks with
  | nil => simp [TranscodeStream.FoundInStreams]
  | cons hd tl ih =>
    obtain ⟨name, tracks⟩ := hd
    simp only [TranscodeStream.FoundInStreams]
    by_cases h : track ∈ tracks
    · simp [h]
    · simp [h, ih]

theorem UnusedTracks_mem (stream_tracks : List (OvString × List Nat))
    (output_contexts : List (Nat × TranscodeContext)) :
    ∀ (tracks : List Nat) (t : Nat),
      t ∈ TranscodeStream.UnusedTracks stream_tracks output_contexts tracks ↔
        t ∈ tracks ∨ (t ∈ OvMap.keys output_contexts ∧
          TranscodeStream.FoundInStreams t stream_tracks = false) := by
  induction output_contexts with
  | nil => intro tracks t; simp [TranscodeStream.UnusedTracks, OvMap.keys]
  | cons hd tl ih =>
    intro tracks t
    obtain ⟨key, ctx⟩ := hd
    simp only [TranscodeStream.UnusedTracks]
    by_cases h : TranscodeStream.FoundInStreams key stream_tracks = true
    · rw [if_pos h, ih]
      simp only [OvMap.keys, List.map_cons, List.mem_cons]
      constructor
      · rintro (h1 | ⟨h1, h2⟩)
        · exact Or.inl h1
        · exact Or.inr ⟨Or.inr h1, h2⟩
      · rintro (h1 | ⟨h1 | h1, h2⟩)
        · exact Or.inl h1
        · subst h1; rw [h] at h2; cases h2
        · exact Or.inr ⟨h1, h2⟩
    · rw [if_neg h, ih]
      simp only [OvMap.keys, List.map_cons, List.mem_cons, List.mem_append, List.mem_singleton,
        List.not_mem_nil, or_false]
      have h' : TranscodeStream.FoundInStreams key stream_tracks = false := by simpa using h
      constructor
      · rintro ((h1 | h1) | ⟨h1, h2⟩)
        · exact Or.inl h1
        · subst h1; exact Or.inr ⟨Or.inl rfl, h'⟩
        · exact Or.inr ⟨Or.inr h1, h2⟩
      · rintro (h1 | ⟨h1 | h1, h2⟩)
        · exact Or.inl (Or.inl h1)
        · exact Or.inl (Or.inr h1)
        · exact Or.inr ⟨h1, h2⟩

theorem DeleteUnused_keys (tracks : List Nat) :
    ∀ (output_contexts : List (Nat × TranscodeContext)) (t : Nat),
      t ∈ OvMap.keys (TranscodeStream.DeleteUnused tracks output_contexts) ↔
        t ∈ OvMap.keys output_contexts ∧ t ∉ tracks := by
  induction tracks with
  | nil => intro m t; simp [TranscodeStream.DeleteUnused]
  | cons track rest ih =>
    intro m t
    simp only [TranscodeStream.DeleteUnused]
    rw [ih, OvMap.mem_keys_erase]
    simp only [List.mem_cons, not_or]
    tauto


theorem PrepareDecoders_fields (env : Env) (tracks : List (Nat × MediaTrack)) :
    ∀ s : TranscodeStream,
      (TranscodeStream.PrepareDecoders env tracks s)._output_contexts = s._output_contexts ∧
      (TranscodeStream.PrepareDecoders env tracks s)._stream_tracks = s._stream_tracks := by
  have hc : ∀ (s : TranscodeStream) (id : Int) (ctx : TranscodeContext),
      (s.CreateDecoder env id ctx)._output_contexts = s._output_contexts ∧
      (s.CreateDecoder env id ctx)._stream_tracks = s._stream_tracks := by
    intro s id ctx
    unfold TranscodeStream.CreateDecoder
    split
    · exact ⟨rfl, rfl⟩
    · split_ifs
      · exact ⟨rfl, rfl⟩
      · exact ⟨rfl, rfl⟩
  induction tracks with
  | nil => intro s; exact ⟨rfl, rfl⟩
  | cons hd tl ih =>
    intro s
    obtain ⟨key, track⟩ := hd
    simp only [TranscodeStream.PrepareDecoders]
    split
    · obtain ⟨a, b⟩ := ih (s.CreateDecoder env (toInt32 track.id)
        { TranscodeContext.video false track.codec_id track.bitrate track.width track.height
            track.frame_rate with time_base := track.time_base })
      obtain ⟨c, d⟩ := hc s (toInt32 track.id)
        { TranscodeContext.video false track.codec_id track.bitrate track.width track.height
            track.frame_rate with time_base := track.time_base }
      exact ⟨a.trans c, b.trans d⟩
    · obtain ⟨a, b⟩ := ih (s.CreateDecoder env (toInt32 track.id)
        { TranscodeContext.audio false track.codec_id track.bitrate track.sample_rate with
          time_base := track.time_base })
      obtain ⟨c, d⟩ := hc s (toInt32 track.id)
        { TranscodeContext.audio false track.codec_id track.bitrate track.sample_rate with
          time_base := track.time_base }
      exact ⟨a.trans c, b.trans d⟩
    · exact ih s

theorem CreateEncodersLoop_fields (env : Env) (media_track : MediaTrack)
    (contexts : List (Nat × TranscodeContext)) :
    ∀ s : TranscodeStream,
      (TranscodeStream.CreateEncodersLoop env media_track contexts s)._output_contexts
        = s._output_contexts ∧
      (TranscodeStream.CreateEncodersLoop env media_track contexts s)._stream_tracks
        = s._stream_tracks := by
  induction contexts with
  | nil => intro s; exact ⟨rfl, rfl⟩
  | cons hd tl ih =>
    intro s
    obtain ⟨key, ctx⟩ := hd
    simp only [TranscodeStream.CreateEncodersLoop]
    split_ifs
    · exact ih s
    · exact ih s
    · obtain ⟨a, b⟩ := ih (TranscodeStream.CreateEncoder env
        { s with
          _stream_info_outputs :=
            TranscodeStream.AddTrackLoop
              (TranscodeStream.NewTrack media_track.media_type key ctx) key s._stream_tracks
              s._stream_info_outputs }
        (TranscodeStream.NewTrack media_track.media_type key ctx) ctx)
      refine ⟨a.trans ?_, b.trans ?_⟩
      · unfold TranscodeStream.CreateEncoder
        split_ifs <;> rfl
      · unfold TranscodeStream.CreateEncoder
        split_ifs <;> rfl

theorem CopyTracks_fields (env : Env) (tracks : List (Nat × MediaTrack)) :
    ∀ s : TranscodeStream,
      (TranscodeStream.CopyTracks env tracks s)._output_contexts = s._output_contexts ∧
      (TranscodeStream.CopyTracks env tracks s)._stream_tracks = s._stream_tracks := by
  induction tracks with
  | nil => intro s; exact ⟨rfl, rfl⟩
  | cons hd tl ih =>
    intro s
    obtain ⟨key, track⟩ := hd
    simp only [TranscodeStream.CopyTracks]
    obtain ⟨a, b⟩ := ih (s.CreateEncoders env track)
    obtain ⟨c, d⟩ := CreateEncodersLoop_fields env track s._output_contexts s
    exact ⟨a.trans c, b.trans d⟩

theorem ConstructorDecoders_fields (env : Env) (application_info : Application)
    (stream_info : StreamInfo) :
    (TranscodeStream.ConstructorDecoders env application_info stream_info)._output_contexts = [] ∧
    (TranscodeStream.ConstructorDecoders env application_info stream_info)._stream_tracks = [] := by
  unfold TranscodeStream.ConstructorDecoders
  obtain ⟨a, b⟩ := PrepareDecoders_fields env stream_info.tracks
    { TranscodeStream.Fresh env application_info with
      _stats_decoded_frame_count := 0
      _max_queue_size := 0
      _stats_queue_full_count := 0
      _stream_info_input := stream_info }
  exact ⟨a, b⟩

/-- What the constructor leaves in `_stream_tracks` and `_output_contexts`: either both
are empty (no decoder), or they are the results of the loops over the streams and of
the deletion of the unused contexts. -/
theorem Constructor_routing (env : Env) (stream_list : StreamList)
    (application_info : Application) (stream_info : StreamInfo) :
    ((TranscodeStream.Constructor env stream_list application_info stream_info).2._stream_tracks
        = [] ∧
      (TranscodeStream.Constructor env stream_list application_info stream_info).2._output_contexts
        = []) ∨
    ∃ st, st = TranscodeStream.GenerateStreamTracks env
        (TranscodeStream.ConstructorProfileTracks env application_info stream_info)
        stream_info.name application_info.streams
        (StreamListTouch stream_list application_info.id,
          ((TranscodeStream.ConstructorDecoders env application_info
            stream_info).GenerateProfileTracks application_info.encodes).1,
          ((TranscodeStream.ConstructorDecoders env application_info
            stream_info).GenerateProfileTracks application_info.encodes).2.2) ∧
      (TranscodeStream.Constructor env stream_list application_info stream_info).2._stream_tracks
        = st.2.1._stream_tracks ∧
      (TranscodeStream.Constructor env stream_list application_info stream_info).2._output_contexts
        = TranscodeStream.DeleteUnused
          (TranscodeStream.UnusedTracks st.2.1._stream_tracks st.2.1._output_contexts st.2.2)
          st.2.1._output_contexts := by
  unfold TranscodeStream.Constructor
  simp only
  split_ifs with hd
  · obtain ⟨a, b⟩ := ConstructorDecoders_fields env application_info stream_info
    exact Or.inl ⟨b, a⟩
  all_goals
    right
    refine ⟨_, rfl, ?_⟩
    unfold TranscodeStream.ConstructorProfileTracks
    generalize TranscodeStream.GenerateStreamTracks env
        ((TranscodeStream.ConstructorDecoders env application_info
          stream_info).GenerateProfileTracks application_info.encodes).2.1
        stream_info.name application_info.streams
        (StreamListTouch stream_list application_info.id,
          ((TranscodeStream.ConstructorDecoders env application_info
            stream_info).GenerateProfileTracks application_info.encodes).1,
          ((TranscodeStream.ConstructorDecoders env application_info
            stream_info).GenerateProfileTracks application_info.encodes).2.2) = st
    obtain ⟨c, d⟩ := CopyTracks_fields env
      ({ st.2.1 with
        _output_contexts := TranscodeStream.DeleteUnused
          (TranscodeStream.UnusedTracks st.2.1._stream_tracks st.2.1._output_contexts st.2.2)
          st.2.1._output_contexts } : TranscodeStream)._stream_info_input.tracks
      { st.2.1 with
        _output_contexts := TranscodeStream.DeleteUnused
          (TranscodeStream.UnusedTracks st.2.1._stream_tracks st.2.1._output_contexts st.2.2)
          st.2.1._output_contexts }
    exact ⟨d, c⟩

/-- The facts about the routing table the constructor builds: every key left in
`_output_contexts` is a track id some stream lists; every list of `_stream_tracks` is
the one the loop over the profiles computes for a configured stream; and a listed id
that is an id of some entry of `profile_tracks` is a key of `_output_contexts`. -/
theorem Constructor_routing_facts (env : Env) (stream_list : StreamList)
    (application_info : Application) (stream_info : StreamInfo) :
    (∀ t ∈ OvMap.keys
        (TranscodeStream.Constructor env stream_list application_info stream_info).2._output_contexts,
      ∃ e ∈ (TranscodeStream.Constructor env stream_list application_info
        stream_info).2._stream_tracks, t ∈ e.2) ∧
    (∀ e ∈ (TranscodeStream.Constructor env stream_list application_info
        stream_info).2._stream_tracks,
      ∃ stream ∈ application_info.streams,
        e.1 = Replace stream.name OriginStreamName stream_info.name ∧
        e.2 = TranscodeStream.StreamProfilesLoop env
          (TranscodeStream.ConstructorProfileTracks env application_info stream_info)
          stream.profiles []) ∧
    (∀ e ∈ (TranscodeStream.Constructor env stream_list application_info
        stream_info).2._stream_tracks,
      ∀ t ∈ e.2,
        (∃ pe ∈ TranscodeStream.ConstructorProfileTracks env application_info stream_info,
          t ∈ pe.2) →
        t ∈ OvMap.keys (TranscodeStream.Constructor env stream_list application_info
          stream_info).2._output_contexts) := by
  rcases Constructor_routing env stream_list application_info stream_info with
    ⟨h1, h2⟩ | ⟨st, hg, h1, h2⟩
  · rw [h1, h2]
    simp [OvMap.keys]
  · obtain ⟨d1, d2⟩ := ConstructorDecoders_fields env application_info stream_info
    obtain ⟨p0, p1, p2⟩ := GenerateProfileTracks_keys application_info.encodes
      (TranscodeStream.ConstructorDecoders env application_info stream_info, [], []) rfl
      (by intro e he; simp at he)
    obtain ⟨g0, g1, g2⟩ := GenerateStreamTracks_tracks env
      (TranscodeStream.ConstructorProfileTracks env application_info stream_info)
      stream_info.name application_info.streams
      (StreamListTouch stream_list application_info.id,
        ((TranscodeStream.ConstructorDecoders env application_info
          stream_info).GenerateProfileTracks application_info.encodes).1,
        ((TranscodeStream.ConstructorDecoders env application_info
          stream_info).GenerateProfileTracks application_info.encodes).2.2) p0
    rw [← hg] at g0 g1 g2
    have hB : ∀ e ∈ st.2.1._stream_tracks, ∃ stream ∈ application_info.streams,
        e.1 = Replace stream.name OriginStreamName stream_info.name ∧
        e.2 = TranscodeStream.StreamProfilesLoop env
          (TranscodeStream.ConstructorProfileTracks env application_info stream_info)
          stream.profiles [] := by
      intro e he
      rcases g2 e he with he | hh
      · simp only at he
        have hp2 : (List.foldl TranscodeStream.ProfileStep
            (TranscodeStream.ConstructorDecoders env application_info stream_info, [], [])
            application_info.encodes).1._stream_tracks = [] := by
          rw [p2]; exact d2
        unfold TranscodeStream.GenerateProfileTracks at he
        rw [hp2] at he
        simp at he
      · exact hh
    rw [h1, h2]
    refine ⟨?_, hB, ?_⟩
    · intro t ht
      rw [DeleteUnused_keys, UnusedTracks_mem, g0] at ht
      obtain ⟨hk, hn⟩ := ht
      have hf : TranscodeStream.FoundInStreams t st.2.1._stream_tracks = true := by
        by_contra hc
        exact hn (Or.inr ⟨hk, by simpa using hc⟩)
      exact (FoundInStreams_iff _ _).mp hf
    · intro e he t ht hpe
      obtain ⟨pe, hpe, hpt⟩ := hpe
      rw [DeleteUnused_keys, UnusedTracks_mem, g0]
      refine ⟨?_, ?_⟩
      · rw [g1]
        exact p1 pe hpe t hpt
      · rintro (hh | ⟨_, hh⟩)
        · simp at hh
        · rw [(FoundInStreams_iff _ _).mpr ⟨e, he, ht⟩] at hh
          cases hh

/-- C8, as amended: after the constructor has built the routing table, each entry of
`_stream_tracks` is filed under the substituted name `S` of a configured stream; the
list `_stream_tracks[S]` is empty exactly when none of the profiles of that stream is in
`profile_tracks` (so it is non-empty as soon as one of them is); and when every entry of
`profile_tracks` that the stream lists holds two track ids, every track id in
`_stream_tracks[S]` is a key of `_output_contexts`. -/
theorem Constructor_stream_tracks (env : Env) (stream_list : StreamList)
    (application_info : Application) (stream_info : StreamInfo) :
    ∀ e ∈ (TranscodeStream.Constructor env stream_list application_info
        stream_info).2._stream_tracks,
      ∃ stream ∈ application_info.streams,
        e.1 = Replace stream.name OriginStreamName stream_info.name ∧
        (e.2 = [] ↔ ∀ p ∈ stream.profiles,
          OvMap.find (TranscodeStream.ConstructorProfileTracks env application_info stream_info) p
            = none) ∧
        ((∀ p ∈ stream.profiles, ∀ item,
            OvMap.find (TranscodeStream.ConstructorProfileTracks env application_info stream_info) p
              = some item → item.length = 2) →
          ∀ t ∈ e.2, t ∈ OvMap.keys (TranscodeStream.Constructor env stream_list application_info
            stream_info).2._output_contexts) := by
  obtain ⟨_, hB, hC⟩ := Constructor_routing_facts env stream_list application_info stream_info
  intro e he
  obtain ⟨stream, hs, hn, hl⟩ := hB e he
  refine ⟨stream, hs, hn, ?_, ?_⟩
  · rw [hl]
    exact StreamProfilesLoop_nil_iff _ _ _
  · intro hlen t ht
    refine hC e he t ht ?_
    rw [hl] at ht
    exact StreamProfilesLoop_mem env _ _ hlen t ht

/-- The statement of `Constructor_stream_tracks` on the sample configuration, where the
stream `live_cam` lists the profile `P1` with the ids `0x60` and `0x70`. -/
theorem Constructor_stream_tracks_witness :
    (TranscodeStream.Constructor Sample.env [] Sample.app Sample.cam).2._stream_tracks
      = [("live_cam".toList, [0x60, 0x70])] ∧
    (∀ p ∈ ["P1".toList], ∀ item,
      OvMap.find (TranscodeStream.ConstructorProfileTracks Sample.env Sample.app Sample.cam) p
        = some item → item.length = 2) ∧
    ∀ e ∈ (TranscodeStream.Constructor Sample.env [] Sample.app Sample.cam).2._stream_tracks,
      ∃ stream ∈ Sample.app.streams,
        e.1 = Replace stream.name OriginStreamName Sample.cam.name ∧
        (e.2 = [] ↔ ∀ p ∈ stream.profiles,
          OvMap.find (TranscodeStream.ConstructorProfileTracks Sample.env Sample.app Sample.cam) p
            = none) ∧
        ((∀ p ∈ stream.profiles, ∀ item,
            OvMap.find (TranscodeStream.ConstructorProfileTracks Sample.env Sample.app Sample.cam) p
              = some item → item.length = 2) →
          ∀ t ∈ e.2, t ∈ OvMap.keys (TranscodeStream.Constructor Sample.env [] Sample.app
            Sample.cam).2._output_contexts) :=
  ⟨by decide,
    by
      intro p hp item hf
      simp only [List.mem_singleton] at hp
      subst hp
      have e : OvMap.find
          (TranscodeStream.ConstructorProfileTracks Sample.env Sample.app Sample.cam)
          "P1".toList = some [0x60, 0x70] := by decide
      rw [e] at hf
      cases hf
      rfl,
    Constructor_stream_tracks Sample.env [] Sample.app Sample.cam⟩

/-- C8 fails in two ways. For a stream whose profiles are all unknown (the only output
stream lists the profile `Pmissing`) the constructor leaves `_stream_tracks["live_cam"]`
empty. For a stream that lists the video-only profile `P1`, whose entry of
`profile_tracks` is `[0x60]`, the constructor reads a second id past the end of that
entry; the read yields 0 here, `[0x60, 0]` is left in `_stream_tracks["live_cam"]`, and
`0` is not a key of `_output_contexts`. In both cases the input `cam` has decoders. -/
theorem Constructor_stream_tracks_fails :
    ((TranscodeStream.Constructor Sample.env [] Sample.appMissing Sample.cam).2._decoders ≠ [] ∧
      (TranscodeStream.Constructor Sample.env [] Sample.appMissing Sample.cam).2._stream_tracks
        = [("live_cam".toList, [])]) ∧
    ((TranscodeStream.Constructor Sample.env [] Sample.appVideoOnly Sample.cam).2._decoders ≠ [] ∧
      TranscodeStream.ConstructorProfileTracks Sample.env Sample.appVideoOnly Sample.cam
        = [("P1".toList, [0x60])] ∧
      (TranscodeStream.Constructor Sample.env [] Sample.appVideoOnly Sample.cam).2._stream_tracks
        = [("live_cam".toList, [0x60, 0])] ∧
      OvMap.keys
        (TranscodeStream.Constructor Sample.env [] Sample.appVideoOnly Sample.cam).2._output_contexts
        = [0x60]) := by
  decide

/-- C9: when every entry of `profile_tracks` holds two track ids, after the
garbage-collection step of the constructor the keys of `_output_contexts` are exactly
the track ids that occur in some list of `_stream_tracks`. -/
theorem Constructor_output_contexts_keys (env : Env) (stream_list : StreamList)
    (application_info : Application) (stream_info : StreamInfo)
    (hlen : ∀ e ∈ TranscodeStream.ConstructorProfileTracks env application_info stream_info,
      e.2.length = 2) :
    ∀ t, t ∈ OvMap.keys
        (TranscodeStream.Constructor env stream_list application_info stream_info).2._output_contexts
      ↔ ∃ e ∈ (TranscodeStream.Constructor env stream_list application_info
        stream_info).2._stream_tracks, t ∈ e.2 := by
  obtain ⟨hA, hB, hC⟩ := Constructor_routing_facts env stream_list application_info stream_info
  intro t
  constructor
  · exact hA t
  · rintro ⟨e, he, ht⟩
    refine hC e he t ht ?_
    obtain ⟨stream, _, _, hl⟩ := hB e he
    rw [hl] at ht
    exact StreamProfilesLoop_mem env _ _
      (fun p _ item hf => hlen (p, item) (OvMap.mem_of_find _ _ _ hf)) t ht

/-- The statement of `Constructor_output_contexts_keys` on the sample configuration:
the profiles `P1` and `P2` get the ids `0x60`, `0x70` and `0x61`, `0x71`, the only
stream lists `P1`, and the ids of `P1` alone are left in `_output_contexts`. -/
theorem Constructor_output_contexts_keys_witness :
    (∀ e ∈ TranscodeStream.ConstructorProfileTracks Sample.env Sample.app Sample.cam,
      e.2.length = 2) ∧
    TranscodeStream.ConstructorProfileTracks Sample.env Sample.app Sample.cam
      = [("P1".toList, [0x60, 0x70]), ("P2".toList, [0x61, 0x71])] ∧
    OvMap.keys (TranscodeStream.Constructor Sample.env [] Sample.app Sample.cam).2._output_contexts
      = [0x60, 0x70] ∧
    ∀ t, t ∈ OvMap.keys
        (TranscodeStream.Constructor Sample.env [] Sample.app Sample.cam).2._output_contexts
      ↔ ∃ e ∈ (TranscodeStream.Constructor Sample.env [] Sample.app
        Sample.cam).2._stream_tracks, t ∈ e.2 :=
  ⟨by decide, by decide, by decide,
    Constructor_output_contexts_keys Sample.env [] Sample.app Sample.cam (by decide)⟩

/-! ## The kinds of the output contexts and the keys of the encoders -/

theorem AddOutputContext_kind (s : TranscodeStream) (k : MediaType) (ctx : TranscodeContext)
    (hb : 0x60 ≤ s._last_track_video ∧ s._last_track_video ≤ 0x70 ∧
      0x70 ≤ s._last_track_audio ∧ s._last_track_audio ≤ 0x80)
    (hk : ctx.media_type = k) (hne : k ≠ MediaType.Unknown)
    (hinv : ∀ e ∈ s._output_contexts, InRangeOfKind e) :
    (0x60 ≤ (s.AddOutputContext k ctx).2._last_track_video ∧
      (s.AddOutputContext k ctx).2._last_track_video ≤ 0x70 ∧
      0x70 ≤ (s.AddOutputContext k ctx).2._last_track_audio ∧
      (s.AddOutputContext k ctx).2._last_track_audio ≤ 0x80) ∧
    ∀ e ∈ (s.AddOutputContext k ctx).2._output_contexts, InRangeOfKind e := by
  have hs := AddOutputContext_step s k ctx hb
  refine ⟨by obtain ⟨⟨a1, a2, a3, a4⟩, _⟩ := hs; omega, ?_⟩
  obtain ⟨b1, b2, b3, b4⟩ := hb
  cases k
  · exact absurd rfl hne
  · intro e he
    simp only [TranscodeStream.AddOutputContext] at he
    by_cases hv : s._last_track_video ≥ 0x70
    · rw [if_pos hv] at he
      exact hinv e he
    · rw [if_neg hv] at he
      rcases OvMap.mem_assign _ _ _ _ he with he | he
      · subst he
        exact Or.inl ⟨hk, b1, by simp only; omega⟩
      · exact hinv e he
  · intro e he
    simp only [TranscodeStream.AddOutputContext] at he
    by_cases hv : s._last_track_audio > 0x7F
    · rw [if_pos hv] at he
      exact hinv e he
    · rw [if_neg hv] at he
      rcases OvMap.mem_assign _ _ _ _ he with he | he
      · subst he
        exact Or.inr ⟨hk, b3, by simp only; omega⟩
      · exact hinv e he

theorem AddProfileTrack_kind (x : TranscodeStream × List Nat) (k : MediaType)
    (ctx : TranscodeContext)
    (h : (0x60 ≤ x.1._last_track_video ∧ x.1._last_track_video ≤ 0x70 ∧
        0x70 ≤ x.1._last_track_audio ∧ x.1._last_track_audio ≤ 0x80) ∧
      ∀ e ∈ x.1._output_contexts, InRangeOfKind e)
    (hk : ctx.media_type = k) (hne : k ≠ MediaType.Unknown) :
    (0x60 ≤ (TranscodeStream.AddProfileTrack x k ctx).1._last_track_video ∧
      (TranscodeStream.AddProfileTrack x k ctx).1._last_track_video ≤ 0x70 ∧
      0x70 ≤ (TranscodeStream.AddProfileTrack x k ctx).1._last_track_audio ∧
      (TranscodeStream.AddProfileTrack x k ctx).1._last_track_audio ≤ 0x80) ∧
    ∀ e ∈ (TranscodeStream.AddProfileTrack x k ctx).1._output_contexts, InRangeOfKind e := by
  have g := AddOutputContext_kind x.1 k ctx h.1 hk hne h.2
  unfold TranscodeStream.AddProfileTrack
  simp only
  split_ifs
  · exact g
  · exact g

theorem ProfileStep_kind (st : TranscodeStream × List (OvString × List Nat) × List Nat)
    (encode : Encode)
    (h : (0x60 ≤ st.1._last_track_video ∧ st.1._last_track_video ≤ 0x70 ∧
        0x70 ≤ st.1._last_track_audio ∧ st.1._last_track_audio ≤ 0x80) ∧
      ∀ e ∈ st.1._output_contexts, InRangeOfKind e) :
    (0x60 ≤ (TranscodeStream.ProfileStep st encode).1._last_track_video ∧
      (TranscodeStream.ProfileStep st encode).1._last_track_video ≤ 0x70 ∧
      0x70 ≤ (TranscodeStream.ProfileStep st encode).1._last_track_audio ∧
      (TranscodeStream.ProfileStep st encode).1._last_track_audio ≤ 0x80) ∧
    ∀ e ∈ (TranscodeStream.ProfileStep st encode).1._output_contexts, InRangeOfKind e := by
  unfold TranscodeStream.ProfileStep
  by_cases ha : encode.active = false
  · simp only [if_pos ha]
    exact h
  · simp only [if_neg ha]
    generalize hv : (match encode.video_profile with
      | none => (st.1, st.2.2)
      | some video_profile =>
        if video_profile.active then
          TranscodeStream.AddProfileTrack (st.1, st.2.2) MediaType.Video
            (TranscodeContext.video true (GetCodecId video_profile.codec) video_profile.bitrate
              video_profile.width video_profile.height video_profile.framerate)
        else
          (st.1, st.2.2)) = afterVideo
    have hV : (0x60 ≤ afterVideo.1._last_track_video ∧ afterVideo.1._last_track_video ≤ 0x70 ∧
        0x70 ≤ afterVideo.1._last_track_audio ∧ afterVideo.1._last_track_audio ≤ 0x80) ∧
        ∀ e ∈ afterVideo.1._output_contexts, InRangeOfKind e := by
      rw [← hv]
      split
      · exact h
      · split_ifs
        · exact AddProfileTrack_kind (st.1, st.2.2) _ _ h rfl (by decide)
        · exact h
    generalize hw : (match encode.audio_profile with
      | none => afterVideo
      | some audio_profile =>
        if audio_profile.active then
          TranscodeStream.AddProfileTrack afterVideo MediaType.Audio
            (TranscodeContext.audio true (GetCodecId audio_profile.codec) audio_profile.bitrate
              audio_profile.samplerate)
        else
          afterVideo) = afterAudio
    have hA : (0x60 ≤ afterAudio.1._last_track_video ∧ afterAudio.1._last_track_video ≤ 0x70 ∧
        0x70 ≤ afterAudio.1._last_track_audio ∧ afterAudio.1._last_track_audio ≤ 0x80) ∧
        ∀ e ∈ afterAudio.1._output_contexts, InRangeOfKind e := by
      rw [← hw]
      split
      · exact hV
      · split_ifs
        · exact AddProfileTrack_kind afterVideo _ _ hV rfl (by decide)
        · exact hV
    split_ifs
    · exact hA
    · exact hA

theorem GenerateProfileTracks_kind (encodes : List Encode) :
    ∀ st : TranscodeStream × List (OvString × List Nat) × List Nat,
      ((0x60 ≤ st.1._last_track_video ∧ st.1._last_track_video ≤ 0x70 ∧
          0x70 ≤ st.1._last_track_audio ∧ st.1._last_track_audio ≤ 0x80) ∧
        ∀ e ∈ st.1._output_contexts, InRangeOfKind e) →
      ∀ e ∈ (encodes.foldl TranscodeStream.ProfileStep st).1._output_contexts,
        InRangeOfKind e := by
  induction encodes with
  | nil => intro st h; exact h.2
  | cons encode rest ih =>
    intro st h
    simp only [List.foldl_cons]
    exact ih _ (ProfileStep_kind st encode h)

theorem PrepareDecoders_counters (env : Env) (tracks : List (Nat × MediaTrack)) :
    ∀ s : TranscodeStream,
      (TranscodeStream.PrepareDecoders env tracks s)._last_track_video = s._last_track_video ∧
      (TranscodeStream.PrepareDecoders env tracks s)._last_track_audio = s._last_track_audio := by
  have hc : ∀ (s : TranscodeStream) (id : Int) (ctx : TranscodeContext),
      (s.CreateDecoder env id ctx)._last_track_video = s._last_track_video ∧
      (s.CreateDecoder env id ctx)._last_track_audio = s._last_track_audio := by
    intro s id ctx
    unfold TranscodeStream.CreateDecoder
    split
    · exact ⟨rfl, rfl⟩
    · split_ifs
      · exact ⟨rfl, rfl⟩
      · exact ⟨rfl, rfl⟩
  induction tracks with
  | nil => intro s; exact ⟨rfl, rfl⟩
  | cons hd tl ih =>
    intro s
    obtain ⟨key, track⟩ := hd
    simp only [TranscodeStream.PrepareDecoders]
    split
    · obtain ⟨a, b⟩ := ih (s.CreateDecoder env (toInt32 track.id)
        { TranscodeContext.video false track.codec_id track.bitrate track.width track.height
            track.frame_rate with time_base := track.time_base })
      obtain ⟨c, d⟩ := hc s (toInt32 track.id)
        { TranscodeContext.video false track.codec_id track.bitrate track.width track.height
            track.frame_rate with time_base := track.time_base }
      exact ⟨a.trans c, b.trans d⟩
    · obtain ⟨a, b⟩ := ih (s.CreateDecoder env (toInt32 track.id)
        { TranscodeContext.audio false track.codec_id track.bitrate track.sample_rate with
          time_base := track.time_base })
      obtain ⟨c, d⟩ := hc s (toInt32 track.id)
        { TranscodeContext.audio false track.codec_id track.bitrate track.sample_rate with
          time_base := track.time_base }
      exact ⟨a.trans c, b.trans d⟩
    · exact ih s

theorem DeleteUnused_mem (tracks : List Nat) :
    ∀ (output_contexts : List (Nat × TranscodeContext)) (e : Nat × TranscodeContext),
      e ∈ TranscodeStream.DeleteUnused tracks output_contexts → e ∈ output_contexts := by
  induction tracks with
  | nil => intro m e he; exact he
  | cons track rest ih =>
    intro m e he
    simp only [TranscodeStream.DeleteUnused] at he
    have := ih _ e he
    unfold OvMap.erase at this
    exact (List.mem_filter.mp this).1

/-- In the engine the constructor builds, every context of `_output_contexts` is a video
context under a key of `[0x60, 0x70)` or an audio context under a key of
`[0x70, 0x80)`. -/
theorem Constructor_output_contexts_kinds (env : Env) (stream_list : StreamList)
    (application_info : Application) (stream_info : StreamInfo) :
    ∀ e ∈ (TranscodeStream.Constructor env stream_list application_info
        stream_info).2._output_contexts, InRangeOfKind e := by
  rcases Constructor_routing env stream_list application_info stream_info with
    ⟨_, h2⟩ | ⟨st, hg, _, h2⟩
  · rw [h2]
    intro e he
    simp at he
  · obtain ⟨d1, _⟩ := ConstructorDecoders_fields env application_info stream_info
    obtain ⟨c1, c2⟩ := PrepareDecoders_counters env stream_info.tracks
      { TranscodeStream.Fresh env application_info with
        _stats_decoded_frame_count := 0
        _max_queue_size := 0
        _stats_queue_full_count := 0
        _stream_info_input := stream_info }
    have hk := GenerateProfileTracks_kind application_info.encodes
      (TranscodeStream.ConstructorDecoders env application_info stream_info, [], [])
      (by
        refine ⟨?_, ?_⟩
        · have hv : (TranscodeStream.ConstructorDecoders env application_info
              stream_info)._last_track_video = 0x60 := c1
          have ha : (TranscodeStream.ConstructorDecoders env application_info
              stream_info)._last_track_audio = 0x70 := c2
          simp only [hv, ha]
          omega
        · simp only [d1]
          intro e he
          simp at he)
    obtain ⟨p0, _, _⟩ := GenerateProfileTracks_keys application_info.encodes
      (TranscodeStream.ConstructorDecoders env application_info stream_info, [], []) rfl
      (by intro e he; simp at he)
    obtain ⟨_, g1, _⟩ := GenerateStreamTracks_tracks env
      (TranscodeStream.ConstructorProfileTracks env application_info stream_info)
      stream_info.name application_info.streams
      (StreamListTouch stream_list application_info.id,
        ((TranscodeStream.ConstructorDecoders env application_info
          stream_info).GenerateProfileTracks application_info.encodes).1,
        ((TranscodeStream.ConstructorDecoders env application_info
          stream_info).GenerateProfileTracks application_info.encodes).2.2) p0
    rw [← hg] at g1
    intro e he
    rw [h2] at he
    have he2 := DeleteUnused_mem _ _ e he
    rw [g1] at he2
    exact hk e he2

theorem toInt32_small (n : Nat) (h : n < 0x80) : toInt32 n = (n : Int) := by
  unfold toInt32
  have h1 : n % 2 ^ 32 = n := Nat.mod_eq_of_lt (by omega)
  rw [h1, if_pos (by omega)]

theorem CreateEncodersLoop_encoders_keys (env : Env) (media_track : MediaTrack)
    (contexts : List (Nat × TranscodeContext)) :
    ∀ s : TranscodeStream,
      ∀ e ∈ (TranscodeStream.CreateEncodersLoop env media_track contexts s)._encoders,
        e ∈ s._encoders ∨ ∃ c ∈ contexts, e.1 = toInt32 c.1 := by
  induction contexts with
  | nil => intro s e he; exact Or.inl he
  | cons hd tl ih =>
    intro s e he
    obtain ⟨key, ctx⟩ := hd
    simp only [TranscodeStream.CreateEncodersLoop] at he
    split_ifs at he
    · rcases ih s e he with h | ⟨c, hc, h⟩
      · exact Or.inl h
      · exact Or.inr ⟨c, List.mem_cons_of_mem _ hc, h⟩
    · rcases ih s e he with h | ⟨c, hc, h⟩
      · exact Or.inl h
      · exact Or.inr ⟨c, List.mem_cons_of_mem _ hc, h⟩
    · rcases ih _ e he with h | ⟨c, hc, h⟩
      · unfold TranscodeStream.CreateEncoder at h
        split_ifs at h
        · rcases OvMap.mem_assign _ _ _ _ h with h | h
          · refine Or.inr ⟨(key, ctx), List.mem_cons_self _ _, ?_⟩
            rw [h]
            have hid : (TranscodeStream.NewTrack media_track.media_type key ctx).id = key := by
              unfold TranscodeStream.NewTrack
              cases media_track.media_type <;> rfl
            simp only [hid]
          · exact Or.inl h
        · exact Or.inl h
      · exact Or.inr ⟨c, List.mem_cons_of_mem _ hc, h⟩

theorem CopyTracks_encoders_keys (env : Env) (tracks : List (Nat × MediaTrack)) :
    ∀ s : TranscodeStream,
      ∀ e ∈ (TranscodeStream.CopyTracks env tracks s)._encoders,
        e ∈ s._encoders ∨ ∃ c ∈ s._output_contexts, e.1 = toInt32 c.1 := by
  induction tracks with
  | nil => intro s e he; exact Or.inl he
  | cons hd tl ih =>
    intro s e he
    obtain ⟨key, track⟩ := hd
    simp only [TranscodeStream.CopyTracks] at he
    obtain ⟨c1, _⟩ := CreateEncodersLoop_fields env track s._output_contexts s
    rcases ih _ e he with h | ⟨c, hc, h⟩
    · exact CreateEncodersLoop_encoders_keys env track s._output_contexts s e h
    · unfold TranscodeStream.CreateEncoders at hc
      rw [c1] at hc
      exact Or.inr ⟨c, hc, h⟩

/-! ## The ranges of the track ids -/

/-- C4: for every sequence of `AddOutputContext` calls on a fresh engine, a non-zero id
returned lies in `[0x60, 0x70)` if and only if the call was of kind Video and in
`[0x70, 0x80)` if and only if it was of kind Audio; no non-zero id is returned twice;
the context of a call that returned a non-zero id is the one `_output_contexts` holds
under that id; and every entry of `_output_contexts` is the context of one of the calls,
filed under the id that call returned, which lies in the range of the kind of that call
(a call of kind Unknown files its context under 0). So whenever each call passes a
context of its own kind, every context lies under a key in the range of its own media
kind; the calls of the constructor do, and in every engine the constructor builds each
context lies under a key in the range of its own media kind. -/
theorem AddOutputContext_ranges (env : Env) (application_info : Application)
    (calls : List (MediaType × TranscodeContext)) (stream_list : StreamList)
    (stream_info : StreamInfo) :
    (∀ p ∈ List.zip calls
        ((TranscodeStream.Fresh env application_info).AddOutputContexts calls).1,
      p.2 ≠ 0 →
        ((0x60 ≤ p.2 ∧ p.2 < 0x70) ↔ p.1.1 = MediaType.Video) ∧
        ((0x70 ≤ p.2 ∧ p.2 < 0x80) ↔ p.1.1 = MediaType.Audio)) ∧
    (((TranscodeStream.Fresh env application_info).AddOutputContexts calls).1.filter
      (fun t => decide (t ≠ 0))).Nodup ∧
    (∀ p ∈ List.zip calls
        ((TranscodeStream.Fresh env application_info).AddOutputContexts calls).1,
      p.2 ≠ 0 →
        OvMap.find
          ((TranscodeStream.Fresh env application_info).AddOutputContexts calls).2._output_contexts
          p.2 = some p.1.2) ∧
    (∀ e ∈ ((TranscodeStream.Fresh env application_info).AddOutputContexts calls).2._output_contexts,
      ∃ p ∈ List.zip calls
          ((TranscodeStream.Fresh env application_info).AddOutputContexts calls).1,
        p.2 = e.1 ∧ p.1.2 = e.2 ∧
        ((p.1.1 = MediaType.Video ∧ 0x60 ≤ e.1 ∧ e.1 < 0x70) ∨
         (p.1.1 = MediaType.Audio ∧ 0x70 ≤ e.1 ∧ e.1 < 0x80) ∨
         (p.1.1 = MediaType.Unknown ∧ e.1 = 0))) ∧
    ((∀ c ∈ calls, c.2.media_type = c.1) →
      ∀ e ∈ ((TranscodeStream.Fresh env application_info).AddOutputContexts calls).2._output_contexts,
        (e.2.media_type = MediaType.Video → 0x60 ≤ e.1 ∧ e.1 < 0x70) ∧
        (e.2.media_type = MediaType.Audio → 0x70 ≤ e.1 ∧ e.1 < 0x80)) ∧
    (∀ e ∈ (TranscodeStream.Constructor env stream_list application_info
        stream_info).2._output_contexts,
      (e.2.media_type = MediaType.Video ∧ 0x60 ≤ e.1 ∧ e.1 < 0x70) ∨
      (e.2.media_type = MediaType.Audio ∧ 0x70 ≤ e.1 ∧ e.1 < 0x80)) := by
  have hb : 0x60 ≤ (TranscodeStream.Fresh env application_info)._last_track_video ∧
      (TranscodeStream.Fresh env application_info)._last_track_video ≤ 0x70 ∧
      0x70 ≤ (TranscodeStream.Fresh env application_info)._last_track_audio ∧
      (TranscodeStream.Fresh env application_info)._last_track_audio ≤ 0x80 := by
    simp [TranscodeStream.Fresh]
  have hv0 : (TranscodeStream.Fresh env application_info)._last_track_video = 0x60 := rfl
  have ha0 : (TranscodeStream.Fresh env application_info)._last_track_audio = 0x70 := rfl
  refine ⟨?_, AddOutputContexts_nodup calls _ hb, AddOutputContexts_stored calls _ hb, ?_,
    fun h => AddOutputContexts_contexts calls _ hb h (by simp [TranscodeStream.Fresh]),
    Constructor_output_contexts_kinds env stream_list application_info stream_info⟩
  · intro p hp hne
    rcases AddOutputContexts_ids calls _ hb p hp hne with ⟨hk, h5, h6⟩ | ⟨hk, h5, h6⟩
    · rw [hv0] at h5
      simp only [hk]
      simp
      omega
    · rw [ha0] at h5
      simp only [hk]
      simp
      omega
  · intro e he
    rcases AddOutputContexts_entries calls _ hb e he with h0 | ⟨p, hp, h1, h2, h3⟩
    · simp [TranscodeStream.Fresh] at h0
    · refine ⟨p, hp, h1, h2, ?_⟩
      rw [hv0, ha0] at h3
      exact h3

/-- The statement of `AddOutputContext_ranges` on an interleaving of three calls, each
with a context of its own kind, and on the engine of the sample configuration. -/
theorem AddOutputContext_ranges_witness :
    (∀ c ∈ [(MediaType.Audio, Sample.audioContext), (MediaType.Video, Sample.videoContext),
        (MediaType.Audio, Sample.audioContext)], c.2.media_type = c.1) ∧
    ((TranscodeStream.Fresh Sample.env Sample.app).AddOutputContexts
      [(MediaType.Audio, Sample.audioContext), (MediaType.Video, Sample.videoContext),
        (MediaType.Audio, Sample.audioContext)]).1 = [0x70, 0x60, 0x71] ∧
    OvMap.keys ((TranscodeStream.Fresh Sample.env Sample.app).AddOutputContexts
      [(MediaType.Audio, Sample.audioContext), (MediaType.Video, Sample.videoContext),
        (MediaType.Audio, Sample.audioContext)]).2._output_contexts = [0x60, 0x70, 0x71] ∧
    ∀ e ∈ ((TranscodeStream.Fresh Sample.env Sample.app).AddOutputContexts
        [(MediaType.Audio, Sample.audioContext), (MediaType.Video, Sample.videoContext),
          (MediaType.Audio, Sample.audioContext)]).2._output_contexts,
      (e.2.media_type = MediaType.Video → 0x60 ≤ e.1 ∧ e.1 < 0x70) ∧
      (e.2.media_type = MediaType.Audio → 0x70 ≤ e.1 ∧ e.1 < 0x80) :=
  ⟨by decide, by decide, by decide,
    (AddOutputContext_ranges Sample.env Sample.app
      [(MediaType.Audio, Sample.audioContext), (MediaType.Video, Sample.videoContext),
        (MediaType.Audio, Sample.audioContext)] [] Sample.cam).2.2.2.2.1 (by decide)⟩

/-! ## The queue limit -/

theorem OvMap.keys_assign_sorted {K V : Type} [LinearOrder K] (k : K) (v : V)
    (m : List (K × V)) (h : (OvMap.keys m).Pairwise (fun a b => a < b)) :
    (OvMap.keys (OvMap.assign k v m)).Pairwise (fun a b => a < b) := by
  induction m with
  | nil => simp [OvMap.assign, OvMap.keys]
  | cons hd tl ih =>
    obtain ⟨k1, v1⟩ := hd
    simp only [OvMap.keys, List.map_cons, List.pairwise_cons] at h
    obtain ⟨h1, h2⟩ := h
    simp only [OvMap.assign]
    split_ifs with c1 c2
    · simp only [OvMap.keys, List.map_cons, List.pairwise_cons, List.mem_cons]
      refine ⟨?_, h1, h2⟩
      rintro a (rfl | ha)
      · exact c1
      · exact lt_trans c1 (h1 a ha)
    · subst c2
      simp only [OvMap.keys, List.map_cons, List.pairwise_cons]
      exact ⟨h1, h2⟩
    · simp only [OvMap.keys, List.map_cons, List.pairwise_cons]
      refine ⟨?_, ih h2⟩
      intro a ha
      rcases (OvMap.mem_keys_assign k v tl a).mp ha with rfl | ha
      · exact lt_of_le_of_ne (not_lt.mp c1) (fun e => c2 e.symm)
      · exact h1 a ha

theorem PrepareDecoders_encoders (env : Env) (tracks : List (Nat × MediaTrack)) :
    ∀ s : TranscodeStream,
      (TranscodeStream.PrepareDecoders env tracks s)._encoders = s._encoders := by
  have hc : ∀ (s : TranscodeStream) (id : Int) (ctx : TranscodeContext),
      (s.CreateDecoder env id ctx)._encoders = s._encoders := by
    intro s id ctx
    unfold TranscodeStream.CreateDecoder
    split
    · rfl
    · split_ifs <;> rfl
  induction tracks with
  | nil => intro s; rfl
  | cons hd tl ih =>
    intro s
    obtain ⟨key, track⟩ := hd
    simp only [TranscodeStream.PrepareDecoders]
    split
    · rw [ih, hc]
    · rw [ih, hc]
    · exact ih s

theorem AddOutputContext_encoders (s : TranscodeStream) (k : MediaType) (ctx : TranscodeContext) :
    (s.AddOutputContext k ctx).2._encoders = s._encoders := by
  cases k
  · rfl
  · simp only [TranscodeStream.AddOutputContext]
    split_ifs <;> rfl
  · simp only [TranscodeStream.AddOutputContext]
    split_ifs <;> rfl

theorem AddProfileTrack_encoders (x : TranscodeStream × List Nat) (k : MediaType)
    (ctx : TranscodeContext) :
    (TranscodeStream.AddProfileTrack x k ctx).1._encoders = x.1._encoders := by
  unfold TranscodeStream.AddProfileTrack
  simp only
  split_ifs
  · exact AddOutputContext_encoders x.1 k ctx
  · exact AddOutputContext_encoders x.1 k ctx

theorem ProfileStep_encoders (st : TranscodeStream × List (OvString × List Nat) × List Nat)
    (encode : Encode) :
    (TranscodeStream.ProfileStep st encode).1._encoders = st.1._encoders := by
  unfold TranscodeStream.ProfileStep
  by_cases ha : encode.active = false
  · simp only [if_pos ha]
  · simp only [if_neg ha]
    generalize hv : (match encode.video_profile with
      | none => (st.1, st.2.2)
      | some video_profile =>
        if video_profile.active then
          TranscodeStream.AddProfileTrack (st.1, st.2.2) MediaType.Video
            (TranscodeContext.video true (GetCodecId video_profile.codec) video_profile.bitrate
              video_profile.width video_profile.height video_profile.framerate)
        else
          (st.1, st.2.2)) = afterVideo
    have hV : afterVideo.1._encoders = st.1._encoders := by
      rw [← hv]
      split
      · rfl
      · split_ifs
        · exact AddProfileTrack_encoders _ _ _
        · rfl
    generalize hw : (match encode.audio_profile with
      | none => afterVideo
      | some audio_profile =>
        if audio_profile.active then
          TranscodeStream.AddProfileTrack afterVideo MediaType.Audio
            (TranscodeContext.audio true (GetCodecId audio_profile.codec) audio_profile.bitrate
              audio_profile.samplerate)
        else
          afterVideo) = afterAudio
    have hA : afterAudio.1._encoders = st.1._encoders := by
      rw [← hw]
      split
      · exact hV
      · split_ifs
        · exact (AddProfileTrack_encoders _ _ _).trans hV
        · exact hV
    split_ifs
    · exact hA
    · exact hA

theorem GenerateProfileTracks_encoders (encodes : List Encode) :
    ∀ st : TranscodeStream × List (OvString × List Nat) × List Nat,
      (encodes.foldl TranscodeStream.ProfileStep st).1._encoders = st.1._encoders := by
  induction encodes with
  | nil => intro st; rfl
  | cons encode rest ih =>
    intro st
    simp only [List.foldl_cons]
    rw [ih, ProfileStep_encoders]

theorem StreamStep_encoders (env : Env) (profile_tracks : List (OvString × List Nat))
    (origin : OvString) (st : StreamList × TranscodeStream × List Nat) (stream : StreamConfig) :
    (TranscodeStream.StreamStep env profile_tracks origin st stream).2.1._encoders
      = st.2.1._encoders := by
  have hf : ∀ (s : TranscodeStream) (l : StreamList) (name : OvString),
      (s.AddStreamInfoOutput l name).2.2._encoders = s._encoders := by
    intro s l name
    unfold TranscodeStream.AddStreamInfoOutput
    split
    · rfl
    · split_ifs <;> rfl
  unfold TranscodeStream.StreamStep
  simp only
  split_ifs with hr
  · exact hf _ _ _
  · exact hf _ _ _

theorem GenerateStreamTracks_encoders (env : Env) (profile_tracks : List (OvString × List Nat))
    (origin : OvString) (streams : List StreamConfig) :
    ∀ st : StreamList × TranscodeStream × List Nat,
      (TranscodeStream.GenerateStreamTracks env profile_tracks origin streams st).2.1._encoders
        = st.2.1._encoders := by
  induction streams with
  | nil => intro st; rfl
  | cons stream rest ih =>
    intro st
    simp only [TranscodeStream.GenerateStreamTracks]
    rw [ih, StreamStep_encoders]

theorem CreateEncodersLoop_sorted (env : Env) (media_track : MediaTrack)
    (contexts : List (Nat × TranscodeContext)) :
    ∀ s : TranscodeStream, (OvMap.keys s._encoders).Pairwise (fun a b => a < b) →
      (OvMap.keys (TranscodeStream.CreateEncodersLoop env media_track contexts
        s)._encoders).Pairwise (fun a b => a < b) := by
  induction contexts with
  | nil => intro s h; exact h
  | cons hd tl ih =>
    intro s h
    obtain ⟨key, ctx⟩ := hd
    simp only [TranscodeStream.CreateEncodersLoop]
    split_ifs
    · exact ih s h
    · exact ih s h
    · apply ih
      unfold TranscodeStream.CreateEncoder
      split_ifs
      · exact OvMap.keys_assign_sorted _ _ _ h
      · exact h

theorem CopyTracks_sorted (env : Env) (tracks : List (Nat × MediaTrack)) :
    ∀ s : TranscodeStream, (OvMap.keys s._encoders).Pairwise (fun a b => a < b) →
      (OvMap.keys (TranscodeStream.CopyTracks env tracks s)._encoders).Pairwise
        (fun a b => a < b) := by
  induction tracks with
  | nil => intro s h; exact h
  | cons hd tl ih =>
    intro s h
    obtain ⟨key, track⟩ := hd
    simp only [TranscodeStream.CopyTracks]
    exact ih _ (CreateEncodersLoop_sorted env track s._output_contexts s h)

/-- The encoders the constructor builds: the keys of `_encoders` are distinct, each is the
key of an entry of `_output_contexts`, and with at least one encoder `_max_queue_size` is
the value of `(_encoders.size() > 0x0F) ? 0xFF : _encoders.size() * 256`. -/
theorem Constructor_encoders (env : Env) (stream_list : StreamList)
    (application_info : Application) (stream_info : StreamInfo) :
    (OvMap.keys
      (TranscodeStream.Constructor env stream_list application_info stream_info).2._encoders).Nodup ∧
    (∀ e ∈ (TranscodeStream.Constructor env stream_list application_info stream_info).2._encoders,
      ∃ c ∈ (TranscodeStream.Constructor env stream_list application_info
        stream_info).2._output_contexts, e.1 = toInt32 c.1) ∧
    ((TranscodeStream.Constructor env stream_list application_info stream_info).2._encoders ≠ [] →
      (TranscodeStream.Constructor env stream_list application_info stream_info).2._max_queue_size
        = (if (TranscodeStream.Constructor env stream_list application_info
              stream_info).2._encoders.length > 0x0F then 0xFF
           else (TranscodeStream.Constructor env stream_list application_info
              stream_info).2._encoders.length * 256)) := by
  have hd0 : (TranscodeStream.ConstructorDecoders env application_info stream_info)._encoders
      = [] := by
    unfold TranscodeStream.ConstructorDecoders
    rw [PrepareDecoders_encoders]
    rfl
  generalize h : TranscodeStream.Constructor env stream_list application_info stream_info = r
  unfold TranscodeStream.Constructor at h
  simp only at h
  split_ifs at h with hd he1 hth ht ht2
  · subst h
    simp only [hd0]
    exact ⟨by simp [OvMap.keys], by intro e he; simp at he, fun h => absurd rfl h⟩
  all_goals
    subst h
    generalize hg : TranscodeStream.GenerateStreamTracks env
        ((TranscodeStream.ConstructorDecoders env application_info
          stream_info).GenerateProfileTracks application_info.encodes).2.1
        stream_info.name application_info.streams
        (StreamListTouch stream_list application_info.id,
          ((TranscodeStream.ConstructorDecoders env application_info
            stream_info).GenerateProfileTracks application_info.encodes).1,
          ((TranscodeStream.ConstructorDecoders env application_info
            stream_info).GenerateProfileTracks application_info.encodes).2.2) = st at *
    have he : st.2.1._encoders = [] := by
      rw [← hg, GenerateStreamTracks_encoders]
      unfold TranscodeStream.GenerateProfileTracks
      rw [GenerateProfileTracks_encoders]
      exact hd0
    have hs := CopyTracks_sorted env
      ({ st.2.1 with
        _output_contexts := TranscodeStream.DeleteUnused
          (TranscodeStream.UnusedTracks st.2.1._stream_tracks st.2.1._output_contexts st.2.2)
          st.2.1._output_contexts } : TranscodeStream)._stream_info_input.tracks
      { st.2.1 with
        _output_contexts := TranscodeStream.DeleteUnused
          (TranscodeStream.UnusedTracks st.2.1._stream_tracks st.2.1._output_contexts st.2.2)
          st.2.1._output_contexts }
      (by simp [he, OvMap.keys])
    have hnd := hs.imp (fun hab => ne_of_lt hab)
    have hk := CopyTracks_encoders_keys env
      ({ st.2.1 with
        _output_contexts := TranscodeStream.DeleteUnused
          (TranscodeStream.UnusedTracks st.2.1._stream_tracks st.2.1._output_contexts st.2.2)
          st.2.1._output_contexts } : TranscodeStream)._stream_info_input.tracks
      { st.2.1 with
        _output_contexts := TranscodeStream.DeleteUnused
          (TranscodeStream.UnusedTracks st.2.1._stream_tracks st.2.1._output_contexts st.2.2)
          st.2.1._output_contexts }
    obtain ⟨c1, _⟩ := CopyTracks_fields env
      ({ st.2.1 with
        _output_contexts := TranscodeStream.DeleteUnused
          (TranscodeStream.UnusedTracks st.2.1._stream_tracks st.2.1._output_contexts st.2.2)
          st.2.1._output_contexts } : TranscodeStream)._stream_info_input.tracks
      { st.2.1 with
        _output_contexts := TranscodeStream.DeleteUnused
          (TranscodeStream.UnusedTracks st.2.1._stream_tracks st.2.1._output_contexts st.2.2)
          st.2.1._output_contexts }
    have hk2 : ∀ e ∈ (TranscodeStream.CopyTracks env
        ({ st.2.1 with
          _output_contexts := TranscodeStream.DeleteUnused
            (TranscodeStream.UnusedTracks st.2.1._stream_tracks st.2.1._output_contexts st.2.2)
            st.2.1._output_contexts } : TranscodeStream)._stream_info_input.tracks
        { st.2.1 with
          _output_contexts := TranscodeStream.DeleteUnused
            (TranscodeStream.UnusedTracks st.2.1._stream_tracks st.2.1._output_contexts st.2.2)
            st.2.1._output_contexts })._encoders,
        ∃ c ∈ (TranscodeStream.CopyTracks env
          ({ st.2.1 with
            _output_contexts := TranscodeStream.DeleteUnused
              (TranscodeStream.UnusedTracks st.2.1._stream_tracks st.2.1._output_contexts st.2.2)
              st.2.1._output_contexts } : TranscodeStream)._stream_info_input.tracks
          { st.2.1 with
            _output_contexts := TranscodeStream.DeleteUnused
              (TranscodeStream.UnusedTracks st.2.1._stream_tracks st.2.1._output_contexts st.2.2)
              st.2.1._output_contexts })._output_contexts, e.1 = toInt32 c.1 := by
      intro e hem
      rcases hk e hem with h | h
      · simp only [he] at h
        simp at h
      · rw [c1]
        exact h
    refine ⟨hnd, hk2, fun hne => ?_⟩
    first
      | exact absurd (List.isEmpty_iff.mp he1) hne
      | (simp only [if_pos ht]; done)
      | simp only [if_neg ht]
      | (simp only [if_pos ht2]; done)
      | simp only [if_neg ht2]

/-- The keys of the encoders the constructor builds are output track ids: they lie in
`[0x60, 0x80)` and so are values of `TrackId`. -/
theorem Constructor_encoders_track_ids (env : Env) (stream_list : StreamList)
    (application_info : Application) (stream_info : StreamInfo) :
    ∀ e ∈ (TranscodeStream.Constructor env stream_list application_info stream_info).2._encoders,
      0x60 ≤ e.1 ∧ e.1 < 0x80 ∧ IsTrackId e.1 := by
  intro e he
  obtain ⟨_, hk, _⟩ := Constructor_encoders env stream_list application_info stream_info
  obtain ⟨c, hc, hec⟩ := hk e he
  have hr := Constructor_output_contexts_kinds env stream_list application_info stream_info c hc
  have hlt : c.1 < 0x80 ∧ 0x60 ≤ c.1 := by
    rcases hr with ⟨_, h1, h2⟩ | ⟨_, h1, h2⟩
    · omega
    · omega
  rw [hec, toInt32_small c.1 hlt.1]
  unfold IsTrackId
  omega

/-- C11 fails on the code: when the constructor has built `n >= 1` encoders (`n` distinct
keys of `_encoders`), it sets `_max_queue_size` to `0xFF` if `n > 15` and to `n * 256`
otherwise, which is the claimed `min(255, n * 256)` only if `n > 15`. -/
theorem Constructor_max_queue_size (env : Env) (stream_list : StreamList)
    (application_info : Application) (stream_info : StreamInfo)
    (hn : (TranscodeStream.Constructor env stream_list application_info
      stream_info).2._encoders ≠ []) :
    (OvMap.keys
      (TranscodeStream.Constructor env stream_list application_info stream_info).2._encoders).Nodup ∧
    (TranscodeStream.Constructor env stream_list application_info stream_info).2._max_queue_size
      = (if (TranscodeStream.Constructor env stream_list application_info
            stream_info).2._encoders.length > 0x0F then 0xFF
         else (TranscodeStream.Constructor env stream_list application_info
            stream_info).2._encoders.length * 256) ∧
    ((TranscodeStream.Constructor env stream_list application_info stream_info).2._max_queue_size
        = min 255 ((TranscodeStream.Constructor env stream_list application_info
            stream_info).2._encoders.length * 256) ↔
      (TranscodeStream.Constructor env stream_list application_info
        stream_info).2._encoders.length > 0x0F) := by
  obtain ⟨h1, _, h3⟩ := Constructor_encoders env stream_list application_info stream_info
  have h4 := h3 hn
  refine ⟨h1, h4, ?_⟩
  have hpos : 0 < (TranscodeStream.Constructor env stream_list application_info
      stream_info).2._encoders.length := List.length_pos.mpr hn
  rw [h4]
  split_ifs with h
  · simp only [h, iff_true]
    omega
  · simp only [h, iff_false]
    omega

/-- The statement of `Constructor_max_queue_size` on the sample configuration: the
constructor builds two encoders and sets `_max_queue_size` to 512, which is not
`min(255, 2 * 256) = 255`. -/
theorem Constructor_max_queue_size_witness :
    (TranscodeStream.Constructor Sample.env [] Sample.app Sample.cam).2._encoders ≠ [] ∧
    (TranscodeStream.Constructor Sample.env [] Sample.app Sample.cam).2._encoders.length = 2 ∧
    (TranscodeStream.Constructor Sample.env [] Sample.app Sample.cam).2._max_queue_size = 512 ∧
    min 255 ((TranscodeStream.Constructor Sample.env [] Sample.app
      Sample.cam).2._encoders.length * 256) = 255 ∧
    (TranscodeStream.Constructor Sample.env [] Sample.app Sample.cam).2._max_queue_size
      = (if (TranscodeStream.Constructor Sample.env [] Sample.app
            Sample.cam).2._encoders.length > 0x0F then 0xFF
         else (TranscodeStream.Constructor Sample.env [] Sample.app
            Sample.cam).2._encoders.length * 256) :=
  ⟨by decide, by decide, by decide, by decide,
    (Constructor_max_queue_size Sample.env [] Sample.app Sample.cam (by decide)).2.1⟩

/-! ## The producers and the queue limit -/

theorem limit_of_unchanged {α : Type} (q : MediaQueue α) (limit : Nat) :
    if q.size > limit then q.items = q.items else q.size ≤ limit + 1 := by
  split_ifs with h
  · rfl
  · omega

theorem DecodeLoop_limit (track_id : Int) (outputs : List (TranscodeResult × MediaFrame)) :
    ∀ (n : Nat) (s : TranscodeStream) (log : List DecodeEvent),
      (TranscodeStream.DecodeLoop track_id outputs n s log).2.1._max_queue_size
        = s._max_queue_size ∧
      (if s._queue_decoded.size > s._max_queue_size then
        (TranscodeStream.DecodeLoop track_id outputs n s log).2.1._queue_decoded.items
          = s._queue_decoded.items
      else
        (TranscodeStream.DecodeLoop track_id outputs n s log).2.1._queue_decoded.size
          ≤ s._max_queue_size + 1) := by
  induction outputs with
  | nil =>
    intro n s log
    exact ⟨rfl, limit_of_unchanged _ _⟩
  | cons o rest ih =>
    intro n s log
    obtain ⟨result, frame⟩ := o
    have hq := ChangeOutputFormat_queue s (frame.SetTrackId track_id)
    have key : ∀ s1 : TranscodeStream, s1._queue_decoded = s._queue_decoded →
        s1._max_queue_size = s._max_queue_size →
        ∀ (f : MediaFrame) (log1 : List DecodeEvent),
        ¬ (s._queue_decoded.size > s._max_queue_size) →
        (TranscodeStream.DecodeLoop track_id rest (n + 1)
          (s1.CountDecodedFrame.PushDecoded f) log1).2.1._max_queue_size = s._max_queue_size ∧
        (TranscodeStream.DecodeLoop track_id rest (n + 1)
          (s1.CountDecodedFrame.PushDecoded f) log1).2.1._queue_decoded.size
            ≤ s._max_queue_size + 1 := by
      intro s1 e1 e2 f log1 hle
      obtain ⟨a, b⟩ := ih (n + 1) (s1.CountDecodedFrame.PushDecoded f) log1
      have hm : (s1.CountDecodedFrame.PushDecoded f)._max_queue_size = s._max_queue_size := e2
      have hs : (s1.CountDecodedFrame.PushDecoded f)._queue_decoded.size
          = s._queue_decoded.size + 1 := by
        simp [TranscodeStream.PushDecoded, TranscodeStream.CountDecodedFrame, MediaQueue.push,
          MediaQueue.size, e1]
      refine ⟨a.trans hm, ?_⟩
      rw [hm] at b
      split_ifs at b with c
      · have : (TranscodeStream.DecodeLoop track_id rest (n + 1)
            (s1.CountDecodedFrame.PushDecoded f) log1).2.1._queue_decoded.size
            = (s1.CountDecodedFrame.PushDecoded f)._queue_decoded.size := by
          simp only [MediaQueue.size, b]
        omega
      · exact b
    cases result with
    | DataReady =>
      rw [DecodeLoop_DataReady]
      by_cases h : s._queue_decoded.size > s._max_queue_size
      · simp only [if_pos h]
        exact ⟨rfl, rfl⟩
      · simp only [if_neg h]
        exact key s rfl rfl _ _ h
    | FormatChanged =>
      rw [DecodeLoop_FormatChanged]
      by_cases h : s._queue_decoded.size > s._max_queue_size
      · simp only [if_pos h]
        refine ⟨hq.2, ?_⟩
        simp [TranscodeStream.CountDecodedFrame, hq.1]
      · simp only [if_neg h]
        exact key _ hq.1 hq.2 _ _ h
    | NoData =>
      exact ⟨rfl, limit_of_unchanged _ _⟩
    | Error =>
      exact ⟨rfl, limit_of_unchanged _ _⟩
    | EndOfStream =>
      exact ⟨rfl, limit_of_unchanged _ _⟩

theorem FilterLoop_limit (track_id : Int) (outputs : List (TranscodeResult × MediaFrame)) :
    ∀ s : TranscodeStream,
      (TranscodeStream.FilterLoop track_id outputs s).2._max_queue_size = s._max_queue_size ∧
      (if s._queue_filterd.size > s._max_queue_size then
        (TranscodeStream.FilterLoop track_id outputs s).2._queue_filterd.items
          = s._queue_filterd.items
      else
        (TranscodeStream.FilterLoop track_id outputs s).2._queue_filterd.size
          ≤ s._max_queue_size + 1) := by
  induction outputs with
  | nil =>
    intro s
    exact ⟨rfl, limit_of_unchanged _ _⟩
  | cons o rest ih =>
    intro s
    obtain ⟨result, frame⟩ := o
    cases result with
    | DataReady =>
      simp only [TranscodeStream.FilterLoop]
      by_cases h : s._queue_filterd.size > s._max_queue_size
      · simp only [if_pos h]
        exact ⟨rfl, rfl⟩
      · simp only [if_neg h]
        obtain ⟨a, b⟩ := ih (s.PushFiltered (frame.SetTrackId track_id))
        have hm : (s.PushFiltered (frame.SetTrackId track_id))._max_queue_size
            = s._max_queue_size := rfl
        have hs : (s.PushFiltered (frame.SetTrackId track_id))._queue_filterd.size
            = s._queue_filterd.size + 1 := by
          simp [TranscodeStream.PushFiltered, MediaQueue.push, MediaQueue.size]
        refine ⟨a.trans hm, ?_⟩
        rw [hm] at b
        split_ifs at b with c
        · have : (TranscodeStream.FilterLoop track_id rest
              (s.PushFiltered (frame.SetTrackId track_id))).2._queue_filterd.size
              = (s.PushFiltered (frame.SetTrackId track_id))._queue_filterd.size := by
            simp only [MediaQueue.size, b]
          omega
        · exact b
    | NoData =>
      exact ⟨rfl, limit_of_unchanged _ _⟩
    | FormatChanged =>
      exact ⟨rfl, limit_of_unchanged _ _⟩
    | Error =>
      exact ⟨rfl, limit_of_unchanged _ _⟩
    | EndOfStream =>
      exact ⟨rfl, limit_of_unchanged _ _⟩

theorem LeadingFrames_zero (carries : TranscodeResult → Bool)
    (outputs : List (TranscodeResult × MediaFrame)) : LeadingFrames carries 0 outputs = [] := by
  cases outputs <;> rfl

theorem LeadingFrames_not (carries : TranscodeResult → Bool) (room : Nat)
    (result : TranscodeResult) (frame : MediaFrame)
    (outputs : List (TranscodeResult × MediaFrame)) (h : carries result = false) :
    LeadingFrames carries room ((result, frame) :: outputs) = [] := by
  cases room with
  | zero => rfl
  | succ k => simp [LeadingFrames, h]

theorem LeadingFrames_length (carries : TranscodeResult → Bool)
    (outputs : List (TranscodeResult × MediaFrame)) :
    ∀ room : Nat, (LeadingFrames carries room outputs).length ≤ room := by
  induction outputs with
  | nil => intro room; cases room <;> simp [LeadingFrames]
  | cons o rest ih =>
    intro room
    obtain ⟨result, frame⟩ := o
    cases room with
    | zero => simp [LeadingFrames]
    | succ k =>
      simp only [LeadingFrames]
      split_ifs
      · simp only [List.length_cons]
        exact Nat.succ_le_succ (ih k)
      · simp

theorem DecodeLoop_queue (track_id : Int) (outputs : List (TranscodeResult × MediaFrame)) :
    ∀ (n : Nat) (s : TranscodeStream) (log : List DecodeEvent),
      (TranscodeStream.DecodeLoop track_id outputs n s log).2.1._queue_decoded.items
        = s._queue_decoded.items ++
          (LeadingFrames TranscodeResult.DecodeCarriesFrame
            (s._max_queue_size + 1 - s._queue_decoded.size) outputs).map
            (fun f => f.SetTrackId track_id) := by
  induction outputs with
  | nil =>
    intro n s log
    cases hr : s._max_queue_size + 1 - s._queue_decoded.size <;>
      simp [TranscodeStream.DecodeLoop, LeadingFrames]
  | cons o rest ih =>
    intro n s log
    obtain ⟨result, frame⟩ := o
    have hq := ChangeOutputFormat_queue s (frame.SetTrackId track_id)
    have key : ∀ s1 : TranscodeStream, s1._queue_decoded = s._queue_decoded →
        s1._max_queue_size = s._max_queue_size →
        ∀ (log1 : List DecodeEvent) (result1 : TranscodeResult),
        TranscodeResult.DecodeCarriesFrame result1 = true →
        ¬ (s._queue_decoded.size > s._max_queue_size) →
        (TranscodeStream.DecodeLoop track_id rest (n + 1)
          (s1.CountDecodedFrame.PushDecoded (frame.SetTrackId track_id))
          log1).2.1._queue_decoded.items
          = s._queue_decoded.items ++
            (LeadingFrames TranscodeResult.DecodeCarriesFrame
              (s._max_queue_size + 1 - s._queue_decoded.size) ((result1, frame) :: rest)).map
              (fun f => f.SetTrackId track_id) := by
      intro s1 e1 e2 log1 result1 hc hle
      rw [ih (n + 1) (s1.CountDecodedFrame.PushDecoded (frame.SetTrackId track_id)) log1]
      have hm : (s1.CountDecodedFrame.PushDecoded (frame.SetTrackId track_id))._max_queue_size
          = s._max_queue_size := e2
      have hi : (s1.CountDecodedFrame.PushDecoded (frame.SetTrackId track_id))._queue_decoded.items
          = s._queue_decoded.items ++ [frame.SetTrackId track_id] := by
        simp [TranscodeStream.PushDecoded, TranscodeStream.CountDecodedFrame, MediaQueue.push, e1]
      have hs : (s1.CountDecodedFrame.PushDecoded (frame.SetTrackId track_id))._queue_decoded.size
          = s._queue_decoded.size + 1 := by
        simp [MediaQueue.size, hi]
      obtain ⟨k, hk⟩ : ∃ k, s._max_queue_size + 1 - s._queue_decoded.size = k + 1 :=
        ⟨s._max_queue_size - s._queue_decoded.size, by omega⟩
      have hk2 : s._max_queue_size + 1 - (s._queue_decoded.size + 1) = k := by omega
      rw [hm, hi, hs, hk, hk2]
      simp [LeadingFrames, hc]
    have stop : s._queue_decoded.size > s._max_queue_size →
        ∀ outputs1 : List (TranscodeResult × MediaFrame),
          (LeadingFrames TranscodeResult.DecodeCarriesFrame
            (s._max_queue_size + 1 - s._queue_decoded.size) outputs1) = [] := by
      intro h outputs1
      have h0 : s._max_queue_size + 1 - s._queue_decoded.size = 0 := by omega
      rw [h0]
      exact LeadingFrames_zero _ _
    cases result with
    | DataReady =>
      rw [DecodeLoop_DataReady]
      by_cases h : s._queue_decoded.size > s._max_queue_size
      · simp only [if_pos h, stop h]
        simp [TranscodeStream.CountDecodedFrame]
      · simp only [if_neg h]
        exact key s rfl rfl _ _ rfl h
    | FormatChanged =>
      rw [DecodeLoop_FormatChanged]
      by_cases h : s._queue_decoded.size > s._max_queue_size
      · simp only [if_pos h, stop h]
        simp [TranscodeStream.CountDecodedFrame, hq.1]
      · simp only [if_neg h]
        exact key _ hq.1 hq.2 _ _ rfl h
    | NoData =>
      rw [LeadingFrames_not _ _ _ _ _ rfl]
      simp [TranscodeStream.DecodeLoop]
    | Error =>
      rw [LeadingFrames_not _ _ _ _ _ rfl]
      simp [TranscodeStream.DecodeLoop]
    | EndOfStream =>
      rw [LeadingFrames_not _ _ _ _ _ rfl]
      simp [TranscodeStream.DecodeLoop]

theorem FilterLoop_queue (track_id : Int) (outputs : List (TranscodeResult × MediaFrame)) :
    ∀ s : TranscodeStream,
      (TranscodeStream.FilterLoop track_id outputs s).2._queue_filterd.items
        = s._queue_filterd.items ++
          (LeadingFrames TranscodeResult.FilterCarriesFrame
            (s._max_queue_size + 1 - s._queue_filterd.size) outputs).map
            (fun f => f.SetTrackId track_id) := by
  induction outputs with
  | nil =>
    intro s
    cases hr : s._max_queue_size + 1 - s._queue_filterd.size <;>
      simp [TranscodeStream.FilterLoop, LeadingFrames]
  | cons o rest ih =>
    intro s
    obtain ⟨result, frame⟩ := o
    cases result with
    | DataReady =>
      simp only [TranscodeStream.FilterLoop]
      by_cases h : s._queue_filterd.size > s._max_queue_size
      · have h0 : s._max_queue_size + 1 - s._queue_filterd.size = 0 := by omega
        simp only [if_pos h, h0, LeadingFrames_zero]
        simp [TranscodeStream.CountQueueFull]
      · simp only [if_neg h]
        rw [ih (s.PushFiltered (frame.SetTrackId track_id))]
        have hm : (s.PushFiltered (frame.SetTrackId track_id))._max_queue_size
            = s._max_queue_size := rfl
        have hi : (s.PushFiltered (frame.SetTrackId track_id))._queue_filterd.items
            = s._queue_filterd.items ++ [frame.SetTrackId track_id] := by
          simp [TranscodeStream.PushFiltered, MediaQueue.push]
        have hs : (s.PushFiltered (frame.SetTrackId track_id))._queue_filterd.size
            = s._queue_filterd.size + 1 := by
          simp [MediaQueue.size, hi]
        obtain ⟨k, hk⟩ : ∃ k, s._max_queue_size + 1 - s._queue_filterd.size = k + 1 :=
          ⟨s._max_queue_size - s._queue_filterd.size, by omega⟩
        have hk2 : s._max_queue_size + 1 - (s._queue_filterd.size + 1) = k := by omega
        rw [hm, hi, hs, hk, hk2]
        simp [LeadingFrames, TranscodeResult.FilterCarriesFrame]
    | NoData =>
      rw [LeadingFrames_not _ _ _ _ _ rfl]
      simp [TranscodeStream.FilterLoop]
    | FormatChanged =>
      rw [LeadingFrames_not _ _ _ _ _ rfl]
      simp [TranscodeStream.FilterLoop]
    | Error =>
      rw [LeadingFrames_not _ _ _ _ _ rfl]
      simp [TranscodeStream.FilterLoop]
    | EndOfStream =>
      rw [LeadingFrames_not _ _ _ _ _ rfl]
      simp [TranscodeStream.FilterLoop]

/-- C14, as amended: the three producers test `size() > _max_queue_size`. `Push` returns
false and leaves the input queue as it is when the engine has no encoder or the depth
is above `_max_queue_size`, and appends the packet and returns true otherwise, the depth
`_max_queue_size` included. `DecodePacket`, for a track with a decoder, appends to the
decoded-frame queue the frames of the leading `DataReady` and `FormatChanged` results of
the decoder, stamped with the track id, one for each unit of `_max_queue_size + 1` minus
the depth: none above the limit, at least the first one at the limit. `FilterFrame`, for a
track with a filter, does the same with the leading `DataReady` results of the filter
and the filtered-frame queue. Without a decoder or a filter nothing is appended. So no
producer changes a queue whose depth is above `_max_queue_size`, each still enqueues at a
depth equal to `_max_queue_size`, and a depth of at most `_max_queue_size` grows to at
most `_max_queue_size + 1`. None of them changes `_max_queue_size`. -/
theorem producers_drop_above_limit (s : TranscodeStream) (packet : Option MediaPacket)
    (track_id : Int) (coded : MediaPacket) (decoded : List (TranscodeResult × MediaFrame))
    (output_track_id : Int) (frame : MediaFrame)
    (filtered : List (TranscodeResult × MediaFrame)) :
    ((s.Push packet).2._max_queue_size = s._max_queue_size ∧
      (s.Push packet).1 = decide (s._encoders ≠ [] ∧ s._queue.size ≤ s._max_queue_size) ∧
      (s.Push packet).2._queue.items =
        (if s._encoders ≠ [] ∧ s._queue.size ≤ s._max_queue_size then s._queue.items ++ [packet]
         else s._queue.items)) ∧
    ((s.DecodePacket track_id coded decoded).2.1._max_queue_size = s._max_queue_size ∧
      (s.DecodePacket track_id coded decoded).2.1._queue_decoded.items =
        (if (OvMap.find s._decoders track_id).isSome then
          s._queue_decoded.items ++
            (LeadingFrames TranscodeResult.DecodeCarriesFrame
              (s._max_queue_size + 1 - s._queue_decoded.size) decoded).map
              (fun f => f.SetTrackId track_id)
         else s._queue_decoded.items) ∧
      (if s._queue_decoded.size > s._max_queue_size then
        (s.DecodePacket track_id coded decoded).2.1._queue_decoded.items
          = s._queue_decoded.items
      else
        (s.DecodePacket track_id coded decoded).2.1._queue_decoded.size
          ≤ s._max_queue_size + 1)) ∧
    ((s.FilterFrame output_track_id frame filtered).2._max_queue_size = s._max_queue_size ∧
      (s.FilterFrame output_track_id frame filtered).2._queue_filterd.items =
        (if (OvMap.find s._filters output_track_id).isSome then
          s._queue_filterd.items ++
            (LeadingFrames TranscodeResult.FilterCarriesFrame
              (s._max_queue_size + 1 - s._queue_filterd.size) filtered).map
              (fun f => f.SetTrackId output_track_id)
         else s._queue_filterd.items) ∧
      (if s._queue_filterd.size > s._max_queue_size then
        (s.FilterFrame output_track_id frame filtered).2._queue_filterd.items
          = s._queue_filterd.items
      else
        (s.FilterFrame output_track_id frame filtered).2._queue_filterd.size
          ≤ s._max_queue_size + 1)) := by
  refine ⟨?_, ?_, ?_⟩
  · unfold TranscodeStream.Push
    by_cases h1 : s._encoders = []
    · simp [h1]
    · have h2 : s._encoders.isEmpty = false := by
        cases hs : s._encoders with
        | nil => exact absurd hs h1
        | cons a l => rfl
      by_cases h3 : s._queue.size > s._max_queue_size
      · have h4 : ¬ (s._queue.size ≤ s._max_queue_size) := by omega
        simp [h1, h2, h3, h4]
      · have h4 : s._queue.size ≤ s._max_queue_size := by omega
        simp [h1, h2, h3, h4, MediaQueue.push]
  · unfold TranscodeStream.DecodePacket
    cases hf : OvMap.find s._decoders track_id with
    | none =>
      exact ⟨rfl, rfl, limit_of_unchanged _ _⟩
    | some ctx =>
      simp only [Option.isSome_some, if_true]
      exact ⟨(DecodeLoop_limit track_id decoded 0 s []).1, DecodeLoop_queue track_id decoded 0 s [],
        (DecodeLoop_limit track_id decoded 0 s []).2⟩
  · unfold TranscodeStream.FilterFrame
    cases hf : OvMap.find s._filters output_track_id with
    | none =>
      exact ⟨rfl, rfl, limit_of_unchanged _ _⟩
    | some flt =>
      simp only [Option.isSome_some, if_true]
      exact ⟨(FilterLoop_limit output_track_id filtered s).1,
        FilterLoop_queue output_track_id filtered s,
        (FilterLoop_limit output_track_id filtered s).2⟩

set_option maxRecDepth 20000 in
/-- C14 fails at a depth equal to the limit: with `_max_queue_size = 256` and 256
entries in each queue, `Push`, `DecodePacket` and `FilterFrame` all enqueue, and each
queue then holds 257 entries. -/
theorem producers_enqueue_at_limit :
    Sample.atLimit._max_queue_size = 256 ∧
    Sample.atLimit._queue.size = 256 ∧
    Sample.atLimit._queue_decoded.size = 256 ∧
    Sample.atLimit._queue_filterd.size = 256 ∧
    (Sample.atLimit.Push (some Sample.packet)).1 = true ∧
    (Sample.atLimit.Push (some Sample.packet)).2._queue.size = 257 ∧
    (Sample.atLimit.DecodePacket 0 Sample.packet
      [(TranscodeResult.DataReady, Sample.frame)]).2.1._queue_decoded.size = 257 ∧
    (Sample.atLimit.FilterFrame 0x60 Sample.frame
      [(TranscodeResult.DataReady, Sample.frame)]).2._queue_filterd.size = 257 := by
  decide


/-! ## DoFilters -/

theorem DoFiltersLoop_calls (value : MediaType → Int)
    (answers : Int → MediaFrame → List (TranscodeResult × MediaFrame)) (frame : MediaFrame)
    (track_id : Int) (contexts : List (Nat × TranscodeContext)) :
    ∀ (s : TranscodeStream) (calls : List (Nat × MediaFrame)),
      (TranscodeStream.DoFiltersLoop value answers frame track_id contexts s calls).2
        = calls ++ (contexts.filter
            (fun iter => decide (track_id = value iter.2.media_type))).map
              (fun iter => (iter.1, frame)) := by
  induction contexts with
  | nil => intro s calls; simp [TranscodeStream.DoFiltersLoop]
  | cons hd tl ih =>
    intro s calls
    obtain ⟨key, ctx⟩ := hd
    simp only [TranscodeStream.DoFiltersLoop, MediaFrame.CloneFrame]
    by_cases h : track_id = value ctx.media_type
    · rw [if_neg (not_not.mpr h), ih, List.filter_cons_of_pos (by simpa using h)]
      simp
    · rw [if_pos h, ih, List.filter_cons_of_neg (by simpa using h)]

/-- What `DoFilters` does: `FilterFrame` is called, with a clone of the frame, for the
output track ids whose context has a media type of the `int32_t` value of the track
id of the frame, in the order of `_output_contexts`. -/
theorem DoFilters_calls (value : MediaType → Int)
    (answers : Int → MediaFrame → List (TranscodeResult × MediaFrame)) (s : TranscodeStream)
    (frame : MediaFrame) :
    (s.DoFilters value answers frame).2
      = (s._output_contexts.filter
          (fun iter => decide (frame.track_id = value iter.2.media_type))).map
            (fun iter => (iter.1, frame)) := by
  unfold TranscodeStream.DoFilters
  rw [DoFiltersLoop_calls]
  simp

/-- C13 fails on the code: the input has two video tracks, of ids 5 and 6, and the
engine has the video output track `0x60`. Whatever the values of the enumerators of
`common::MediaType`, `DoFilters` does not call `FilterFrame` for `0x60` with the frame
of track 5 or does not call it with the frame of track 6, although both are video
frames: it compares the track id of the frame with the media type of the context. -/
theorem DoFilters_compares_track_id_with_media_type :
    OvMap.keys
      (TranscodeStream.Constructor Sample.env [] Sample.app Sample.camTwoVideo).2._decoders
      = [5, 6] ∧
    (TranscodeStream.Constructor Sample.env [] Sample.app Sample.camTwoVideo).2._output_contexts
      = [(0x60, Sample.videoContext), (0x70, Sample.audioContext)] ∧
    ∀ (value : MediaType → Int)
      (answers : Int → MediaFrame → List (TranscodeResult × MediaFrame)),
      ((TranscodeStream.Constructor Sample.env [] Sample.app Sample.camTwoVideo).2.DoFilters
          value answers (Sample.frame.SetTrackId 5)).2
          = (if value MediaType.Video = 5 then [(0x60, Sample.frame.SetTrackId 5)] else []) ++
            (if value MediaType.Audio = 5 then [(0x70, Sample.frame.SetTrackId 5)] else []) ∧
      ((TranscodeStream.Constructor Sample.env [] Sample.app Sample.camTwoVideo).2.DoFilters
          value answers (Sample.frame.SetTrackId 6)).2
          = (if value MediaType.Video = 6 then [(0x60, Sample.frame.SetTrackId 6)] else []) ++
            (if value MediaType.Audio = 6 then [(0x70, Sample.frame.SetTrackId 6)] else []) ∧
      ((0x60, Sample.frame.SetTrackId 5) ∉
          ((TranscodeStream.Constructor Sample.env [] Sample.app Sample.camTwoVideo).2.DoFilters
            value answers (Sample.frame.SetTrackId 5)).2 ∨
        (0x60, Sample.frame.SetTrackId 6) ∉
          ((TranscodeStream.Constructor Sample.env [] Sample.app Sample.camTwoVideo).2.DoFilters
            value answers (Sample.frame.SetTrackId 6)).2) := by
  have hk : OvMap.keys
      (TranscodeStream.Constructor Sample.env [] Sample.app Sample.camTwoVideo).2._decoders
      = [5, 6] := by decide
  have hc : (TranscodeStream.Constructor Sample.env [] Sample.app
      Sample.camTwoVideo).2._output_contexts
      = [(0x60, Sample.videoContext), (0x70, Sample.audioContext)] := by decide
  refine ⟨hk, hc, ?_⟩
  generalize (TranscodeStream.Constructor Sample.env [] Sample.app Sample.camTwoVideo).2 = r
    at hc ⊢
  intro value answers
  have h5 : (r.DoFilters value answers (Sample.frame.SetTrackId 5)).2
      = (if value MediaType.Video = 5 then [(0x60, Sample.frame.SetTrackId 5)] else []) ++
        (if value MediaType.Audio = 5 then [(0x70, Sample.frame.SetTrackId 5)] else []) := by
    rw [DoFilters_calls, hc]
    have e : (Sample.frame.SetTrackId 5).track_id = 5 := rfl
    have ev : Sample.videoContext.media_type = MediaType.Video := rfl
    have ea : Sample.audioContext.media_type = MediaType.Audio := rfl
    simp only [List.filter_cons, List.filter_nil, e, ev, ea]
    by_cases c1 : value MediaType.Video = 5 <;> by_cases c2 : value MediaType.Audio = 5 <;>
      simp [c1, c2, eq_comm]
  have h6 : (r.DoFilters value answers (Sample.frame.SetTrackId 6)).2
      = (if value MediaType.Video = 6 then [(0x60, Sample.frame.SetTrackId 6)] else []) ++
        (if value MediaType.Audio = 6 then [(0x70, Sample.frame.SetTrackId 6)] else []) := by
    rw [DoFilters_calls, hc]
    have e : (Sample.frame.SetTrackId 6).track_id = 6 := rfl
    have ev : Sample.videoContext.media_type = MediaType.Video := rfl
    have ea : Sample.audioContext.media_type = MediaType.Audio := rfl
    simp only [List.filter_cons, List.filter_nil, e, ev, ea]
    by_cases c1 : value MediaType.Video = 6 <;> by_cases c2 : value MediaType.Audio = 6 <;>
      simp [c1, c2, eq_comm]
  refine ⟨h5, h6, ?_⟩
  rw [h5, h6]
  by_cases c1 : value MediaType.Video = 5
  · right
    have c2 : ¬ value MediaType.Video = 6 := by omega
    simp [c2]
  · left
    simp [c1]

/-! ## The track list of a stream -/

theorem StreamProfilesLoop_eq (env : Env) (profile_tracks : List (OvString × List Nat))
    (hlen : ∀ e ∈ profile_tracks, e.2.length = 2) (profiles : List OvString) :
    ∀ tracks : List Nat,
      TranscodeStream.StreamProfilesLoop env profile_tracks profiles tracks
        = tracks ++ RoutingList profile_tracks profiles := by
  induction profiles with
  | nil => intro tracks; simp [TranscodeStream.StreamProfilesLoop, RoutingList]
  | cons p rest ih =>
    intro tracks
    simp only [TranscodeStream.StreamProfilesLoop, RoutingList, ProfilePair]
    cases hf : OvMap.find profile_tracks p with
    | none => simp [ih]
    | some item =>
      have h2 := hlen (p, item) (OvMap.mem_of_find _ _ _ hf)
      simp only at h2
      match item, h2 with
      | [a, b], _ => simp [ih, VectorAt]

theorem GenerateStreamTracks_append (env : Env) (profile_tracks : List (OvString × List Nat))
    (origin : OvString) (pre : List StreamConfig) (rest : List StreamConfig) :
    ∀ st : StreamList × TranscodeStream × List Nat,
      TranscodeStream.GenerateStreamTracks env profile_tracks origin (pre ++ rest) st
        = TranscodeStream.GenerateStreamTracks env profile_tracks origin rest
            (TranscodeStream.GenerateStreamTracks env profile_tracks origin pre st) := by
  induction pre with
  | nil => intro st; rfl
  | cons stream tl ih =>
    intro st
    simp only [TranscodeStream.GenerateStreamTracks, List.cons_append]
    exact ih _

theorem AddStreamInfoOutput_registry (s : TranscodeStream) (stream_list : StreamList)
    (stream_name name : OvString) (names : List OvString)
    (hf : OvMap.find stream_list s._application_info.id = some names) :
    (s.AddStreamInfoOutput stream_list stream_name).2.2._application_info = s._application_info ∧
    (s.AddStreamInfoOutput stream_list stream_name).2.2._stream_tracks = s._stream_tracks ∧
    ((s.AddStreamInfoOutput stream_list stream_name).1 = true → stream_name ∉ names) ∧
    ∃ names1, OvMap.find (s.AddStreamInfoOutput stream_list stream_name).2.1
        s._application_info.id = some names1 ∧
      (name ∈ names → name ∈ names1) ∧
      ((s.AddStreamInfoOutput stream_list stream_name).1 = true → stream_name ∈ names1) := by
  unfold TranscodeStream.AddStreamInfoOutput
  split
  · rename_i heq
    rw [hf] at heq
    cases heq
  · rename_i names2 heq
    rw [hf] at heq
    simp only [Option.some.injEq] at heq
    subst heq
    split_ifs with hm
    · exact ⟨rfl, rfl, fun h => h.elim, names, hf, fun h => h,
        fun h => h.elim⟩
    · exact ⟨rfl, rfl, fun _ => hm, OvSet.insert stream_name names,
        OvMap.find_assign_self _ _ _, fun h => (OvSet.mem_insert _ _ _).mpr (Or.inr h),
        fun _ => (OvSet.mem_insert _ _ _).mpr (Or.inl rfl)⟩

theorem StreamStep_persist (env : Env) (profile_tracks : List (OvString × List Nat))
    (origin : OvString) (st : StreamList × TranscodeStream × List Nat) (stream : StreamConfig)
    (name : OvString) (names : List OvString) (l : List Nat)
    (hf : OvMap.find st.1 st.2.1._application_info.id = some names) (hn : name ∈ names)
    (hl : OvMap.find st.2.1._stream_tracks name = some l) :
    (TranscodeStream.StreamStep env profile_tracks origin st stream).2.1._application_info
      = st.2.1._application_info ∧
    (∃ names1, OvMap.find (TranscodeStream.StreamStep env profile_tracks origin st stream).1
      st.2.1._application_info.id = some names1 ∧ name ∈ names1) ∧
    OvMap.find (TranscodeStream.StreamStep env profile_tracks origin st stream).2.1._stream_tracks
      name = some l := by
  obtain ⟨a1, a2, a3, names1, a4, a5, _⟩ := AddStreamInfoOutput_registry st.2.1 st.1
    (Replace stream.name OriginStreamName origin) name names hf
  unfold TranscodeStream.StreamStep
  simp only
  split_ifs with hr
  · exact ⟨a1, ⟨names1, a4, a5 hn⟩, by simp only [a2]; exact hl⟩
  · have htrue : (st.2.1.AddStreamInfoOutput st.1
        (Replace stream.name OriginStreamName origin)).1 = true := by
      simpa using hr
    have hne : name ≠ Replace stream.name OriginStreamName origin := by
      intro e
      exact a3 htrue (e ▸ hn)
    refine ⟨a1, ⟨names1, a4, a5 hn⟩, ?_⟩
    simp only
    rw [OvMap.find_assign_other _ _ _ _ hne, a2]
    exact hl

theorem GenerateStreamTracks_persist (env : Env) (profile_tracks : List (OvString × List Nat))
    (origin : OvString) (name : OvString) (l : List Nat) (streams : List StreamConfig) :
    ∀ (st : StreamList × TranscodeStream × List Nat) (names : List OvString),
      OvMap.find st.1 st.2.1._application_info.id = some names → name ∈ names →
      OvMap.find st.2.1._stream_tracks name = some l →
      OvMap.find (TranscodeStream.GenerateStreamTracks env profile_tracks origin streams
        st).2.1._stream_tracks name = some l := by
  induction streams with
  | nil =>
    intro st names _ _ hl
    exact hl
  | cons stream rest ih =>
    intro st names hf hn hl
    simp only [TranscodeStream.GenerateStreamTracks]
    obtain ⟨b1, ⟨names1, b2, b3⟩, b4⟩ :=
      StreamStep_persist env profile_tracks origin st stream name names l hf hn hl
    exact ih _ names1 (by rw [b1]; exact b2) b3 b4

theorem StreamStep_new (env : Env) (profile_tracks : List (OvString × List Nat))
    (hlen : ∀ e ∈ profile_tracks, e.2.length = 2) (origin : OvString)
    (st : StreamList × TranscodeStream × List Nat) (stream : StreamConfig)
    (h0 : st.2.2 = [])
    (hnew : (st.2.1.AddStreamInfoOutput st.1 (Replace stream.name OriginStreamName origin)).1
      = true) :
    (TranscodeStream.StreamStep env profile_tracks origin st stream).2.1._application_info
      = st.2.1._application_info ∧
    (∃ names1, OvMap.find (TranscodeStream.StreamStep env profile_tracks origin st stream).1
        st.2.1._application_info.id = some names1 ∧
      Replace stream.name OriginStreamName origin ∈ names1) ∧
    OvMap.find (TranscodeStream.StreamStep env profile_tracks origin st stream).2.1._stream_tracks
        (Replace stream.name OriginStreamName origin)
      = some (RoutingList profile_tracks stream.profiles) := by
  have hfind : ∃ names, OvMap.find st.1 st.2.1._application_info.id = some names := by
    cases hf : OvMap.find st.1 st.2.1._application_info.id with
    | none =>
      unfold TranscodeStream.AddStreamInfoOutput at hnew
      rw [hf] at hnew
      cases hnew
    | some names => exact ⟨names, rfl⟩
  obtain ⟨names, hf⟩ := hfind
  obtain ⟨a1, _, _, names1, a4, _, a6⟩ := AddStreamInfoOutput_registry st.2.1 st.1
    (Replace stream.name OriginStreamName origin)
    (Replace stream.name OriginStreamName origin) names hf
  unfold TranscodeStream.StreamStep
  simp only
  rw [if_neg (by simp [hnew]), h0, StreamProfilesLoop_eq env profile_tracks hlen]
  simp only [List.nil_append]
  exact ⟨a1, ⟨names1, a4, a6 hnew⟩, OvMap.find_assign_self _ _ _⟩

theorem Constructor_of_stream_tracks (env : Env) (stream_list : StreamList)
    (application_info : Application) (stream_info : StreamInfo)
    (hdec : (TranscodeStream.ConstructorDecoders env application_info stream_info)._decoders
      ≠ []) :
    (TranscodeStream.Constructor env stream_list application_info stream_info).2._stream_tracks
      = (TranscodeStream.GenerateStreamTracks env
        (TranscodeStream.ConstructorProfileTracks env application_info stream_info)
        stream_info.name application_info.streams
        (StreamListTouch stream_list application_info.id,
          ((TranscodeStream.ConstructorDecoders env application_info
            stream_info).GenerateProfileTracks application_info.encodes).1,
          ((TranscodeStream.ConstructorDecoders env application_info
            stream_info).GenerateProfileTracks application_info.encodes).2.2)).2.1._stream_tracks := by
  have hd : ¬ (TranscodeStream.ConstructorDecoders env application_info
      stream_info)._decoders.isEmpty = true := by
    simpa [List.isEmpty_iff] using hdec
  unfold TranscodeStream.ConstructorProfileTracks
  generalize hg : TranscodeStream.GenerateStreamTracks env
      ((TranscodeStream.ConstructorDecoders env application_info
        stream_info).GenerateProfileTracks application_info.encodes).2.1
      stream_info.name application_info.streams
      (StreamListTouch stream_list application_info.id,
        ((TranscodeStream.ConstructorDecoders env application_info
          stream_info).GenerateProfileTracks application_info.encodes).1,
        ((TranscodeStream.ConstructorDecoders env application_info
          stream_info).GenerateProfileTracks application_info.encodes).2.2) = st
  obtain ⟨c, d⟩ := CopyTracks_fields env
    ({ st.2.1 with
      _output_contexts := TranscodeStream.DeleteUnused
        (TranscodeStream.UnusedTracks st.2.1._stream_tracks st.2.1._output_contexts st.2.2)
        st.2.1._output_contexts } : TranscodeStream)._stream_info_input.tracks
    { st.2.1 with
      _output_contexts := TranscodeStream.DeleteUnused
        (TranscodeStream.UnusedTracks st.2.1._stream_tracks st.2.1._output_contexts st.2.2)
        st.2.1._output_contexts }
  unfold TranscodeStream.Constructor
  simp only
  rw [if_neg hd, hg]
  split_ifs
  all_goals exact d

/-- C12: let the engine have a decoder and every entry of `profile_tracks` hold two track
ids (a video id followed by an audio id). For a configured output stream whose
substituted name is newly registered when its turn comes (`AddStreamInfoOutput` returns
true after the streams `pre` before it), the list `_stream_tracks[name]` the constructor
leaves is the concatenation, in the order of the profile list of the stream, of the
video id and the audio id of each profile that is in `profile_tracks`; a profile that is
not there contributes nothing. -/
theorem Constructor_stream_tracks_concat (env : Env) (stream_list : StreamList)
    (application_info : Application) (stream_info : StreamInfo)
    (pre post : List StreamConfig) (stream : StreamConfig)
    (hdec : (TranscodeStream.ConstructorDecoders env application_info stream_info)._decoders
      ≠ [])
    (hlen : ∀ e ∈ TranscodeStream.ConstructorProfileTracks env application_info stream_info,
      e.2.length = 2)
    (hsplit : application_info.streams = pre ++ stream :: post)
    (hnew : ((TranscodeStream.GenerateStreamTracks env
        (TranscodeStream.ConstructorProfileTracks env application_info stream_info)
        stream_info.name pre
        (StreamListTouch stream_list application_info.id,
          ((TranscodeStream.ConstructorDecoders env application_info
            stream_info).GenerateProfileTracks application_info.encodes).1,
          ((TranscodeStream.ConstructorDecoders env application_info
            stream_info).GenerateProfileTracks application_info.encodes).2.2)).2.1.AddStreamInfoOutput
        (TranscodeStream.GenerateStreamTracks env
          (TranscodeStream.ConstructorProfileTracks env application_info stream_info)
          stream_info.name pre
          (StreamListTouch stream_list application_info.id,
            ((TranscodeStream.ConstructorDecoders env application_info
              stream_info).GenerateProfileTracks application_info.encodes).1,
            ((TranscodeStream.ConstructorDecoders env application_info
              stream_info).GenerateProfileTracks application_info.encodes).2.2)).1
        (Replace stream.name OriginStreamName stream_info.name)).1 = true) :
    OvMap.find
        (TranscodeStream.Constructor env stream_list application_info stream_info).2._stream_tracks
        (Replace stream.name OriginStreamName stream_info.name)
      = some (RoutingList
          (TranscodeStream.ConstructorProfileTracks env application_info stream_info)
          stream.profiles) := by
  obtain ⟨p0, _, _⟩ := GenerateProfileTracks_keys application_info.encodes
    (TranscodeStream.ConstructorDecoders env application_info stream_info, [], []) rfl
    (by intro e he; simp at he)
  rw [Constructor_of_stream_tracks env stream_list application_info stream_info hdec, hsplit,
    GenerateStreamTracks_append]
  generalize hpre : TranscodeStream.GenerateStreamTracks env
      (TranscodeStream.ConstructorProfileTracks env application_info stream_info)
      stream_info.name pre
      (StreamListTouch stream_list application_info.id,
        ((TranscodeStream.ConstructorDecoders env application_info
          stream_info).GenerateProfileTracks application_info.encodes).1,
        ((TranscodeStream.ConstructorDecoders env application_info
          stream_info).GenerateProfileTracks application_info.encodes).2.2) = st_pre at hnew ⊢
  have t0 : st_pre.2.2 = [] := by
    rw [← hpre]
    exact (GenerateStreamTracks_tracks env _ _ pre _ p0).1
  obtain ⟨m1, ⟨names1, m2, m3⟩, m4⟩ := StreamStep_new env _ hlen stream_info.name
    st_pre stream t0 hnew
  simp only [TranscodeStream.GenerateStreamTracks]
  exact GenerateStreamTracks_persist env _ _ _ _ post _ names1 (by rw [m1]; exact m2) m3 m4

/-- The statement of `Constructor_stream_tracks_concat` for the stream that lists `P1`
and the unknown profile `Pmissing`: its track list is that of `P1`. -/
theorem Constructor_stream_tracks_concat_witness :
    (TranscodeStream.ConstructorDecoders Sample.env Sample.appPartly Sample.cam)._decoders ≠ [] ∧
    (∀ e ∈ TranscodeStream.ConstructorProfileTracks Sample.env Sample.appPartly Sample.cam,
      e.2.length = 2) ∧
    RoutingList (TranscodeStream.ConstructorProfileTracks Sample.env Sample.appPartly Sample.cam)
      ["P1".toList, "Pmissing".toList] = [0x60, 0x70] ∧
    OvMap.find
        (TranscodeStream.Constructor Sample.env [] Sample.appPartly Sample.cam).2._stream_tracks
        (Replace Sample.liveTemplate OriginStreamName Sample.cam.name)
      = some (RoutingList
          (TranscodeStream.ConstructorProfileTracks Sample.env Sample.appPartly Sample.cam)
          ["P1".toList, "Pmissing".toList]) :=
  ⟨by decide, by decide, by decide,
    Constructor_stream_tracks_concat Sample.env [] Sample.appPartly Sample.cam [] []
      { name := Sample.liveTemplate, profiles := ["P1".toList, "Pmissing".toList] }
      (by decide) (by decide) rfl (by decide)⟩

/-! ## H264FragmentHeader::Parse -/

namespace H264FragmentHeader

theorem getElem?_lt {srcData : List Nat} {i v : Nat} (h : srcData[i]? = some v) :
    i < srcData.length := by
  obtain ⟨hi, _⟩ := List.getElem?_eq_some.mp h
  exact hi

theorem StartCode3_iff (srcData : List Nat) (dataOffset : Nat)
    (hn : srcData.length < 18446744073709551616) :
    StartCode3 srcData srcData.length dataOffset ↔ Bytes3 srcData dataOffset := by
  unfold StartCode3 Bytes3 subSize
  constructor
  · rintro ⟨_, h⟩
    exact h
  · rintro ⟨h0, h1, h2⟩
    have := getElem?_lt h2
    exact ⟨by omega, h0, h1, h2⟩

theorem StartCode4_iff (srcData : List Nat) (dataOffset : Nat)
    (hn : srcData.length < 18446744073709551616) :
    StartCode4 srcData srcData.length dataOffset ↔ Bytes4 srcData dataOffset := by
  unfold StartCode4 Bytes4 subSize
  constructor
  · rintro ⟨_, h⟩
    exact h
  · rintro ⟨h0, h1, h2, h3⟩
    have := getElem?_lt h3
    exact ⟨by omega, h0, h1, h2, h3⟩

theorem ScanInv_start3 (srcData : List Nat) (dataOffset : Nat) (offset_list : List (Nat × Nat))
    (hinv : ScanInv srcData dataOffset offset_list) (hb : Bytes3 srcData dataOffset) :
    ScanInv srcData (dataOffset + 3) (offset_list ++ [(dataOffset, 3)]) := by
  obtain ⟨i1, i2, i3, i4, i5⟩ := hinv
  obtain ⟨b0, b1, b2⟩ := hb
  have hlt := getElem?_lt b2
  refine ⟨by omega, by simp only [List.length_append, List.length_singleton]; omega, ?_, ?_, ?_⟩
  · intro e he
    rcases List.mem_append.mp he with he | he
    · exact ⟨(i3 e he).1, by have := (i3 e he).2; omega⟩
    · simp only [List.mem_singleton] at he
      subst he
      exact ⟨Or.inl ⟨rfl, b0, b1, b2⟩, le_refl _⟩
  · rw [List.pairwise_append]
    refine ⟨i4, List.pairwise_singleton _ _, ?_⟩
    intro a ha b hb
    simp only [List.mem_singleton] at hb
    subst hb
    exact (i3 a ha).2
  · intro p hp hp3
    by_cases hlt2 : p < dataOffset
    · obtain ⟨e, he, hh⟩ := i5 p hlt2 hp3
      exact ⟨e, List.mem_append_left _ he, hh⟩
    · obtain ⟨c0, c1, c2⟩ := hp3
      have hcase : p = dataOffset ∨ p = dataOffset + 1 ∨ p = dataOffset + 2 := by omega
      rcases hcase with rfl | rfl | rfl
      · exact ⟨(p, 3), List.mem_append_right _ (List.mem_singleton.mpr rfl), Or.inl ⟨rfl, rfl⟩⟩
      · rw [show dataOffset + 1 + 1 = dataOffset + 2 from rfl, b2] at c1
        cases c1
      · rw [b2] at c0
        cases c0

theorem ScanInv_start4 (srcData : List Nat) (dataOffset : Nat) (offset_list : List (Nat × Nat))
    (hinv : ScanInv srcData dataOffset offset_list) (hb : Bytes4 srcData dataOffset) :
    ScanInv srcData (dataOffset + 4) (offset_list ++ [(dataOffset, 4)]) := by
  obtain ⟨i1, i2, i3, i4, i5⟩ := hinv
  obtain ⟨b0, b1, b2, b3⟩ := hb
  have hlt := getElem?_lt b3
  refine ⟨by omega, by simp only [List.length_append, List.length_singleton]; omega, ?_, ?_, ?_⟩
  · intro e he
    rcases List.mem_append.mp he with he | he
    · exact ⟨(i3 e he).1, by have := (i3 e he).2; omega⟩
    · simp only [List.mem_singleton] at he
      subst he
      exact ⟨Or.inr ⟨rfl, b0, b1, b2, b3⟩, le_refl _⟩
  · rw [List.pairwise_append]
    refine ⟨i4, List.pairwise_singleton _ _, ?_⟩
    intro a ha b hb
    simp only [List.mem_singleton] at hb
    subst hb
    exact (i3 a ha).2
  · intro p hp hp3
    by_cases hlt2 : p < dataOffset
    · obtain ⟨e, he, hh⟩ := i5 p hlt2 hp3
      exact ⟨e, List.mem_append_left _ he, hh⟩
    · obtain ⟨c0, c1, c2⟩ := hp3
      have hcase : p = dataOffset ∨ p = dataOffset + 1 ∨ p = dataOffset + 2 ∨
          p = dataOffset + 3 := by omega
      rcases hcase with rfl | rfl | rfl | rfl
      · rw [b2] at c2
        cases c2
      · exact ⟨(dataOffset, 4), List.mem_append_right _ (List.mem_singleton.mpr rfl),
          Or.inr ⟨rfl, rfl⟩⟩
      · rw [show dataOffset + 2 + 1 = dataOffset + 3 from rfl, b3] at c1
        cases c1
      · rw [b3] at c0
        cases c0

theorem ScanInv_step (srcData : List Nat) (dataOffset : Nat) (offset_list : List (Nat × Nat))
    (hinv : ScanInv srcData dataOffset offset_list) (hlt : dataOffset < srcData.length)
    (hb : ¬ Bytes3 srcData dataOffset) :
    ScanInv srcData (dataOffset + 1) offset_list := by
  obtain ⟨i1, i2, i3, i4, i5⟩ := hinv
  refine ⟨by omega, by omega, ?_, i4, ?_⟩
  · intro e he
    exact ⟨(i3 e he).1, by have := (i3 e he).2; omega⟩
  · intro p hp hp3
    by_cases hlt2 : p < dataOffset
    · exact i5 p hlt2 hp3
    · have : p = dataOffset := by omega
      subst this
      exact absurd hp3 hb

/-- The scan ends within the turns it gets, and `offset_list` then lists the start codes
of the whole buffer. -/
theorem ScanLoop_inv (srcData : List Nat) (hn : srcData.length < 18446744073709551616) :
    ∀ (fuel dataOffset : Nat) (offset_list : List (Nat × Nat)),
      srcData.length - dataOffset ≤ fuel →
      ScanInv srcData dataOffset offset_list →
      ∃ result, ScanLoop srcData srcData.length fuel dataOffset offset_list = some result ∧
        ScanInv srcData srcData.length result := by
  intro fuel
  induction fuel with
  | zero =>
    intro dataOffset offset_list hf hinv
    have h1 := hinv.1
    have he : dataOffset = srcData.length := by omega
    subst he
    exact ⟨offset_list, by simp [ScanLoop], hinv⟩
  | succ fuel ih =>
    intro dataOffset offset_list hf hinv
    have h1 := hinv.1
    simp only [ScanLoop]
    by_cases hlt : dataOffset < srcData.length
    · rw [if_pos hlt]
      by_cases h3 : StartCode3 srcData srcData.length dataOffset
      · rw [if_pos h3]
        have hb := (StartCode3_iff srcData dataOffset hn).mp h3
        have hlen := getElem?_lt hb.2.2
        have ha : addSize dataOffset 3 = dataOffset + 3 := by
          unfold addSize
          omega
        rw [ha]
        exact ih _ _ (by omega) (ScanInv_start3 srcData dataOffset offset_list hinv hb)
      · rw [if_neg h3]
        have hnb : ¬ Bytes3 srcData dataOffset :=
          fun hb => h3 ((StartCode3_iff srcData dataOffset hn).mpr hb)
        by_cases h4 : StartCode4 srcData srcData.length dataOffset
        · rw [if_pos h4]
          have hb := (StartCode4_iff srcData dataOffset hn).mp h4
          have hlen := getElem?_lt hb.2.2.2
          have ha : addSize dataOffset 4 = dataOffset + 4 := by
            unfold addSize
            omega
          rw [ha]
          exact ih _ _ (by omega) (ScanInv_start4 srcData dataOffset offset_list hinv hb)
        · rw [if_neg h4]
          have ha : addSize dataOffset 1 = dataOffset + 1 := by
            unfold addSize
            omega
          rw [ha]
          exact ih _ _ (by omega) (ScanInv_step srcData dataOffset offset_list hinv hlt hnb)
    · rw [if_neg hlt]
      have he : dataOffset = srcData.length := by omega
      subst he
      exact ⟨offset_list, rfl, hinv⟩


theorem pairwise_getElem? {α : Type} {R : α → α → Prop} {l : List α} (h : l.Pairwise R)
    {i j : Nat} {a b : α} (hi : l[i]? = some a) (hj : l[j]? = some b) (hij : i < j) : R a b := by
  obtain ⟨h1, rfl⟩ := List.getElem?_eq_some.mp hi
  obtain ⟨h2, rfl⟩ := List.getElem?_eq_some.mp hj
  exact List.pairwise_iff_getElem.mp h i j h1 h2 hij

theorem Fragments_length (dataSize : Nat) (offset_list : List (Nat × Nat)) :
    (Fragments dataSize offset_list).length = offset_list.length := by
  induction offset_list with
  | nil => rfl
  | cons cur tl ih =>
    cases tl with
    | nil => rfl
    | cons next rest => simp only [Fragments, List.length_cons] at ih ⊢; omega

/-- The `i`-th fragment starts right after the `i`-th start code and ends where the
next start code begins, or at the end of the buffer. -/
theorem Fragments_getElem? (dataSize : Nat) (offset_list : List (Nat × Nat)) :
    ∀ (i : Nat) (cur : Nat × Nat), offset_list[i]? = some cur →
      (Fragments dataSize offset_list)[i]? = some (cur.1 + cur.2,
        (match offset_list[i + 1]? with
          | some next => next.1
          | none => dataSize) - (cur.1 + cur.2)) := by
  induction offset_list with
  | nil => intro i cur h; simp at h
  | cons hd tl ih =>
    intro i cur h
    cases tl with
    | nil =>
      cases i with
      | zero =>
        simp only [List.getElem?_cons_zero, Option.some.injEq] at h
        subst h
        simp [Fragments]
      | succ i => simp at h
    | cons next rest =>
      cases i with
      | zero =>
        simp only [List.getElem?_cons_zero, Option.some.injEq] at h
        subst h
        simp [Fragments]
      | succ i =>
        simp only [List.getElem?_cons_succ] at h
        have := ih i cur h
        rw [List.getElem?_cons_succ] at this
        simp only [Fragments, List.getElem?_cons_succ]
        exact this

/-- The second loop of `Parse` computes the fragments, and none of its `size_t`
operations wraps around. -/
theorem FragmentLoop_eq (offset_list : List (Nat × Nat)) (dataSize : Nat)
    (hn : dataSize < 18446744073709551616) (hlen : offset_list.length ≤ dataSize)
    (hb : ∀ e ∈ offset_list, e.1 + e.2 ≤ dataSize)
    (hp : offset_list.Pairwise (fun a b => a.1 + a.2 ≤ b.1)) :
    ∀ (count index : Nat) (header : FragmentationHeader),
      index + count = offset_list.length →
      FragmentLoop offset_list dataSize count index header
        = some { fragmentation_offset := header.fragmentation_offset ++
                  ((Fragments dataSize offset_list).drop index).map Prod.fst
                 fragmentation_length := header.fragmentation_length ++
                  ((Fragments dataSize offset_list).drop index).map Prod.snd } := by
  intro count
  induction count with
  | zero =>
    intro index header h
    have : (Fragments dataSize offset_list).length ≤ index := by
      rw [Fragments_length]; omega
    simp [FragmentLoop, List.drop_of_length_le this]
  | succ count ih =>
    intro index header h
    have hi : index < offset_list.length := by omega
    have hcur : offset_list[index]? = some offset_list[index] := List.getElem?_eq_getElem hi
    have hbc := hb offset_list[index] (List.getElem_mem hi)
    have hfr := Fragments_getElem? dataSize offset_list index _ hcur
    have hfl : index < (Fragments dataSize offset_list).length := by
      rw [Fragments_length]; exact hi
    have hdrop : (Fragments dataSize offset_list).drop index
        = (Fragments dataSize offset_list)[index] ::
          (Fragments dataSize offset_list).drop (index + 1) := List.drop_eq_getElem_cons hfl
    have hfe : (Fragments dataSize offset_list)[index]?
        = some (Fragments dataSize offset_list)[index] := List.getElem?_eq_getElem hfl
    rw [hfe] at hfr
    simp only [Option.some.injEq] at hfr
    have hsub1 : subSize offset_list.length 1 = offset_list.length - 1 := by
      unfold subSize; omega
    have hadd : addSize offset_list[index].1 offset_list[index].2
        = offset_list[index].1 + offset_list[index].2 := by
      unfold addSize; omega
    simp only [FragmentLoop, hsub1, hcur, hadd]
    by_cases hlast : index ≠ offset_list.length - 1
    · rw [if_pos hlast]
      have hi1 : index + 1 < offset_list.length := by omega
      have hnext : offset_list[index + 1]? = some offset_list[index + 1] :=
        List.getElem?_eq_getElem hi1
      have hbn := hb offset_list[index + 1] (List.getElem_mem hi1)
      have hord := pairwise_getElem? hp hcur hnext (Nat.lt_succ_self _)
      simp only at hord
      have hsub : subSize offset_list[index + 1].1
          (offset_list[index].1 + offset_list[index].2)
          = offset_list[index + 1].1 - (offset_list[index].1 + offset_list[index].2) := by
        unfold subSize; omega
      rw [hnext] at hfr
      simp only at hfr
      simp only [hnext, hsub]
      rw [ih (index + 1) _ (by omega), hdrop, hfr]
      simp [hadd, hsub]
    · rw [if_neg hlast]
      have hnone : offset_list[index + 1]? = none :=
        List.getElem?_eq_none (by omega)
      have hsub : subSize dataSize (offset_list[index].1 + offset_list[index].2)
          = dataSize - (offset_list[index].1 + offset_list[index].2) := by
        unfold subSize; omega
      rw [hnone] at hfr
      simp only at hfr
      simp only [hsub]
      rw [ih (index + 1) _ (by omega), hdrop, hfr]
      simp [hadd, hsub]

/-- `Parse` returns true; the scan leaves the start codes of the buffer in
`offset_list`, and the fragment header holds the fragments between them. -/
theorem Parse_eq (srcData : List Nat) (fragment_header : FragmentationHeader)
    (hn : srcData.length < 18446744073709551616) :
    ∃ offset_list,
      ScanLoop srcData srcData.length srcData.length 0 [] = some offset_list ∧
      ScanInv srcData srcData.length offset_list ∧
      Parse srcData fragment_header = some (true,
        { fragmentation_offset := (Fragments srcData.length offset_list).map Prod.fst
          fragmentation_length := (Fragments srcData.length offset_list).map Prod.snd }) := by
  have h0 : ScanInv srcData 0 [] := by
    refine ⟨Nat.zero_le _, le_refl _, ?_, List.Pairwise.nil, ?_⟩
    · intro e he; simp at he
    · intro p hp; omega
  obtain ⟨offset_list, hs, hinv⟩ := ScanLoop_inv srcData hn srcData.length 0 [] (by omega) h0
  refine ⟨offset_list, hs, hinv, ?_⟩
  obtain ⟨_, i2, i3, i4, _⟩ := hinv
  unfold Parse
  simp only [hs]
  rw [FragmentLoop_eq offset_list srcData.length hn i2 (fun e he => (i3 e he).2) i4
    offset_list.length 0 fragment_header.Clear (by omega)]
  simp [FragmentationHeader.Clear]


theorem Fragments_entry (dataSize : Nat) (offset_list : List (Nat × Nat)) (i : Nat)
    (cur : Nat × Nat) (h : offset_list[i]? = some cur) :
    ((Fragments dataSize offset_list).map Prod.fst)[i]? = some (cur.1 + cur.2) ∧
    ((Fragments dataSize offset_list).map Prod.snd)[i]? = some
      ((match offset_list[i + 1]? with
        | some next => next.1
        | none => dataSize) - (cur.1 + cur.2)) := by
  rw [List.getElem?_map, List.getElem?_map, Fragments_getElem? dataSize offset_list i cur h]
  exact ⟨rfl, rfl⟩

theorem Fragments_index (dataSize : Nat) (offset_list : List (Nat × Nat)) (i o : Nat)
    (h : ((Fragments dataSize offset_list).map Prod.fst)[i]? = some o) :
    ∃ cur, offset_list[i]? = some cur := by
  have hi : i < ((Fragments dataSize offset_list).map Prod.fst).length :=
    (List.getElem?_eq_some.mp h).1
  rw [List.length_map, Fragments_length] at hi
  exact ⟨_, List.getElem?_eq_getElem hi⟩

theorem IsStartCode_size (srcData : List Nat) (e : Nat × Nat) (h : IsStartCode srcData e) :
    3 ≤ e.2 ∧ Bytes3 srcData (e.1 + e.2 - 3) := by
  rcases h with ⟨h1, h2⟩ | ⟨h1, h2, h3, h4, h5⟩
  · rw [h1]
    exact ⟨le_refl _, by simpa using h2⟩
  · rw [h1]
    refine ⟨by omega, ?_⟩
    have e1 : e.1 + 4 - 3 = e.1 + 1 := by omega
    rw [e1]
    exact ⟨h3, h4, h5⟩

/-- Where a fragment ends: at the next start code, or at the end of the buffer. -/
theorem fragment_end (srcData : List Nat) (offset_list : List (Nat × Nat))
    (hinv : ScanInv srcData srcData.length offset_list) (i : Nat) (cur : Nat × Nat)
    (h : offset_list[i]? = some cur) :
    cur.1 + cur.2 ≤ (match offset_list[i + 1]? with
      | some next => next.1
      | none => srcData.length) ∧
    (match offset_list[i + 1]? with
      | some next => next.1
      | none => srcData.length) ≤ srcData.length := by
  obtain ⟨_, _, i3, i4, _⟩ := hinv
  cases hnx : offset_list[i + 1]? with
  | none => exact ⟨(i3 cur (List.getElem?_mem h)).2, le_refl _⟩
  | some next =>
    have := (i3 next (List.getElem?_mem hnx)).2
    exact ⟨pairwise_getElem? i4 h hnx (Nat.lt_succ_self _), by simp only; omega⟩

/-- C15: for every byte buffer (its length is a `size_t`), the scan of `Parse` ends
within one turn for each byte and `Parse` returns true. The offset list and the length
list it writes have one entry for each start code the scan has found, and none exactly
when the buffer holds no `00 00 01`. The fragment `i` starts right after the start
code `i`, `offset_i + length_i` is the position of the next start code, or the length
of the buffer for the last entry, so that no subtraction wraps around, every fragment
lies inside the buffer and ends before every later one starts. -/
theorem Parse_fragments (srcData : List Nat) (fragment_header : FragmentationHeader)
    (hn : srcData.length < 18446744073709551616) :
    ∃ offset_list header,
      ScanLoop srcData srcData.length srcData.length 0 [] = some offset_list ∧
      Parse srcData fragment_header = some (true, header) ∧
      header.fragmentation_offset.length = offset_list.length ∧
      header.fragmentation_length.length = offset_list.length ∧
      (∀ e ∈ offset_list, IsStartCode srcData e) ∧
      (offset_list = [] ↔ ∀ p, ¬ Bytes3 srcData p) ∧
      ∀ i cur, offset_list[i]? = some cur →
        ∃ o l, header.fragmentation_offset[i]? = some o ∧
          header.fragmentation_length[i]? = some l ∧
          o = cur.1 + cur.2 ∧
          o + l ≤ srcData.length ∧
          o + l = (match offset_list[i + 1]? with
            | some next => next.1
            | none => srcData.length) ∧
          ∀ j o2, i < j → header.fragmentation_offset[j]? = some o2 → o + l < o2 := by
  obtain ⟨offset_list, hs, hinv, hp⟩ := Parse_eq srcData fragment_header hn
  refine ⟨offset_list, _, hs, hp, ?_, ?_, fun e he => (hinv.2.2.1 e he).1, ?_, ?_⟩
  · simp only [List.length_map, Fragments_length]
  · simp only [List.length_map, Fragments_length]
  · constructor
    · intro he p hb
      have hlt := getElem?_lt hb.2.2
      obtain ⟨e, hmem, _⟩ := hinv.2.2.2.2 p (by omega) hb
      rw [he] at hmem
      simp at hmem
    · intro hno
      cases hl : offset_list with
      | nil => rfl
      | cons e tl =>
        have hmem : e ∈ offset_list := by rw [hl]; exact List.mem_cons_self _ _
        exact absurd (IsStartCode_size srcData e (hinv.2.2.1 e hmem).1).2 (hno _)
  · intro i cur hcur
    obtain ⟨f1, f2⟩ := Fragments_entry srcData.length offset_list i cur hcur
    obtain ⟨e1, e2⟩ := fragment_end srcData offset_list hinv i cur hcur
    refine ⟨_, _, f1, f2, rfl, by omega, by omega, ?_⟩
    intro j o2 hij ho2
    obtain ⟨e, he⟩ := Fragments_index srcData.length offset_list j o2 ho2
    obtain ⟨g1, _⟩ := Fragments_entry srcData.length offset_list j e he
    simp only at ho2
    rw [g1] at ho2
    simp only [Option.some.injEq] at ho2
    have hj : j < offset_list.length := (List.getElem?_eq_some.mp he).1
    have hi1 : i + 1 < offset_list.length := by omega
    have hnext : offset_list[i + 1]? = some offset_list[i + 1] := List.getElem?_eq_getElem hi1
    have h3 := (IsStartCode_size srcData e (hinv.2.2.1 e (List.getElem?_mem he)).1).1
    rw [hnext] at e1
    simp only at e1
    simp only [hnext]
    rcases Nat.lt_or_ge (i + 1) j with h1 | h1
    · have := pairwise_getElem? hinv.2.2.2.1 hnext he h1
      simp only at this
      omega
    · have hji : j = i + 1 := by omega
      subst hji
      rw [hnext] at he
      simp only [Option.some.injEq] at he
      subst he
      omega

/-- The statement of `Parse_fragments` on a buffer with three start codes, the last one
at its end. -/
theorem Parse_fragments_witness :
    [0, 0, 1, 5, 6, 0, 0, 0, 1, 7, 8, 9, 0, 0, 1].length < 18446744073709551616 ∧
    Parse [0, 0, 1, 5, 6, 0, 0, 0, 1, 7, 8, 9, 0, 0, 1] ⟨[], []⟩
      = some (true, ⟨[3, 9, 15], [2, 3, 0]⟩) ∧
    ∃ offset_list header,
      ScanLoop [0, 0, 1, 5, 6, 0, 0, 0, 1, 7, 8, 9, 0, 0, 1] 15 15 0 [] = some offset_list ∧
      Parse [0, 0, 1, 5, 6, 0, 0, 0, 1, 7, 8, 9, 0, 0, 1] ⟨[], []⟩ = some (true, header) ∧
      header.fragmentation_offset.length = offset_list.length :=
  ⟨by decide, by decide,
    (Parse_fragments [0, 0, 1, 5, 6, 0, 0, 0, 1, 7, 8, 9, 0, 0, 1] ⟨[], []⟩ (by decide)).imp
      (fun _ h => h.imp (fun _ h2 => ⟨h2.1, h2.2.1, h2.2.2.1⟩))⟩

/-- C16: for every byte buffer, no fragment that `Parse` writes holds the three bytes
`00 00 01` entirely inside it, and the three bytes before each fragment are `00 00 01`
or the four bytes before it are `00 00 00 01`. -/
theorem Parse_fragments_hold_no_start_code (srcData : List Nat)
    (fragment_header : FragmentationHeader) (hn : srcData.length < 18446744073709551616) :
    ∃ header, Parse srcData fragment_header = some (true, header) ∧
      ∀ (i o l : Nat), header.fragmentation_offset[i]? = some o →
        header.fragmentation_length[i]? = some l →
        (∀ p, o ≤ p → p + 3 ≤ o + l → ¬ Bytes3 srcData p) ∧
        ((3 ≤ o ∧ Bytes3 srcData (o - 3)) ∨ (4 ≤ o ∧ Bytes4 srcData (o - 4))) := by
  obtain ⟨offset_list, _, hinv, hp⟩ := Parse_eq srcData fragment_header hn
  refine ⟨_, hp, ?_⟩
  intro i o l ho hl
  obtain ⟨cur, hcur⟩ := Fragments_index srcData.length offset_list i o ho
  obtain ⟨f1, f2⟩ := Fragments_entry srcData.length offset_list i cur hcur
  obtain ⟨e1, e2⟩ := fragment_end srcData offset_list hinv i cur hcur
  simp only at ho hl
  rw [f1] at ho
  rw [f2] at hl
  simp only [Option.some.injEq] at ho hl
  obtain ⟨_, _, i3, i4, i5⟩ := hinv
  have hcs := (i3 cur (List.getElem?_mem hcur)).1
  have hsz := IsStartCode_size srcData cur hcs
  constructor
  · intro p hp1 hp2 hb
    have hlt := getElem?_lt hb.2.2
    obtain ⟨e, hmem, hpos⟩ := i5 p (by omega) hb
    obtain ⟨j, hj, rfl⟩ := List.getElem_of_mem hmem
    have hje : offset_list[j]? = some offset_list[j] := List.getElem?_eq_getElem hj
    have hend : offset_list[j].1 + offset_list[j].2 = p + 3 := by
      rcases hpos with ⟨a, b⟩ | ⟨a, b⟩ <;> omega
    have hsj := (IsStartCode_size srcData _ (i3 _ (List.getElem_mem hj)).1).1
    rcases Nat.lt_trichotomy j i with hlt2 | heq | hgt
    · have := pairwise_getElem? i4 hje hcur hlt2
      simp only at this
      omega
    · subst heq
      rw [hje] at hcur
      simp only [Option.some.injEq] at hcur
      subst hcur
      omega
    · have hi1 : i + 1 < offset_list.length := by omega
      have hnx : offset_list[i + 1]? = some offset_list[i + 1] := List.getElem?_eq_getElem hi1
      rw [hnx] at e1 hl
      simp only at e1 hl
      rcases Nat.lt_or_ge (i + 1) j with h1 | h1
      · have := pairwise_getElem? i4 hnx hje h1
        simp only at this
        omega
      · have hji : j = i + 1 := by omega
        subst hji
        omega
  · rcases hcs with ⟨h1, h2⟩ | ⟨h1, h2⟩
    · left
      have : o - 3 = cur.1 := by omega
      rw [this]
      exact ⟨by omega, h2⟩
    · right
      have : o - 4 = cur.1 := by omega
      rw [this]
      exact ⟨by omega, h2⟩

/-- The statement of `Parse_fragments_hold_no_start_code` on a buffer whose second start
code has four bytes. -/
theorem Parse_fragments_hold_no_start_code_witness :
    [0, 0, 1, 5, 6, 0, 0, 0, 1, 7, 8, 9].length < 18446744073709551616 ∧
    Parse [0, 0, 1, 5, 6, 0, 0, 0, 1, 7, 8, 9] ⟨[], []⟩ = some (true, ⟨[3, 9], [2, 3]⟩) ∧
    ∃ header, Parse [0, 0, 1, 5, 6, 0, 0, 0, 1, 7, 8, 9] ⟨[], []⟩ = some (true, header) ∧
      ∀ (i o l : Nat), header.fragmentation_offset[i]? = some o →
        header.fragmentation_length[i]? = some l →
        (∀ p, o ≤ p → p + 3 ≤ o + l → ¬ Bytes3 [0, 0, 1, 5, 6, 0, 0, 0, 1, 7, 8, 9] p) ∧
        ((3 ≤ o ∧ Bytes3 [0, 0, 1, 5, 6, 0, 0, 0, 1, 7, 8, 9] (o - 3)) ∨
          (4 ≤ o ∧ Bytes4 [0, 0, 1, 5, 6, 0, 0, 0, 1, 7, 8, 9] (o - 4))) :=
  ⟨by decide, by decide,
    Parse_fragments_hold_no_start_code [0, 0, 1, 5, 6, 0, 0, 0, 1, 7, 8, 9] ⟨[], []⟩
      (by decide)⟩

end H264FragmentHeader


end Transcode
